import Mathlib

/-!
# FITS header tools: `dfits` (card reader) and `fitsort` (keyword table)

A shallow embedding of `src/dfits.c` and `src/fitsort.c`.

Conventions of the embedding.

* A C string is a `List Char`: the characters before the terminating NUL.
* A function whose C body can read or write outside the object it was given
  (an index below the start of a buffer, a scan that runs past the terminator,
  a copy length that went negative, a buffer left unwritten and then read)
  returns `Option`; `none` is exactly that event.
* The fixed capacities `MAX_STRING` and `MAX_KEY` are not modelled as limits on
  the command line arguments (their number and their lengths); the 127 character
  limit that `fgets(curline, MAX_STRING, stdin)` puts on an input line is
  modelled, because it decides where lines are cut.
* Loops over the input are written as structural recursion over the list of
  units the loop reads (lines for `fitsort`, 80 byte blocks for `dfits`).
* The result of a program is its return value and the text it writes to the
  standard output; for `dump_fits_filter` also the text written to the standard
  error and the blocks left unread.
-/

namespace Fits

/-! ## Characters and the C library -/

/-- The single quote character, code 39. -/
def quoteChar : Char := Char.ofNat 39

/-- The NUL character. -/
def nulChar : Char := Char.ofNat 0

/-- C `isspace` in the C locale: blank, `\t`, `\n`, `\v`, `\f`, `\r`. -/
def isspace (c : Char) : Bool :=
  c == ' ' || c == '\t' || c == '\n' || c == Char.ofNat 11 || c == Char.ofNat 12 || c == '\r'

/-- C `toupper` in the C locale. -/
def toupper (c : Char) : Char :=
  if 'a' ≤ c ∧ c ≤ 'z' then Char.ofNat (c.toNat - 32) else c

/-- The C string held by a buffer: its characters before the first NUL. -/
def cstr (buf : List Char) : List Char := buf.takeWhile (fun c => c != nulChar)

/-- One `%s` directive of `sscanf`: skip white space, then take the maximal run of
characters that are not white space. `none` when the input ends before a character
of the token is found (the directive fails and nothing is stored); otherwise the
token and the input left after it. -/
def scanToken (s : List Char) : Option (List Char × List Char) :=
  let s1 := s.dropWhile isspace
  if s1 = [] then none
  else some (s1.takeWhile (fun c => !isspace c), s1.dropWhile (fun c => !isspace c))

/-- First call `strtok(s, d)` for a one character delimiter set: the leading
delimiters are skipped, the token runs to the next delimiter, which is overwritten
with NUL. `none` when `s` holds no token; otherwise the token and the text after
the overwritten delimiter (where the next call resumes). -/
def strtok (d : Char) (s : List Char) : Option (List Char × List Char) :=
  let s1 := s.dropWhile (fun c => c == d)
  if s1 = [] then none
  else some (s1.takeWhile (fun c => c != d), (s1.dropWhile (fun c => c != d)).drop 1)

/-- The C string found at the START of a buffer after `strtok(buf, d)` was called on
it and its result ignored: the skipped leading delimiters are still there, and the
string ends where the delimiter closing the first token was overwritten. When there
is no token the buffer is unchanged. -/
def strtokBuffer (d : Char) (s : List Char) : List Char :=
  s.takeWhile (fun c => c == d) ++ (s.dropWhile (fun c => c == d)).takeWhile (fun c => c != d)

/-- The tokens of successive `strtok` calls (`strtok(ws, d)`, then `strtok(NULL, d)`
until it returns `NULL`); `fuel` bounds the number of calls. -/
def strtokAll (d : Char) : Nat → List Char → List (List Char)
  | 0, _ => []
  | fuel + 1, s =>
    match strtok d s with
    | none => []
    | some (tok, rest) => tok :: strtokAll d fuel rest

/-! ## fitsort.c -/

/-- Source `isfilename`: 1 for a line starting with the five characters of the
boundary marker, 2 for a line starting with the magic number, 0 otherwise. -/
def isfilename (string : List Char) : Nat :=
  if "====>".toList.isPrefixOf string then 1
  else if "SIMPLE  =".toList.isPrefixOf string then 2
  else 0

/-- Source `getfilename`: `sscanf(line, "%*s %*s %s", word)`. The result is the
third white space delimited token; `none` when the line has fewer than three tokens,
in which case `word` is not written. -/
def getfilename (line : List Char) : Option (List Char) :=
  match scanToken line with
  | none => none
  | some (_, r1) =>
    match scanToken r1 with
    | none => none
    | some (_, r2) =>
      match scanToken r2 with
      | none => none
      | some (w, _) => some w

/-- Source `expand_hierarch_keyword`: `HIERARCH ESO` followed by every token of
`dotkey` (split at dots by `strtok`), each preceded by one blank. -/
def expand_hierarch_keyword (dotkey : List Char) : List Char :=
  "HIERARCH ESO".toList ++
    ((strtokAll '.' (dotkey.length + 1) dotkey).map (fun tok => ' ' :: tok)).flatten

/-- Lines 324 to 329 of `isdetectedkeyword`: the keyword `kw` of a line. The line is
copied, `strtok(kw, "=")` is called (result ignored), then `i` walks down from the
last character while `kw[i]` is a blank and `kw[i+1]` is set to NUL. The walk has no
lower bound: on a `kw` without any character other than a blank (or an empty one) it
reads `kw[-1]`, which is `none` here. -/
def cardKeyword (line : List Char) : Option (List Char) :=
  let kw := (strtokBuffer '=' line).rdropWhile (fun c => c == ' ')
  if kw = [] then none else some kw

/-- The keyword of a line as the comment of lines 320 to 323 words it: the line up
to the equals sign, with trailing blanks removed. -/
def textBeforeEquals (line : List Char) : List Char :=
  (line.takeWhile (fun c => c != '=')).rdropWhile (fun c => c == ' ')

/-- The value region of a line as the specification words it: the text after the
first equals sign up to the first slash that follows, or to column 80 or the end of
the line when there is none before. -/
def valueRegion (line : List Char) : List Char :=
  (((line.take 80).dropWhile (fun ch => ch != '=')).drop 1).takeWhile (fun ch => ch != '/')

/-- The first white space delimited token of a text, empty when there is none. -/
def firstToken (s : List Char) : List Char :=
  match scanToken s with
  | none => []
  | some (w, _) => w

/-- The keyword a request is compared as: expanded when it contains a dot, as it
is otherwise (the two branches of lines 333 to 345). -/
def canonicalRequest (k : List Char) : List Char :=
  if '.' ∈ k then expand_hierarch_keyword k else k

/-- The comparison loop of `isdetectedkeyword` (lines 332 to 348) started at index
`i`: the first index whose keyword (expanded when it contains a dot) is equal to
`kw`, or -1. -/
def findKeyword (kw : List Char) : List (List Char) → Nat → Int
  | [], _ => -1
  | k :: ks, i =>
    if '.' ∈ k then
      if kw = expand_hierarch_keyword k then (i : Int) else findKeyword kw ks (i + 1)
    else if kw = k then (i : Int)
    else findKeyword kw ks (i + 1)

/-- Source `isdetectedkeyword`: rank of the keyword of `line` in `keywords`, -1 when
it is not in the list. -/
def isdetectedkeyword (line : List Char) (keywords : List (List Char)) : Option Int :=
  (cardKeyword line).map (fun kw => findKeyword kw keywords 0)

/-- The copy loop of `getkeywordvalue` (lines 414 to 430) from column `c` with quote
flag `quote`: the characters copied to `tmp`, as a C string. The loop stops at column
80 or at a slash seen while the flag is down; the character at which it stops is
copied and then dropped again by `tmp[--w] = 0`. When the line ends first, its NUL is
copied, so the C string in `tmp` ends there, whatever the loop copies after it. -/
def collectValue : List Char → Nat → Bool → List Char
  | [], _, _ => []
  | ch :: rest, c, quote =>
    if 80 ≤ c then []
    else if ch = '/' ∧ quote = false then []
    else ch :: collectValue rest (c + 1) (if ch = quoteChar then !quote else quote)

/-- Lines 408 to 430 of `getkeywordvalue`: the text collected in `tmp`. `none` when
the line holds no `=` (the first loop then leaves the string). -/
def collectedText (line : List Char) : Option (List Char) :=
  if '=' ∈ line then
    let c := (line.takeWhile (fun ch => ch != '=')).length + 1
    some (collectValue (line.drop c) c false)
  else none

/-- Source `strchr(tmp, quote)` followed by `begin++`: the text after the first
quote. -/
def afterFirstQuote (tmp : List Char) : List Char :=
  (tmp.dropWhile (fun c => c != quoteChar)).drop 1

/-- Source `strrchr(tmp, quote)`: the text from the last quote on (quote included). -/
def fromLastQuote : List Char → List Char
  | [] => []
  | c :: rest =>
    if quoteChar ∈ rest then fromLastQuote rest
    else if c = quoteChar then c :: rest
    else []

/-- The copy length computed at line 439: `strlen(begin) - strlen(end)`. -/
def copyLength (tmp : List Char) : Int :=
  ((afterFirstQuote tmp).length : Int) - ((fromLastQuote tmp).length : Int)

/-- Lines 435 to 444 of `getkeywordvalue`: the value taken from the collected text.
With a quote in it, `length` characters are copied from `begin` by `strncpy`; a
negative `length` is converted to a huge `size_t` and `strncpy` writes far past
`word`: `none`. Without a quote, `sscanf(tmp, "%s", word)` stores the first token, and
stores nothing (`word` stays empty) when there is none. -/
def valueOfText (tmp : List Char) : Option (List Char) :=
  if quoteChar ∈ tmp then
    if copyLength tmp < 0 then none
    else some ((afterFirstQuote tmp).take (copyLength tmp).toNat)
  else
    match scanToken tmp with
    | none => some []
    | some (w, _) => some w

/-- Source `getkeywordvalue`: the value of a FITS line. -/
def getkeywordvalue (line : List Char) : Option (List Char) :=
  (collectedText line).bind valueOfText

/-- The `keyword` struct: a value and its presence counter. -/
structure keyword where
  value : List Char
  present : Nat
deriving DecidableEq, Repr

/-- The `record` struct: a file name and one `keyword` per requested keyword (only
the entries below `argc-1` are ever used). -/
structure record where
  filename : List Char
  listkw : List keyword
deriving DecidableEq, Repr

/-- What the reading loop of `main` has built: the records opened so far
(`allrecords[0 .. nfiles-1]`, so `nfiles` is the length) and the flag `printnames`. -/
structure ReadState where
  allrecords : List record
  printnames : Bool
deriving DecidableEq, Repr

/-- The `listkw` of a record that has just been allocated: every presence flag is
0 (lines 186 and 187, `calloc` for the first one). The values are not initialised
in C; they are read only where the flag is up. -/
def clearKeywords (nkeys : Nat) : List keyword := List.replicate nkeys ⟨[], 0⟩

/-- Lines 198 and 199: `strcpy(listkw[kwnum].value, word)` and `present ++`. -/
def storeKeyword : List keyword → Nat → List Char → List keyword
  | [], _, _ => []
  | k :: ks, 0, word => ⟨word, k.present + 1⟩ :: ks
  | k :: ks, n + 1, word => k :: storeKeyword ks n word

/-- Apply `f` to the last record, `allrecords[nfiles-1]`. -/
def updateLast (f : record → record) : List record → List record
  | [] => []
  | [r] => [f r]
  | r :: r2 :: rs => r :: updateLast f (r2 :: rs)

/-- The characters `fgets` stores for a buffer with room for `n` more characters:
it stops after a newline, at the end of the input, or when the room is used up.
Returns the characters stored and the input left. -/
def fgetsChars : Nat → List Char → List Char × List Char
  | 0, s => ([], s)
  | _ + 1, [] => ([], [])
  | n + 1, c :: s =>
    if c = '\n' then ([c], s)
    else ((c :: (fgetsChars n s).1), (fgetsChars n s).2)

/-- Source `fgets(curline, MAX_STRING, stdin)`: `none` (NULL) at the end of the
input, otherwise the at most 127 characters stored and the input left. -/
def fgets (s : List Char) : Option (List Char × List Char) :=
  if s = [] then none else some (fgetsChars 127 s)

/-- The successive results of `fgets` on an input until it returns NULL; `fuel`
bounds the number of calls (every call takes at least one character, so the length
of the input is enough). -/
def inputLines : Nat → List Char → List (List Char)
  | 0, _ => []
  | fuel + 1, s =>
    match fgets s with
    | none => []
    | some (line, rest) => line :: inputLines fuel rest

/-- The record opened by a marker line when `nfiles` records are open: its name is
what `getfilename` stores in `allrecords[nfiles].filename`. When the line has fewer
than three tokens nothing is stored: the first record keeps the zeros of `calloc`;
a later one was obtained from `realloc` and its name is never written, which is
`none`. -/
def markerName (nfiles : Nat) (curline : List Char) : Option (List Char) :=
  match getfilename curline with
  | some w => some w
  | none => if nfiles = 0 then some [] else none

/-- The reading loop of `main` (lines 165 to 203) over the lines `fgets` delivers
(as C strings). A marker line opens a record and the next line is read and dropped
(line 173); a magic number line opens a record without a name; any other line is
looked up in the keywords and, when found and a record is open, its value is stored
in the last record. -/
def readLines (keys : List (List Char)) : ReadState → List (List Char) → Option ReadState
  | st, [] => some st
  | st, curline :: rest =>
    if isfilename curline = 1 then
      match markerName st.allrecords.length curline with
      | none => none
      | some name =>
        match rest with
        | [] =>
          some ⟨st.allrecords ++ [⟨name, clearKeywords keys.length⟩], true⟩
        | _ :: rest2 =>
          readLines keys ⟨st.allrecords ++ [⟨name, clearKeywords keys.length⟩], true⟩ rest2
    else if isfilename curline = 2 then
      readLines keys ⟨st.allrecords ++ [⟨[], clearKeywords keys.length⟩], st.printnames⟩ rest
    else
      match isdetectedkeyword curline keys with
      | none => none
      | some kwnum =>
        if kwnum ≠ -1 ∧ st.allrecords ≠ [] then
          match getkeywordvalue curline with
          | none => none
          | some word =>
            readLines keys
              ⟨updateLast (fun r => ⟨r.filename, storeKeyword r.listkw kwnum.toNat word⟩)
                st.allrecords, st.printnames⟩ rest
        else readLines keys st rest

/-- A field printed through `FMT_STRING`: `sprintf(fmt, "%%-%ds\t", w)` then
`printf(fmt, s)`, that is `s` left justified in at least `w` columns, then a tab. -/
def printField (w : Nat) (s : List Char) : List Char :=
  s ++ List.replicate (w - s.length) ' ' ++ ['\t']

/-- The length `len` of lines 214 to 218 for one keyword of a record. -/
def valueLen (k : keyword) : Nat := if k.present ≠ 0 then k.value.length else 0

/-- Lines 213 to 221 for one record: widen every column that the record overflows. -/
def widenRow (widths : List Nat) (r : record) : List Nat :=
  List.zipWith (fun w k => if w < valueLen k then valueLen k else w) widths r.listkw

/-- The array `max_width` after lines 204 to 222. -/
def max_width (keys : List (List Char)) (recs : List record) : List Nat :=
  recs.foldl widenRow (keys.map List.length)

/-- The variable `max_filnam` after lines 209 to 222. -/
def max_filnam (recs : List record) : Nat :=
  recs.foldl (fun m r => if m < r.filename.length then r.filename.length else m) 0

/-- Lines 225 to 233: the header line. -/
def headerLine (printnames : Bool) (keys : List (List Char)) (recs : List record) : List Char :=
  (if printnames then printField (max_filnam recs) "FILE".toList else []) ++
    (List.zipWith printField (max_width keys recs) keys).flatten ++ ['\n']

/-- Lines 242 to 253: the line of one record. -/
def rowLine (printnames : Bool) (keys : List (List Char)) (recs : List record) (r : record) :
    List Char :=
  (if printnames then printField (max_filnam recs) r.filename else []) ++
    (List.zipWith (fun w k => printField w (if k.present ≠ 0 then k.value else [' ']))
      (max_width keys recs) r.listkw).flatten ++ ['\n']

/-- The usage text of lines 139 to 141. -/
def usageText (pname : List Char) : List Char :=
  "\n\nuse : ".toList ++ pname ++ " [-d] KEY1 KEY2 ... KEYn\n".toList ++
    "Input data is received from stdin\n".toList ++
    "See man page for more details and examples\n\n".toList

/-- The message of line 238. -/
def noInputText : List Char := "*** error: no input data corresponding to dfits output\n".toList

/-- Lines 156 to 163: a keyword argument in upper case. -/
def uppercase (arg : List Char) : List Char := arg.map toupper

/-- Source `main` of fitsort.c: `pname` is `argv[0]`, `args` the other arguments,
`input` the standard input. The result is the return value and the text written to
the standard output. -/
def fitsort (pname : List Char) (args : List (List Char)) (input : List Char) :
    Option (Int × List Char) :=
  match args with
  | [] => some (0, usageText pname)
  | a1 :: more =>
    let print_hdr : Bool := a1 ≠ "-d".toList
    let keys := (if a1 = "-d".toList then more else a1 :: more).map uppercase
    match readLines keys ⟨[], false⟩ ((inputLines input.length input).map cstr) with
    | none => none
    | some st =>
      let hdr := if print_hdr then headerLine st.printnames keys st.allrecords else []
      if st.allrecords = [] then some (-1, hdr ++ noInputText)
      else some (0, hdr ++ (st.allrecords.map (rowLine st.printnames keys st.allrecords)).flatten)

/-! ## dfits.c -/

/-- Source `rstrip`: the string without its trailing blanks. An empty string is
returned as it is (`len<1`). The loop `while (s[len]==' ')` has no lower bound: on a
string of blanks only it reads `s[-1]`, which is `none` here. -/
def rstrip (s : List Char) : Option (List Char) :=
  if s = [] then some []
  else if s.rdropWhile (fun c => c == ' ') = [] then none
  else some (s.rdropWhile (fun c => c == ' '))

/-- The successive results of `fread(buf, sizeof(char), LGTH, in)` until it returns
0: blocks of 80 bytes, the last one shorter when the input ends inside it; `fuel`
bounds the number of calls. -/
def readBlocks : Nat → List Char → List (List Char)
  | 0, _ => []
  | fuel + 1, s => if s = [] then [] else s.take 80 :: readBlocks fuel (s.drop 80)

/-- What `printf("%s\n", rstrip(buf))` writes for a block read into `buf` (`buf[80]`
is always NUL). -/
def printCard (buf : List Char) : Option (List Char) :=
  (rstrip (cstr buf)).map (fun s => s ++ ['\n'])

/-- The test `buf[0]=='E' && buf[1]=='N' && buf[2]=='D'`. -/
def isEND (buf : List Char) : Bool := "END".toList.isPrefixOf buf

/-- The test on the eight characters `XTENSION` of lines 189 to 196. -/
def isXTENSION (buf : List Char) : Bool := "XTENSION".toList.isPrefixOf buf

/-- What `dump_fits_filter` did: its return value, the text written to the standard
output, the text written to the standard error, and the blocks it left unread. -/
structure DumpResult where
  status : Int
  out : List Char
  messages : List Char
  unread : List (List Char)
deriving DecidableEq, Repr

/-- The loop of lines 171 to 178 and the test of line 179, with `out` the text
written so far: every block read is printed until one starts with `END`. The flag
is false when the loop ended on `err != LGTH` (the function then returns 1). -/
def mainHeader : List (List Char) → List Char → Option (Bool × List Char × List (List Char))
  | [], out => some (false, out, [])
  | buf :: rest, out =>
    if buf.length ≠ 80 then some (false, out, rest)
    else
      match printCard buf with
      | none => none
      | some text =>
        if isEND buf then some (true, out ++ text, rest)
        else mainHeader rest (out ++ text)

/-- The loop of lines 186 to 217 with `n_xt` extensions counted and `out` written so
far. With `emitting` down the function is in the search loop of lines 188 to 202;
with `emitting` up it is in the print loop of lines 208 to 213 of extension `n_xt`.
A short or empty read ends the print loop without any test of `err`; the test
`n_xt==xtnum` of line 215 follows. At the end of the input both ways return 0: line
216 leaves the loop, and otherwise the next search reads nothing (`err==0`). -/
def xtensionLoop (xtnum : Int) : Bool → Nat → List (List Char) → List Char → Option DumpResult
  | false, _, [], out => some ⟨0, out, [], []⟩
  | false, n_xt, buf :: rest, out =>
    if buf.length ≠ 80 then some ⟨1, out, [], rest⟩
    else if isXTENSION buf then
      if xtnum = 0 ∨ xtnum = ((n_xt + 1 : Nat) : Int) then
        match printCard buf with
        | none => none
        | some text =>
          xtensionLoop xtnum true (n_xt + 1) rest
            (out ++ "====> xtension ".toList ++ (Nat.repr (n_xt + 1)).toList ++ ['\n'] ++ text)
      else xtensionLoop xtnum false (n_xt + 1) rest out
    else xtensionLoop xtnum false n_xt rest out
  | true, _, [], out => some ⟨0, out, [], []⟩
  | true, n_xt, buf :: rest, out =>
    if buf.length ≠ 80 then
      if (n_xt : Int) = xtnum then some ⟨0, out, [], rest⟩
      else xtensionLoop xtnum false n_xt rest out
    else
      match printCard buf with
      | none => none
      | some text =>
        if isEND buf then
          if (n_xt : Int) = xtnum then some ⟨0, out ++ text, [], rest⟩
          else xtensionLoop xtnum false n_xt rest (out ++ text)
        else xtensionLoop xtnum true n_xt rest (out ++ text)

/-- Source `dump_fits_filter` on the blocks `fread` delivers. The two messages of
lines 160 and 165 are the only ones the function writes to the standard error; the
read errors of lines 179 and 201 return 1 without a message. -/
def dumpBlocks (blocks : List (List Char)) (xtnum : Int) : Option DumpResult :=
  match blocks with
  | [] => some ⟨1, [], "error reading input\n".toList, []⟩
  | buf :: rest =>
    if buf.length ≠ 80 then some ⟨1, [], "error reading input\n".toList, rest⟩
    else if ¬ "SIMPLE  =".toList.isPrefixOf buf then
      some ⟨1, [], "not a FITS file\n".toList, rest⟩
    else if xtnum < 1 then
      match printCard buf with
      | none => none
      | some text =>
        match mainHeader rest text with
        | none => none
        | some (false, out, rest2) => some ⟨1, out, [], rest2⟩
        | some (true, out, rest2) =>
          if xtnum < 0 then some ⟨0, out, [], rest2⟩
          else xtensionLoop xtnum false 0 rest2 out
    else xtensionLoop xtnum false 0 rest []

/-- Source `dump_fits_filter`: `inp` is the content of the stream `in`. -/
def dump_fits_filter (inp : List Char) (xtnum : Int) : Option DumpResult :=
  dumpBlocks (readBlocks inp.length inp) xtnum

/-- Source `dump_fits`: `file` is the content of the file called `name`, `none` when
`fopen` fails. The result is the return value and the text written to the standard
output (the standard error is left out). -/
def dump_fits (name : List Char) (file : Option (List Char)) (xtnum : Int) :
    Option (Int × List Char) :=
  match file with
  | none => some (1, [])
  | some content =>
    (dump_fits_filter content xtnum).map (fun r =>
      (r.status, "====> file ".toList ++ name ++ " (main) <====\n".toList ++ r.out))

/-- The loop of lines 59 to 64 of `main` of dfits.c over the named files: the number
of errors and the text written to the standard output. -/
def dumpFiles (xtnum : Int) : List (List Char × Option (List Char)) → Option (Int × List Char)
  | [] => some (0, [])
  | (name, file) :: more =>
    match dump_fits name file xtnum with
    | none => none
    | some (err, out) =>
      match dumpFiles xtnum more with
      | none => none
      | some (err2, out2) => some (err + err2, out ++ out2)

/-- The value of the decimal digits at the start of a text, after `acc`. -/
def digitsValue : List Char → Nat → Nat
  | [], acc => acc
  | c :: s, acc =>
    if '0' ≤ c ∧ c ≤ '9' then digitsValue s (acc * 10 + (c.toNat - 48)) else acc

/-- C `atoi`: white space is skipped, then an optional sign and the decimal digits
that follow are read. `none` when the value does not fit an `int` of 32 bits. -/
def atoi (s : List Char) : Option Int :=
  let v : Int :=
    match s.dropWhile isspace with
    | '-' :: t => -((digitsValue t 0 : Nat) : Int)
    | '+' :: t => ((digitsValue t 0 : Nat) : Int)
    | t => ((digitsValue t 0 : Nat) : Int)
  if -2147483648 ≤ v ∧ v ≤ 2147483647 then some v else none

/-- Source `parse_cmd_line` on the arguments after `argv[0]` (at least one): the
extension number (-1 unless `-x` is the first argument), the filter flag (the last
argument is `-`) and the arguments from `c_arg` on. `none` when `-x` is the only
argument (`atoi` is called on the NULL that ends `argv`) or its number does not fit. -/
def parse_cmd_line (args : List (List Char)) : Option (Int × Bool × List (List Char)) :=
  let filter : Bool := args.getLast? = some "-".toList
  match args with
  | a1 :: more =>
    if a1 = "-x".toList then
      match more with
      | [] => none
      | a2 :: files => (atoi a2).map (fun xtnum => (xtnum, filter, files))
    else some (-1, filter, args)
  | [] => some (-1, filter, [])

/-- The text of `usage`. -/
def dfitsUsage (pname : List Char) : List Char :=
  "\n\nusage: ".toList ++ pname ++ " [-x xtnum] <list of FITS files>\n".toList ++
    "usage: ".toList ++ pname ++ " [-x xtnum] -\n".toList ++
    "\nThe former version expects file names.\n".toList ++
    "The latter expects data coming in from stdin.\n".toList ++
    "\n-x xtnum specifies the extension header to print\n".toList ++
    "-x 0     specifies main header + all extensions\n".toList ++
    "\n\n".toList

/-- Source `main` of dfits.c: `pname` is `argv[0]`, `args` the other arguments, `files`
gives the content of the file of a name (`none` when it cannot be opened), `input`
is the standard input. The result is the return value and the text written to the
standard output. -/
def dfits (pname : List Char) (args : List (List Char))
    (files : List Char → Option (List Char)) (input : List Char) : Option (Int × List Char) :=
  match args with
  | [] => some (1, dfitsUsage pname)
  | _ :: _ =>
    match parse_cmd_line args with
    | none => none
    | some (xtnum, true, _) => (dump_fits_filter input xtnum).map (fun r => (r.status, r.out))
    | some (xtnum, false, names) => dumpFiles xtnum (names.map (fun name => (name, files name)))

/-! ## Words of the specification: emitted cards and sections of a transcript -/

/-- The text of a card as it is emitted: its characters before the first NUL, if
there is one, without trailing blanks. -/
def cardText (buf : List Char) : List Char :=
  (cstr buf).rdropWhile (fun c => c == ' ')

/-- The line emitted for a card: its text and a newline. -/
def cardLine (buf : List Char) : List Char := cardText buf ++ ['\n']

/-- The lines emitted for a run of cards, in order. -/
def cardLines (cards : List (List Char)) : List Char := (cards.map cardLine).flatten

/-- The boundary marker line of extension `n`. -/
def xtensionMarker (n : Nat) : List Char :=
  "====> xtension ".toList ++ (Nat.repr n).toList ++ ['\n']

/-- What is emitted for the extension headers `exts` numbered from `n` on: for each
one its marker line and then the lines of its cards. -/
def xtensionsText : Nat → List (List (List Char)) → List Char
  | _, [] => []
  | n, ext :: more => xtensionMarker n ++ cardLines ext ++ xtensionsText (n + 1) more

/-- An extension header: cards of 80 bytes, the first one beginning `XTENSION`, the
last one the first card after it that begins `END`. -/
def isExtensionHeader : List (List Char) → Bool
  | [] => false
  | x :: rest =>
    decide (x.length = 80) && isXTENSION x &&
      match rest.getLast? with
      | none => false
      | some e =>
        decide (e.length = 80) && isEND e &&
          rest.dropLast.all (fun c => decide (c.length = 80) && !isEND c)

/-- A text left justified in a column `w` wide: the text, then blanks up to the
width when the text is shorter. -/
def leftJustified (w : Nat) (s : List Char) : List Char :=
  s ++ List.replicate (w - s.length) ' '

/-- The fields of the row of a record: the file name when names are printed, then
for each requested keyword its value, or one blank when the keyword is absent, each
left justified in its column. -/
def rowFields (printnames : Bool) (keys : List (List Char)) (recs : List record)
    (r : record) : List (List Char) :=
  (if printnames then [leftJustified (max_filnam recs) r.filename] else []) ++
    List.zipWith (fun w k => leftJustified w (if k.present ≠ 0 then k.value else [' ']))
      (max_width keys recs) r.listkw

/-- A white space delimited token: at least one character, none of them white
space. -/
def isToken (t : List Char) : Bool := !t.isEmpty && t.all (fun c => !isspace c)

/-- A run of white space between tokens: at least one character, all of them white
space. -/
def isBlankRun (w : List Char) : Bool := !w.isEmpty && w.all isspace

/-- A text line of a transcript: at most 127 characters, the last one its only
newline, and no NUL among them; `fgets(curline, MAX_STRING, stdin)` delivers such a
line whole. -/
def textLine (l : List Char) : Bool :=
  match l.getLast? with
  | none => false
  | some c =>
    c == '\n' && decide (l.length ≤ 127) &&
      l.dropLast.all (fun ch => ch != '\n' && ch != nulChar)

/-- The effect of one line that opens no record on the current record (lines 190 to
200 of `main` with `nfiles>0`): the value of a requested keyword is stored. -/
def storeLine (keys : List (List Char)) (r : record) (line : List Char) : Option record :=
  match isdetectedkeyword line keys with
  | none => none
  | some kwnum =>
    if kwnum ≠ -1 then
      match getkeywordvalue line with
      | none => none
      | some word => some ⟨r.filename, storeKeyword r.listkw kwnum.toNat word⟩
    else some r

/-- The effect of a run of lines that open no record on the current record. -/
def storeLines (keys : List (List Char)) : record → List (List Char) → Option record
  | r, [] => some r
  | r, line :: rest =>
    match storeLine keys r line with
    | none => none
    | some r2 => storeLines keys r2 rest

/-- The record of one section of a transcript: a marker line naming it, the line
after the marker (dropped), and the lines up to the next marker. -/
def sectionRecord (keys : List (List Char)) (name : List Char) (lines : List (List Char)) :
    Option record :=
  storeLines keys ⟨name, clearKeywords keys.length⟩ lines

/-- The records of the sections of a transcript, in order; each section is given as
its marker line, the line that follows it, and its other lines. -/
def sectionRecords (keys : List (List Char)) :
    List (List Char × List Char × List (List Char)) → Option (List record)
  | [] => some []
  | (marker, _, lines) :: more =>
    match getfilename marker with
    | none => none
    | some name =>
      match sectionRecord keys name lines with
      | none => none
      | some r =>
        match sectionRecords keys more with
        | none => none
        | some rs => some (r :: rs)

/-- The lines of a transcript made of sections. -/
def sectionLines : List (List Char × List Char × List (List Char)) → List (List Char)
  | [] => []
  | (marker, next, lines) :: more => marker :: next :: (lines ++ sectionLines more)

/-- The boundary marker line of the file called `name`, as `dump_fits` writes it. -/
def fileMarker (name : List Char) : List Char :=
  "====> file ".toList ++ name ++ " (main) <====\n".toList

/-- A file name that is read back whole from its marker line: one token without
NUL, of at most 102 characters, so that the marker line has at most 127. -/
def isShortName (name : List Char) : Bool :=
  isToken name && decide (name.length ≤ 102) && name.all (fun c => c != nulChar)

/-- A card whose emitted line is a line of text: the card can be printed and holds
no newline. -/
def isTextCard (c : List Char) : Bool := (printCard c).isSome && !c.contains '\n'

/-- A main header: cards of 80 bytes, the first one beginning with the magic number,
the last one the first card after it that begins `END`. -/
def isMainHeader : List (List Char) → Bool
  | [] => false
  | first :: rest =>
    decide (first.length = 80) && "SIMPLE  =".toList.isPrefixOf first &&
      match rest.getLast? with
      | none => false
      | some e =>
        decide (e.length = 80) && isEND e &&
          rest.dropLast.all (fun c => decide (c.length = 80) && !isEND c)

/-- The section of a header in a transcript: the marker line before it, the line of
its first card (the line after the marker), and the lines of its other cards. -/
def headerSection (marker : List Char) (cards : List (List Char)) :
    List Char × List Char × List (List Char) :=
  (marker, cardLine (cards.headD []), cards.tail.map cardLine)

/-- The sections of the extension headers `exts` numbered from `n` on. -/
def xtensionSections :
    Nat → List (List (List Char)) → List (List Char × List Char × List (List Char))
  | _, [] => []
  | n, ext :: more => headerSection (xtensionMarker n) ext :: xtensionSections (n + 1) more

/-- The records of the extension headers `exts` numbered from `n` on: each one is
named by its number and holds the values of the lines of its cards after the first
one. -/
def xtensionRecords (keys : List (List Char)) :
    Nat → List (List (List Char)) → Option (List record)
  | _, [] => some []
  | n, ext :: more =>
    match sectionRecord keys (Nat.repr n).toList (ext.tail.map cardLine) with
    | none => none
    | some r =>
      match xtensionRecords keys (n + 1) more with
      | none => none
      | some rs => some (r :: rs)

/-- The records of a file made of the main header `main` and the extension headers
`exts`: one named by the file, holding the values of the lines of the main header
after the first one, then one for each extension. -/
def fileRecords (keys : List (List Char)) (name : List Char) (main : List (List Char))
    (exts : List (List (List Char))) : Option (List record) :=
  match sectionRecord keys name (main.tail.map cardLine) with
  | none => none
  | some r =>
    match xtensionRecords keys 1 exts with
    | none => none
    | some rs => some (r :: rs)

/-! ## Test data and reading of the table -/

/-- A card: the text padded with blanks to 80 characters. -/
def card (text : String) : List Char :=
  text.toList ++ List.replicate (80 - text.toList.length) ' '

/-- The header of a file with `NAXIS1=100` and `NAXIS2=200`. -/
def exampleFile1 : List Char :=
  card "SIMPLE  =                    T / Standard FITS" ++
  card "BITPIX  =                   16" ++
  card "NAXIS   =                    2" ++
  card "NAXIS1  =                  100" ++
  card "NAXIS2  =                  200" ++
  card "END"

/-- The header of a file with `NAXIS1=20` only. -/
def exampleFile2 : List Char :=
  card "SIMPLE  =                    T / Standard FITS" ++
  card "BITPIX  =                   16" ++
  card "NAXIS   =                    1" ++
  card "NAXIS1  =                   20" ++
  card "END"

/-- The header of an image extension with `NAXIS1=7`. -/
def exampleExtension1 : List Char :=
  card "XTENSION= 'IMAGE   '" ++
  card "NAXIS   =                    1" ++
  card "NAXIS1  =                    7" ++
  card "END"

/-- The header of a table extension with `NAXIS1=9`. -/
def exampleExtension2 : List Char :=
  card "XTENSION= 'BINTABLE'" ++
  card "NAXIS1  =                    9" ++
  card "END"

/-- A file of a main header (`NAXIS1=100`, `NAXIS2=200`) and two extension headers. -/
def exampleFile3 : List Char := exampleFile1 ++ exampleExtension1 ++ exampleExtension2

/-- The first card of the example headers. -/
def exampleFirst : List Char := card "SIMPLE  =                    T / Standard FITS"

/-- The cards of the first example header between its first card and its `END`. -/
def exampleMid : List (List Char) :=
  [card "BITPIX  =                   16", card "NAXIS   =                    2",
   card "NAXIS1  =                  100", card "NAXIS2  =                  200"]

/-- The `END` card. -/
def exampleEnd : List Char := card "END"

/-- The cards of the two example extension headers. -/
def exampleExtensions : List (List (List Char)) :=
  [[card "XTENSION= 'IMAGE   '", card "NAXIS   =                    1",
    card "NAXIS1  =                    7", card "END"],
   [card "XTENSION= 'BINTABLE'", card "NAXIS1  =                    9", card "END"]]

/-- A directory holding the two example files as `file1.fits` and `file2.fits`, the
second one also as `a`, and the file with two extensions as `x.fits`. -/
def exampleFiles (name : List Char) : Option (List Char) :=
  if name = "file1.fits".toList then some exampleFile1
  else if name = "file2.fits".toList then some exampleFile2
  else if name = "a".toList then some exampleFile2
  else if name = "x.fits".toList then some exampleFile3
  else none

/-- A transcript whose marker line names a file of 120 characters: the marker line
is 145 characters long; the first card line and a card line of `NAXIS1` follow. -/
def longMarkerTranscript : List Char :=
  "====> file ".toList ++ List.replicate 120 'a' ++ " (main) <====\n".toList ++
    "SIMPLE  =                    T\n".toList ++ "NAXIS1  =                  100\n".toList

/-- The pieces of a text that end with `sep` (which is removed), then what is left
after the last `sep` when that is not empty; `cur` is the piece being read, in
reverse. -/
def piecesEndedBy (sep : Char) : List Char → List Char → List (List Char)
  | [], cur => if cur = [] then [] else [cur.reverse]
  | c :: s, cur =>
    if c = sep then cur.reverse :: piecesEndedBy sep s []
    else piecesEndedBy sep s (c :: cur)

/-- The table read back from the output: its lines, each cut into the fields that a
tab ends, each field without its padding of trailing blanks. -/
def tableFields (out : List Char) : List (List (List Char)) :=
  (piecesEndedBy '\n' out []).map (fun line =>
    (piecesEndedBy '\t' line []).map (fun field => field.rdropWhile (fun c => c == ' ')))

/-! ## The input is read completely -/

/-- The characters `fgets` stores and the input it leaves make up the input. -/
theorem fgetsChars_append (n : Nat) (s : List Char) :
    (fgetsChars n s).1 ++ (fgetsChars n s).2 = s := by
  induction s generalizing n with
  | nil => cases n <;> simp [fgetsChars]
  | cons c t ih =>
    cases n with
    | zero => simp [fgetsChars]
    | succ m =>
      rw [fgetsChars]
      by_cases hc : c = '\n'
      · simp [hc]
      · simp [hc, ih m]

/-- With room for at least one character `fgets` stores at least one character of
an input that is not empty, and no more than there is room for. -/
theorem fgetsChars_length (n : Nat) (s : List Char) (hs : s ≠ []) :
    0 < ((fgetsChars (n + 1) s).1).length ∧ ((fgetsChars (n + 1) s).1).length ≤ n + 1 := by
  induction s generalizing n with
  | nil => exact absurd rfl hs
  | cons c t ih =>
    rw [fgetsChars]
    by_cases hc : c = '\n'
    · simp [hc]
    · simp only [hc, if_false, List.length_cons]
      refine ⟨Nat.succ_pos _, ?_⟩
      cases n with
      | zero => simp [fgetsChars]
      | succ m =>
        cases t with
        | nil => simp [fgetsChars]
        | cons d u =>
          have := (ih m (List.cons_ne_nil d u)).2
          omega

/-- With fuel for every character, the lines read make up the whole input: nothing
is lost when the loop of `fgets` calls ends. -/
theorem inputLines_flatten (fuel : Nat) (s : List Char) (h : s.length ≤ fuel) :
    (inputLines fuel s).flatten = s := by
  induction fuel generalizing s with
  | zero =>
    have : s = [] := List.length_eq_zero.mp (by omega)
    simp [inputLines, this]
  | succ f ih =>
    rw [inputLines]
    by_cases hs : s = []
    · simp [fgets, hs]
    · have hl : 0 < ((fgetsChars 127 s).1).length ∧ ((fgetsChars 127 s).1).length ≤ 127 :=
        fgetsChars_length 126 s hs
      have ha := fgetsChars_append 127 s
      have hlen : ((fgetsChars 127 s).1).length + ((fgetsChars 127 s).2).length = s.length := by
        rw [← List.length_append, ha]
      simp only [fgets, hs, if_false, List.flatten_cons]
      rw [ih _ (by omega), ha]

/-- Every line read holds between 1 and 127 characters. -/
theorem inputLines_line_length (fuel : Nat) (s : List Char) :
    ∀ l ∈ inputLines fuel s, 0 < l.length ∧ l.length ≤ 127 := by
  induction fuel generalizing s with
  | zero => simp [inputLines]
  | succ f ih =>
    rw [inputLines]
    by_cases hs : s = []
    · simp [fgets, hs]
    · simp only [fgets, hs, if_false]
      intro l hl
      rcases List.mem_cons.mp hl with rfl | hl
      · exact fgetsChars_length 126 s hs
      · exact ih _ l hl

/-- With fuel for every byte, the blocks read make up the whole input. -/
theorem readBlocks_flatten (fuel : Nat) (s : List Char) (h : s.length ≤ fuel) :
    (readBlocks fuel s).flatten = s := by
  induction fuel generalizing s with
  | zero =>
    have : s = [] := List.length_eq_zero.mp (by omega)
    simp [readBlocks, this]
  | succ f ih =>
    rw [readBlocks]
    by_cases hs : s = []
    · simp [hs]
    · have hpos : 0 < s.length := List.length_pos.mpr hs
      have hd : (s.drop 80).length ≤ f := by
        rw [List.length_drop]
        omega
      simp only [hs, if_false, List.flatten_cons]
      rw [ih _ hd, List.take_append_drop]

/-! ## Value extraction in general -/

/-- Where the text before the first equals sign holds a character other than a
blank, the keyword derived by `isdetectedkeyword` is that text without its trailing
blanks. -/
theorem cardKeyword_eq_textBeforeEquals (line : List Char) (h : textBeforeEquals line ≠ []) :
    cardKeyword line = some (textBeforeEquals line) := by
  have hb : strtokBuffer '=' line = line.takeWhile (fun c => c != '=') := by
    cases line with
    | nil => rfl
    | cons c t =>
      by_cases hc : c = '='
      · exfalso
        apply h
        simp [textBeforeEquals, hc, List.rdropWhile]
      · simp [strtokBuffer, hc]
  unfold cardKeyword
  rw [hb]
  unfold textBeforeEquals at h
  simp only [h, if_false]
  rfl

/-- Without a quote in it, the text collected from column `c` is the text up to the
first slash, cut at column 80. -/
theorem collectValue_no_quote (s : List Char) (c : Nat)
    (h : quoteChar ∉ (s.take (80 - c)).takeWhile (fun ch => ch != '/')) :
    collectValue s c false = (s.take (80 - c)).takeWhile (fun ch => ch != '/') := by
  induction s generalizing c with
  | nil => simp [collectValue]
  | cons ch rest ih =>
    rw [collectValue]
    by_cases hc : 80 ≤ c
    · have h0 : 80 - c = 0 := by omega
      simp [hc, h0]
    · have hs : 80 - c = (80 - (c + 1)) + 1 := by omega
      rw [if_neg hc]
      by_cases hsl : ch = '/'
      · simp [hsl, hs]
      · rw [hs, List.take_succ_cons, List.takeWhile_cons_of_pos (by simpa using hsl)] at h ⊢
        have hq : ch ≠ quoteChar := fun e => h (e ▸ List.mem_cons_self _ _)
        have hr : quoteChar ∉ (rest.take (80 - (c + 1))).takeWhile (fun ch => ch != '/') :=
          fun hm => h (List.mem_cons_of_mem _ hm)
        simp [hsl, hq, ih (c + 1) hr]

/-- The text after the first equals sign of the first 80 columns is the text from
the column after it, cut at column 80. -/
theorem drop_after_equals (line : List Char) :
    ((line.take 80).dropWhile (fun ch => ch != '=')).drop 1 =
      (line.drop ((line.takeWhile (fun ch => ch != '=')).length + 1)).take
        (80 - ((line.takeWhile (fun ch => ch != '=')).length + 1)) := by
  generalize 80 = n
  induction line generalizing n with
  | nil => simp
  | cons ch rest ih =>
    cases n with
    | zero => simp
    | succ m =>
      by_cases hc : ch = '='
      · simp [hc]
      · have := ih m
        simp only [List.take_succ_cons, List.dropWhile_cons_of_pos (p := fun ch => ch != '=')
          (a := ch) (by simpa using hc), List.takeWhile_cons_of_pos (p := fun ch => ch != '=')
          (a := ch) (by simpa using hc), List.length_cons, List.drop_succ_cons, this]
        congr 1
        omega

/-- Scalar extraction in general: on every line with an equals sign whose value region
holds no quote, `getkeywordvalue` returns the first token of the region, and the
empty string when the region holds no token. -/
theorem getkeywordvalue_scalar (line : List Char) (heq : '=' ∈ line)
    (hq : quoteChar ∉ valueRegion line) :
    getkeywordvalue line = some (firstToken (valueRegion line)) := by
  unfold valueRegion at hq ⊢
  rw [drop_after_equals] at hq ⊢
  unfold getkeywordvalue collectedText
  rw [if_pos heq]
  simp only [Option.some_bind]
  rw [collectValue_no_quote _ _ hq]
  unfold valueOfText firstToken
  rw [if_neg hq]
  cases scanToken ((List.take (80 - ((List.takeWhile (fun ch => ch != '=') line).length + 1))
      (List.drop ((List.takeWhile (fun ch => ch != '=') line).length + 1) line)).takeWhile
      (fun ch => ch != '/')) <;> rfl

/-- The text after the first quote. -/
theorem afterFirstQuote_append (a rest : List Char) (ha : quoteChar ∉ a) :
    afterFirstQuote (a ++ quoteChar :: rest) = rest := by
  unfold afterFirstQuote
  induction a with
  | nil => simp
  | cons c t ih =>
    have hc : c ≠ quoteChar := fun e => ha (e ▸ List.mem_cons_self _ _)
    have ht : quoteChar ∉ t := fun hm => ha (List.mem_cons_of_mem _ hm)
    simpa [hc] using ih ht

/-- The text from the last quote on. -/
theorem fromLastQuote_append (x b : List Char) (hb : quoteChar ∉ b) :
    fromLastQuote (x ++ quoteChar :: b) = quoteChar :: b := by
  induction x with
  | nil => simp [fromLastQuote, hb]
  | cons c t ih =>
    have hm : quoteChar ∈ t ++ quoteChar :: b := by simp
    rw [List.cons_append, fromLastQuote, if_pos hm, ih]

/-- String extraction in general: a collected text with at least two quotes gives
exactly the characters between its first and its last quote. -/
theorem valueOfText_between_quotes (a m b : List Char) (ha : quoteChar ∉ a)
    (hb : quoteChar ∉ b) :
    valueOfText (a ++ quoteChar :: (m ++ quoteChar :: b)) = some m := by
  have hmem : quoteChar ∈ a ++ quoteChar :: (m ++ quoteChar :: b) := by simp
  have hlast : fromLastQuote (a ++ quoteChar :: (m ++ quoteChar :: b)) = quoteChar :: b := by
    have := fromLastQuote_append (a ++ quoteChar :: m) b hb
    simpa using this
  have hlen : copyLength (a ++ quoteChar :: (m ++ quoteChar :: b)) = (m.length : Int) := by
    unfold copyLength
    rw [afterFirstQuote_append a _ ha, hlast]
    simp
  unfold valueOfText
  rw [if_pos hmem, hlen, afterFirstQuote_append a _ ha]
  simp

/-- A collected text with exactly one quote has the copy length -1 and gives no
value. -/
theorem valueOfText_single_quote (a b : List Char) (ha : quoteChar ∉ a) (hb : quoteChar ∉ b) :
    copyLength (a ++ quoteChar :: b) = -1 ∧ valueOfText (a ++ quoteChar :: b) = none := by
  have hmem : quoteChar ∈ a ++ quoteChar :: b := by simp
  have hlen : copyLength (a ++ quoteChar :: b) = -1 := by
    unfold copyLength
    rw [afterFirstQuote_append a _ ha, fromLastQuote_append a b hb]
    simp
  refine ⟨hlen, ?_⟩
  unfold valueOfText
  rw [if_pos hmem, hlen]
  simp

/-! ## The widths of the keyword columns -/

/-- A text no longer than the width fills exactly the width, plus the tab. -/
theorem printField_length (w : Nat) (s : List Char) (h : s.length ≤ w) :
    (printField w s).length = w + 1 := by
  simp [printField]
  omega

/-- Column `j` after the widening loop over the records, started from the widths
`ws`: the result is at least the start width and the length of every value of the
column, and it is one of them. -/
theorem foldl_widenRow_column (recs : List record) (ws : List Nat) (j w0 : Nat)
    (h0 : ws[j]? = some w0) (hcol : ∀ r ∈ recs, ∃ kw, r.listkw[j]? = some kw) :
    ∃ w, (recs.foldl widenRow ws)[j]? = some w ∧ w0 ≤ w ∧
      (∀ r ∈ recs, ∀ kw, r.listkw[j]? = some kw → valueLen kw ≤ w) ∧
      (w = w0 ∨ ∃ r ∈ recs, ∃ kw, r.listkw[j]? = some kw ∧ valueLen kw = w) := by
  induction recs generalizing ws w0 with
  | nil => exact ⟨w0, h0, Nat.le_refl _, by simp, Or.inl rfl⟩
  | cons r rs ih =>
    obtain ⟨kw, hkw⟩ := hcol r (List.mem_cons_self r rs)
    have h1 : (widenRow ws r)[j]? = some (if w0 < valueLen kw then valueLen kw else w0) := by
      unfold widenRow
      rw [List.getElem?_zipWith_eq_some]
      exact ⟨w0, kw, h0, hkw, rfl⟩
    obtain ⟨w, hw, hle, hall, hex⟩ := ih (widenRow ws r) _ h1
      (fun x hx => hcol x (List.mem_cons_of_mem r hx))
    have hw0 : w0 ≤ w := by
      split at hle <;> omega
    have hkwle : valueLen kw ≤ w := by
      split at hle <;> omega
    refine ⟨w, by simpa [List.foldl_cons] using hw, hw0, ?_, ?_⟩
    · intro x hx kx hkx
      rcases List.mem_cons.mp hx with rfl | hx
      · rw [hkw] at hkx
        cases hkx
        exact hkwle
      · exact hall x hx kx hkx
    · rcases hex with hex | ⟨x, hx, kx, hkx, hkxw⟩
      · by_cases hlt : w0 < valueLen kw
        · right
          rw [if_pos hlt] at hex
          exact ⟨r, List.mem_cons_self r rs, kw, hkw, hex.symm⟩
        · left
          rw [if_neg hlt] at hex
          exact hex
      · right
        exact ⟨x, List.mem_cons_of_mem r hx, kx, hkx, hkxw⟩

/-- The width of the column of request `j` is the larger of the length of the
request and the lengths of the values present in that column; the header field and
every value of the column are printed in exactly that width. -/
theorem max_width_column (keys : List (List Char)) (recs : List record) (j : Nat)
    (k : List Char) (hk : keys[j]? = some k)
    (hcol : ∀ r ∈ recs, ∃ kw, r.listkw[j]? = some kw) :
    ∃ w, (max_width keys recs)[j]? = some w ∧
      k.length ≤ w ∧
      (∀ r ∈ recs, ∀ kw, r.listkw[j]? = some kw → valueLen kw ≤ w) ∧
      (w = k.length ∨ ∃ r ∈ recs, ∃ kw, r.listkw[j]? = some kw ∧ valueLen kw = w) ∧
      (printField w k).length = w + 1 ∧
      (∀ r ∈ recs, ∀ kw, r.listkw[j]? = some kw → kw.present ≠ 0 →
        (printField w kw.value).length = w + 1) := by
  have h0 : (keys.map List.length)[j]? = some k.length := by
    rw [List.getElem?_map, hk]
    rfl
  obtain ⟨w, hw, hle, hall, hex⟩ := foldl_widenRow_column recs _ j _ h0 hcol
  refine ⟨w, hw, hle, hall, hex, printField_length w k hle, ?_⟩
  intro r hr kw hkw hp
  apply printField_length
  have := hall r hr kw hkw
  unfold valueLen at this
  rw [if_pos hp] at this
  exact this

/-! ## Keyword matching -/

theorem findKeyword_cons (kw k : List Char) (ks : List (List Char)) (i : Nat) :
    findKeyword kw (k :: ks) i =
      if canonicalRequest k = kw then (i : Int) else findKeyword kw ks (i + 1) := by
  unfold canonicalRequest
  rw [findKeyword]
  by_cases hd : '.' ∈ k
  · by_cases he : kw = expand_hierarch_keyword k
    · simp [hd, he]
    · have he2 : ¬ expand_hierarch_keyword k = kw := fun h => he h.symm
      simp [hd, he, he2]
  · by_cases he : kw = k
    · simp [hd, he]
    · have he2 : ¬ k = kw := fun h => he h.symm
      simp [hd, he, he2]

/-- The comparison loop returns -1 when no keyword of the list is equal to `kw`. -/
theorem findKeyword_none (kw : List Char) (ks : List (List Char)) (i : Nat)
    (h : ∀ q ∈ ks, canonicalRequest q ≠ kw) : findKeyword kw ks i = -1 := by
  induction ks generalizing i with
  | nil => simp [findKeyword]
  | cons k ks ih =>
    rw [findKeyword_cons, if_neg (h k (List.mem_cons_self k ks))]
    exact ih (i + 1) (fun q hq => h q (List.mem_cons_of_mem k hq))

/-- The comparison loop returns the offset of the first keyword equal to `kw`. -/
theorem findKeyword_first (kw : List Char) (ks : List (List Char)) (i n : Nat) (q : List Char)
    (hq : ks[n]? = some q) (hm : canonicalRequest q = kw)
    (hfirst : ∀ j, j < n → ∀ p, ks[j]? = some p → canonicalRequest p ≠ kw) :
    findKeyword kw ks i = ((i + n : Nat) : Int) := by
  induction ks generalizing i n with
  | nil => simp at hq
  | cons k ks ih =>
    rw [findKeyword_cons]
    cases n with
    | zero =>
      simp at hq
      subst hq
      simp [hm]
    | succ m =>
      have hk : canonicalRequest k ≠ kw := hfirst 0 (Nat.succ_pos m) k (by simp)
      rw [if_neg hk]
      have := ih (i + 1) m (by simpa using hq)
        (fun j hj p hp => hfirst (j + 1) (Nat.succ_lt_succ hj) p (by simpa using hp))
      rw [this]
      congr 1
      omega

/-- The result of the comparison loop is -1 or an index of the list, shifted by the
start index. -/
theorem findKeyword_cases (kw : List Char) (ks : List (List Char)) (i : Nat) :
    (findKeyword kw ks i = -1 ∧ ∀ q ∈ ks, canonicalRequest q ≠ kw) ∨
    ∃ n q, findKeyword kw ks i = ((i + n : Nat) : Int) ∧ ks[n]? = some q ∧
      canonicalRequest q = kw ∧
      ∀ j, j < n → ∀ p, ks[j]? = some p → canonicalRequest p ≠ kw := by
  induction ks generalizing i with
  | nil => left; simp [findKeyword]
  | cons k ks ih =>
    by_cases hk : canonicalRequest k = kw
    · right
      refine ⟨0, k, ?_, by simp, hk, ?_⟩
      · rw [findKeyword_cons, if_pos hk]; simp
      · intro j hj; omega
    · rcases ih (i + 1) with ⟨h1, h2⟩ | ⟨n, q, h1, h2, h3, h4⟩
      · left
        refine ⟨?_, ?_⟩
        · rw [findKeyword_cons, if_neg hk]; exact h1
        · intro p hp
          rcases List.mem_cons.mp hp with rfl | hp
          · exact hk
          · exact h2 p hp
      · right
        refine ⟨n + 1, q, ?_, by simpa using h2, h3, ?_⟩
        · rw [findKeyword_cons, if_neg hk, h1]
          congr 1
          omega
        · intro j hj p hp
          cases j with
          | zero =>
            simp at hp
            subst hp
            exact hk
          | succ j =>
            exact h4 j (by omega) p (by simpa using hp)

/-! ## Upper case -/

/-- Upper casing never produces a dot from another character. -/
theorem toupper_ne_dot (c : Char) (h : c ≠ '.') : toupper c ≠ '.' := by
  unfold toupper
  split
  · rename_i hc
    obtain ⟨h1, h2⟩ := hc
    have h1n : 97 ≤ c.toNat := h1
    have h2n : c.toNat ≤ 122 := h2
    have hb : 65 ≤ c.toNat - 32 ∧ c.toNat - 32 ≤ 90 := by omega
    obtain ⟨hb1, hb2⟩ := hb
    generalize c.toNat - 32 = n at hb1 hb2
    interval_cases n <;> decide
  · exact h

/-- A request without a dot has no dot after the upper casing of `main`. -/
theorem dot_not_mem_uppercase (r : List Char) (h : '.' ∉ r) : '.' ∉ uppercase r := by
  unfold uppercase
  intro hm
  obtain ⟨c, hc, hcu⟩ := List.mem_map.mp hm
  exact toupper_ne_dot c (fun hcd => h (hcd ▸ hc)) hcu

/-- The lookup of a line whose keyword is `kw` in a list holding one request. -/
theorem isdetectedkeyword_single (line kw q : List Char) (hkw : cardKeyword line = some kw) :
    (isdetectedkeyword line [q] = some 0 ↔ canonicalRequest q = kw) ∧
    (isdetectedkeyword line [q] = some (-1) ↔ canonicalRequest q ≠ kw) := by
  unfold isdetectedkeyword
  rw [hkw, Option.map_some', findKeyword_cons]
  by_cases h : canonicalRequest q = kw
  · simp [h]
  · simp [h, findKeyword]

/-! ## The claims on keyword extraction and matching -/

/-- C1 (code evaluated where the claim fails). The claim: on every card line with an
equals sign the keyword derived by `isdetectedkeyword` is the text before the first
equals sign without its trailing blanks, and the value is the first token of the text
after it. On the line `= 5` the value is `5` as claimed, but the text before the
first equals sign is empty while the derived keyword is the whole line (`strtok`
skips a leading delimiter), so an empty request is not matched. On `=KEY= 5` the
derived keyword is `=KEY`, matched by the request `=KEY`, while the value is taken
after the first equals sign. On a card whose keyword field is blank the derivation
reads below the start of its buffer. The card `NAXIS1  = 100 / comment` of the claim
gives the keyword `NAXIS1` and the value `100`. -/
theorem C1_keyword_of_line_starting_with_equals :
    cardKeyword "NAXIS1  =                  100 / comment\n".toList = some "NAXIS1".toList ∧
    getkeywordvalue "NAXIS1  =                  100 / comment\n".toList = some "100".toList ∧
    '=' ∈ "= 5\n".toList ∧
    getkeywordvalue "= 5\n".toList = some "5".toList ∧
    textBeforeEquals "= 5\n".toList = [] ∧
    cardKeyword "= 5\n".toList = some "= 5\n".toList ∧
    isdetectedkeyword "= 5\n".toList [[]] = some (-1) ∧
    textBeforeEquals "=KEY= 5\n".toList = [] ∧
    cardKeyword "=KEY= 5\n".toList = some "=KEY".toList ∧
    isdetectedkeyword "=KEY= 5\n".toList ["=KEY".toList] = some 0 ∧
    getkeywordvalue "=KEY= 5\n".toList = some "KEY=".toList ∧
    textBeforeEquals "        = 5\n".toList = [] ∧
    cardKeyword "        = 5\n".toList = none := by
  decide

/-- C2 (code evaluated where the claim fails). The claim: whenever the collected text
holds at least one quote the value is the text between its first and its last quote.
On `KEY     = 'abc` the collected text holds one quote, the copy length of line 439
is -1 and `strncpy` is called with it: no value is returned. The card of the claim,
with two quotes, gives `M31` followed by its five blanks. -/
theorem C2_single_quote_has_negative_copy_length :
    collectedText "KEY     = 'abc\n".toList = some " 'abc\n".toList ∧
    quoteChar ∈ " 'abc\n".toList ∧
    copyLength " 'abc\n".toList = -1 ∧
    getkeywordvalue "KEY     = 'abc\n".toList = none ∧
    cardKeyword "OBJECT  = 'M31     '           / name\n".toList = some "OBJECT".toList ∧
    getkeywordvalue "OBJECT  = 'M31     '           / name\n".toList =
      some "M31     ".toList := by
  decide

/-- C3 (the claim fails). The card keyword `HIERARCH ESO TEL AIRM` is not matched by
the request `ESO.TEL.AIRM`: the lookup returns -1. -/
theorem C3_request_does_not_match_claimed_keyword :
    cardKeyword "HIERARCH ESO TEL AIRM = 1.25\n".toList =
      some "HIERARCH ESO TEL AIRM".toList ∧
    isdetectedkeyword "HIERARCH ESO TEL AIRM = 1.25\n".toList
      [uppercase "ESO.TEL.AIRM".toList] = some (-1) ∧
    ¬ (isdetectedkeyword "HIERARCH ESO TEL AIRM = 1.25\n".toList
        [uppercase "ESO.TEL.AIRM".toList] = some 0 ↔
      "HIERARCH ESO TEL AIRM".toList = "HIERARCH ESO TEL AIRM".toList) := by
  decide

/-- C3 (amended). For every line whose keyword is `kw`, the request `ESO.TEL.AIRM`
is matched (index 0 of a list holding only it) if and only if `kw` is exactly
`HIERARCH ESO ESO TEL AIRM`, and -1 is returned otherwise: the expansion always puts
`HIERARCH ESO` in front of all the tokens of the request. The keyword
`HIERARCH ESO TEL AIRM` is matched by the request `TEL.AIRM` and by no other keyword. -/
theorem C3_hierarchical_request_matches_expansion (line kw : List Char)
    (hkw : cardKeyword line = some kw) :
    (isdetectedkeyword line [uppercase "ESO.TEL.AIRM".toList] = some 0 ↔
      kw = "HIERARCH ESO ESO TEL AIRM".toList) ∧
    (isdetectedkeyword line [uppercase "ESO.TEL.AIRM".toList] = some (-1) ↔
      kw ≠ "HIERARCH ESO ESO TEL AIRM".toList) ∧
    (isdetectedkeyword line [uppercase "TEL.AIRM".toList] = some 0 ↔
      kw = "HIERARCH ESO TEL AIRM".toList) := by
  have e1 : canonicalRequest (uppercase "ESO.TEL.AIRM".toList) =
      "HIERARCH ESO ESO TEL AIRM".toList := by decide
  have e2 : canonicalRequest (uppercase "TEL.AIRM".toList) =
      "HIERARCH ESO TEL AIRM".toList := by decide
  have h1 := isdetectedkeyword_single line kw (uppercase "ESO.TEL.AIRM".toList) hkw
  have h2 := isdetectedkeyword_single line kw (uppercase "TEL.AIRM".toList) hkw
  rw [e1] at h1
  rw [e2] at h2
  exact ⟨h1.1.trans eq_comm, h1.2.trans (not_congr eq_comm), h2.1.trans eq_comm⟩

/-- Witness of C3 (amended): the card `HIERARCH ESO ESO TEL AIRM = 1.25`. -/
theorem C3_hierarchical_request_matches_expansion_witness :
    cardKeyword "HIERARCH ESO ESO TEL AIRM = 1.25\n".toList =
      some "HIERARCH ESO ESO TEL AIRM".toList ∧
    isdetectedkeyword "HIERARCH ESO ESO TEL AIRM = 1.25\n".toList
      [uppercase "ESO.TEL.AIRM".toList] = some 0 :=
  ⟨by decide,
    (C3_hierarchical_request_matches_expansion
      "HIERARCH ESO ESO TEL AIRM = 1.25\n".toList "HIERARCH ESO ESO TEL AIRM".toList
      (by decide)).1.mpr rfl⟩

/-- C4 (the claim fails). The request `naxis1` and the card keyword `naxis1` are
equal after upper casing both, but the lookup returns -1: the card keyword is
compared as it is written. -/
theorem C4_lower_case_card_keyword_not_matched :
    '.' ∉ "naxis1".toList ∧
    cardKeyword "naxis1  =                   10\n".toList = some "naxis1".toList ∧
    isdetectedkeyword "naxis1  =                   10\n".toList
      [uppercase "naxis1".toList] = some (-1) ∧
    ¬ (isdetectedkeyword "naxis1  =                   10\n".toList
        [uppercase "naxis1".toList] = some 0 ↔
      uppercase "naxis1".toList = uppercase "naxis1".toList) := by
  decide

/-- C4 (amended). For every request `r` without a dot and every line whose keyword is
`kw`, the request (upper cased by `main`) is matched if and only if the upper case of
`r` is equal to `kw` itself, and -1 is returned otherwise: only the request is upper
cased, the card keyword is compared as written. -/
theorem C4_flat_request_matches_upper_case (r line kw : List Char) (hr : '.' ∉ r)
    (hkw : cardKeyword line = some kw) :
    (isdetectedkeyword line [uppercase r] = some 0 ↔ uppercase r = kw) ∧
    (isdetectedkeyword line [uppercase r] = some (-1) ↔ uppercase r ≠ kw) := by
  have hc : canonicalRequest (uppercase r) = uppercase r := by
    unfold canonicalRequest
    rw [if_neg (dot_not_mem_uppercase r hr)]
  have h1 := isdetectedkeyword_single line kw (uppercase r) hkw
  rw [hc] at h1
  exact h1

/-- Witness of C4 (amended): the request `naxis1` and the card `NAXIS1  = 10`. -/
theorem C4_flat_request_matches_upper_case_witness :
    '.' ∉ "naxis1".toList ∧
    isdetectedkeyword "NAXIS1  =                   10\n".toList
      [uppercase "naxis1".toList] = some 0 :=
  ⟨by decide,
    (C4_flat_request_matches_upper_case "naxis1".toList
      "NAXIS1  =                   10\n".toList "NAXIS1".toList (by decide) (by decide)).1.mpr
      (by decide)⟩

/-- First match: for every line whose keyword is `kw` and every request list,
`isdetectedkeyword` returns the index `i` exactly when request `i` (expanded when it
holds a dot) is equal to `kw` and no request below `i` is; it returns -1 exactly when
no request is equal to `kw`; and it always returns -1 or an index of the list. -/
theorem isdetectedkeyword_first_match (line kw : List Char) (keywords : List (List Char))
    (hkw : cardKeyword line = some kw) :
    (∀ i : Nat, isdetectedkeyword line keywords = some (i : Int) ↔
      ∃ q, keywords[i]? = some q ∧ canonicalRequest q = kw ∧
        ∀ j, j < i → ∀ p, keywords[j]? = some p → canonicalRequest p ≠ kw) ∧
    (isdetectedkeyword line keywords = some (-1) ↔
      ∀ q ∈ keywords, canonicalRequest q ≠ kw) ∧
    (∃ r : Int, isdetectedkeyword line keywords = some r ∧
      (r = -1 ∨ ∃ i : Nat, r = (i : Int) ∧ i < keywords.length)) := by
  unfold isdetectedkeyword
  rw [hkw]
  simp only [Option.map_some', Option.some.injEq]
  refine ⟨?_, ?_, ?_⟩
  · intro i
    constructor
    · intro h
      rcases findKeyword_cases kw keywords 0 with ⟨h1, _⟩ | ⟨n, q, h1, h2, h3, h4⟩
      · rw [h1] at h; omega
      · rw [h1] at h
        have hn : n = i := by omega
        subst hn
        exact ⟨q, h2, h3, h4⟩
    · rintro ⟨q, h2, h3, h4⟩
      rw [findKeyword_first kw keywords 0 i q h2 h3 h4]
      congr 1
      omega
  · constructor
    · intro h
      rcases findKeyword_cases kw keywords 0 with ⟨_, h2⟩ | ⟨n, q, h1, _, _, _⟩
      · exact h2
      · rw [h1] at h; omega
    · intro h
      exact findKeyword_none kw keywords 0 h
  · rcases findKeyword_cases kw keywords 0 with ⟨h1, _⟩ | ⟨n, q, h1, h2, _, _⟩
    · exact ⟨_, rfl, Or.inl h1⟩
    · refine ⟨_, rfl, Or.inr ⟨n, ?_, ?_⟩⟩
      · rw [h1]; congr 1; omega
      · by_contra hlen
        have : keywords[n]? = none := List.getElem?_eq_none (by omega)
        rw [this] at h2
        cases h2

/-- The keyword `NAXIS1` requested at the indices 1 and 2 is reported at index 1. -/
theorem isdetectedkeyword_first_match_example :
    cardKeyword "NAXIS1  =                  100\n".toList = some "NAXIS1".toList ∧
    isdetectedkeyword "NAXIS1  =                  100\n".toList
      ["NAXIS2".toList, "NAXIS1".toList, "NAXIS1".toList] = some ((1 : Nat) : Int) :=
  ⟨by decide,
    ((isdetectedkeyword_first_match "NAXIS1  =                  100\n".toList "NAXIS1".toList
      ["NAXIS2".toList, "NAXIS1".toList, "NAXIS1".toList] (by decide)).1 1).mpr
      ⟨"NAXIS1".toList, by decide, by decide, by
        intro j hj p hp
        have hj0 : j = 0 := by omega
        subst hj0
        simp at hp
        subst hp
        decide⟩⟩

/-- C5 (code evaluated where the claim fails). The claim: for every card line and
every request list `isdetectedkeyword` returns the smallest index whose request
(expanded when it holds a dot) is equal to the card keyword, and -1 exactly when no
request matches. On the card line `        = 5`, whose keyword field is blank, the
walk `while (kw[i] == ' ') i--` of line 328 has no lower bound and reads `kw[-1]`:
the function has no result, neither an index nor -1, whatever the requests are. On
lines that have a keyword the first matching index is returned: `NAXIS1` requested
at the indices 1 and 2 is reported at 1, the request `TEL.AIRM` given twice is
compared as `HIERARCH ESO TEL AIRM` and reported at its lower index, and a keyword
that no request names gives -1. -/
theorem C5_no_result_on_blank_keyword_field :
    cardKeyword "        = 5\n".toList = none ∧
    (∀ keywords : List (List Char), isdetectedkeyword "        = 5\n".toList keywords = none) ∧
    isdetectedkeyword "        = 5\n".toList ["NAXIS2".toList, "NAXIS1".toList] ≠ some (-1) ∧
    isdetectedkeyword "NAXIS1  =                  100\n".toList
      ["NAXIS2".toList, "NAXIS1".toList, "NAXIS1".toList] = some 1 ∧
    isdetectedkeyword "HIERARCH ESO TEL AIRM = 1.2\n".toList
      ["NAXIS1".toList, "TEL.AIRM".toList, "TEL.AIRM".toList] = some 1 ∧
    isdetectedkeyword "HIERARCH ESO TEL AIRM = 1.2\n".toList
      ["NAXIS1".toList, "TEL AIRM".toList, "HIERARCH ESO TEL AIRM".toList] = some 2 ∧
    isdetectedkeyword "NAXIS1  =                  100\n".toList
      ["NAXIS2".toList, "TEL.AIRM".toList] = some (-1) := by
  have h : cardKeyword "        = 5\n".toList = none := by decide
  refine ⟨h, ?_, ?_, by decide, by decide!, by decide!, by decide!⟩
  · intro keywords
    unfold isdetectedkeyword
    rw [h]
    rfl
  · unfold isdetectedkeyword
    rw [h]
    exact fun hc => Option.noConfusion hc

/-! ## The claims on the table -/

/-- C6. The two example files (`NAXIS1=100`, `NAXIS2=200`; `NAXIS1=20` only) dumped by
the first stage and tabulated for the requests `NAXIS2 NAXIS1` give status 0 and
exactly three lines: the header with the fields `FILE`, `NAXIS2`, `NAXIS1`, the row of
file 1 with its name, `200`, `100`, and the row of file 2 with its name, a blank
field and `20`. -/
theorem C6_end_to_end_table :
    dfits "dfits".toList ["file1.fits".toList, "file2.fits".toList] exampleFiles [] =
      some (0,
        ("====> file file1.fits (main) <====\n" ++
         "SIMPLE  =                    T / Standard FITS\n" ++
         "BITPIX  =                   16\n" ++
         "NAXIS   =                    2\n" ++
         "NAXIS1  =                  100\n" ++
         "NAXIS2  =                  200\n" ++
         "END\n" ++
         "====> file file2.fits (main) <====\n" ++
         "SIMPLE  =                    T / Standard FITS\n" ++
         "BITPIX  =                   16\n" ++
         "NAXIS   =                    1\n" ++
         "NAXIS1  =                   20\n" ++
         "END\n").toList) ∧
    ((dfits "dfits".toList ["file1.fits".toList, "file2.fits".toList] exampleFiles []).bind
      (fun t => fitsort "fitsort".toList ["NAXIS2".toList, "NAXIS1".toList] t.2)) =
      some (0,
        ("FILE      \tNAXIS2\tNAXIS1\t\n" ++
         "file1.fits\t200   \t100   \t\n" ++
         "file2.fits\t      \t20    \t\n").toList) ∧
    tableFields
        ("FILE      \tNAXIS2\tNAXIS1\t\n" ++
         "file1.fits\t200   \t100   \t\n" ++
         "file2.fits\t      \t20    \t\n").toList =
      [["FILE".toList, "NAXIS2".toList, "NAXIS1".toList],
       ["file1.fits".toList, "200".toList, "100".toList],
       ["file2.fits".toList, [], "20".toList]] := by
  refine ⟨by decide!, by decide!, by decide⟩

/-- C7 (the claim fails). For `file1.fits` (`NAXIS1=100`, `NAXIS2=200`) and
`file2.fits` (`NAXIS1=20`) and the requests `NAXIS2 NAXIS1` the rows printed are not
`file1.fits<TAB>200<TAB>100<LF>` and `file2.fits<TAB><TAB>20<LF>`: every value is
padded to its column width, the absent keyword is printed as a padded field of
blanks, not only a tab, and a tab follows the last field as well; without `-d` a
header line comes first. -/
theorem C7_rows_are_padded_not_literal :
    ((dfits "dfits".toList ["file1.fits".toList, "file2.fits".toList] exampleFiles []).bind
      (fun t => fitsort "fitsort".toList ["-d".toList, "NAXIS2".toList, "NAXIS1".toList] t.2)) =
      some (0, ("file1.fits\t200   \t100   \t\n" ++ "file2.fits\t      \t20    \t\n").toList) ∧
    ("file1.fits\t200   \t100   \t\n" ++ "file2.fits\t      \t20    \t\n").toList ≠
      ("file1.fits\t200\t100\n" ++ "file2.fits\t\t20\n").toList ∧
    ((dfits "dfits".toList ["file1.fits".toList, "file2.fits".toList] exampleFiles []).bind
      (fun t => fitsort "fitsort".toList ["NAXIS2".toList, "NAXIS1".toList] t.2)) ≠
      some (0, ("file1.fits\t200\t100\n" ++ "file2.fits\t\t20\n").toList) := by
  refine ⟨by decide!, by decide, by decide!⟩

/-- The line of a record is made of its fields, each followed by a tab, and a
linefeed. -/
theorem rowLine_eq_rowFields (pn : Bool) (keys : List (List Char)) (recs : List record)
    (r : record) :
    rowLine pn keys recs r =
      ((rowFields pn keys recs r).map (fun f => f ++ ['\t'])).flatten ++ ['\n'] := by
  unfold rowLine rowFields
  have hz : ∀ (ws : List Nat) (ks : List keyword),
      List.zipWith (fun w k => printField w (if k.present ≠ 0 then k.value else [' '])) ws ks =
        (List.zipWith (fun w k => leftJustified w (if k.present ≠ 0 then k.value else [' ']))
          ws ks).map (fun f => f ++ ['\t']) := by
    intro ws ks
    rw [List.map_zipWith]
    rfl
  rw [hz]
  cases pn
  · simp
  · simp [printField, leftJustified]

/-- The header line is made of its fields, each followed by a tab, and a linefeed. -/
theorem headerLine_eq_fields (pn : Bool) (keys : List (List Char)) (recs : List record) :
    headerLine pn keys recs =
      (((if pn then [leftJustified (max_filnam recs) "FILE".toList] else []) ++
        List.zipWith leftJustified (max_width keys recs) keys).map
          (fun f => f ++ ['\t'])).flatten ++ ['\n'] := by
  unfold headerLine
  have hz : ∀ (ws : List Nat) (ks : List (List Char)),
      List.zipWith printField ws ks =
        (List.zipWith leftJustified ws ks).map (fun f => f ++ ['\t']) := by
    intro ws ks
    rw [List.map_zipWith]
    rfl
  rw [hz]
  cases pn
  · simp
  · simp [printField, leftJustified]

/-- C7 (amended). Whenever the input is read into at least one record, the output
with `-d` is one row for each record, in order, and a row is made of its fields,
each followed by a tab, the last one included, and then a linefeed. The fields are
the file name when names are printed and one field for each keyword of the record;
a field is left justified in its column: the text, then blanks up to the width of
the column, and nothing else. The field of an absent keyword is made of blanks, at
least one: it is never only a tab. Without `-d` the same rows come after a header
line made the same way of the field `FILE`, when names are printed, and of the
requests in upper case. -/
theorem C7_rows_of_padded_fields (pname : List Char) (requests : List (List Char))
    (input : List Char) (st : ReadState)
    (hread : readLines (requests.map uppercase) ⟨[], false⟩
      ((inputLines input.length input).map cstr) = some st)
    (hrec : st.allrecords ≠ []) :
    fitsort pname ("-d".toList :: requests) input =
      some (0, (st.allrecords.map (fun r =>
        ((rowFields st.printnames (requests.map uppercase) st.allrecords r).map
          (fun f => f ++ ['\t'])).flatten ++ ['\n'])).flatten) ∧
    (∀ (a1 : List Char) (more : List (List Char)), requests = a1 :: more →
      a1 ≠ "-d".toList →
      fitsort pname requests input =
        some (0,
          ((((if st.printnames then [leftJustified (max_filnam st.allrecords) "FILE".toList]
              else []) ++
            List.zipWith leftJustified (max_width (requests.map uppercase) st.allrecords)
              (requests.map uppercase)).map (fun f => f ++ ['\t'])).flatten ++ ['\n']) ++
          (st.allrecords.map (fun r =>
            ((rowFields st.printnames (requests.map uppercase) st.allrecords r).map
              (fun f => f ++ ['\t'])).flatten ++ ['\n'])).flatten)) ∧
    (∀ (w : Nat) (s : List Char), s <+: leftJustified w s ∧
      (leftJustified w s).length = max w s.length ∧
      ∀ c ∈ (leftJustified w s).drop s.length, c = ' ') ∧
    (∀ w : Nat, leftJustified w [' '] = List.replicate (max w 1) ' ' ∧
      leftJustified w [' '] ≠ []) := by
  have hrow : rowLine st.printnames (requests.map uppercase) st.allrecords =
      fun r => ((rowFields st.printnames (requests.map uppercase) st.allrecords r).map
        (fun f => f ++ ['\t'])).flatten ++ ['\n'] :=
    funext (fun r => rowLine_eq_rowFields _ _ _ r)
  refine ⟨?_, ?_, ?_, ?_⟩
  · unfold fitsort
    simp only [if_true, hread, hrec, if_false, ne_eq, not_true_eq_false, decide_False,
      Bool.false_eq_true, List.nil_append]
    rw [hrow]
  · intro a1 more hreq hd
    rw [hreq] at hread hrow ⊢
    unfold fitsort
    simp only [hd, if_false, hread, hrec, ne_eq, not_false_eq_true, decide_True, if_true]
    rw [hrow, headerLine_eq_fields]
  · intro w s
    refine ⟨List.prefix_append _ _, ?_, ?_⟩
    · unfold leftJustified
      rw [List.length_append, List.length_replicate]
      omega
    · intro c hc
      unfold leftJustified at hc
      rw [List.drop_left] at hc
      exact (List.mem_replicate.mp hc).2
  · intro w
    constructor
    · unfold leftJustified
      rcases Nat.eq_zero_or_pos w with h | h
      · subst h; rfl
      · have h1 : w - [' '].length = w - 1 := rfl
        have h2 : max w 1 = (w - 1) + 1 := by omega
        rw [h1, h2, List.replicate_succ]
        rfl
    · unfold leftJustified
      simp

/-- Witness of C7 (amended): the transcript of `file1.fits` (`NAXIS1=100`,
`NAXIS2=200`) and `file2.fits` (`NAXIS1=20`) with the requests `NAXIS2 NAXIS1`. With
`-d` the values are padded to the six columns of the keyword names, the absent
`NAXIS2` of the second file is a field of six blanks, and a tab ends every field;
without `-d` the header line comes first. -/
theorem C7_rows_of_padded_fields_witness :
    fitsort "fitsort".toList ["-d".toList, "NAXIS2".toList, "NAXIS1".toList]
        ("====> file file1.fits (main) <====\n" ++
         "SIMPLE  =                    T / Standard FITS\n" ++
         "BITPIX  =                   16\n" ++
         "NAXIS   =                    2\n" ++
         "NAXIS1  =                  100\n" ++
         "NAXIS2  =                  200\n" ++
         "END\n" ++
         "====> file file2.fits (main) <====\n" ++
         "SIMPLE  =                    T / Standard FITS\n" ++
         "BITPIX  =                   16\n" ++
         "NAXIS   =                    1\n" ++
         "NAXIS1  =                   20\n" ++
         "END\n").toList =
      some (0, ("file1.fits\t200   \t100   \t\n" ++ "file2.fits\t      \t20    \t\n").toList) ∧
    fitsort "fitsort".toList ["NAXIS2".toList, "NAXIS1".toList]
        ("====> file file1.fits (main) <====\n" ++
         "SIMPLE  =                    T / Standard FITS\n" ++
         "BITPIX  =                   16\n" ++
         "NAXIS   =                    2\n" ++
         "NAXIS1  =                  100\n" ++
         "NAXIS2  =                  200\n" ++
         "END\n" ++
         "====> file file2.fits (main) <====\n" ++
         "SIMPLE  =                    T / Standard FITS\n" ++
         "BITPIX  =                   16\n" ++
         "NAXIS   =                    1\n" ++
         "NAXIS1  =                   20\n" ++
         "END\n").toList =
      some (0, ("FILE      \tNAXIS2\tNAXIS1\t\n" ++ "file1.fits\t200   \t100   \t\n" ++
        "file2.fits\t      \t20    \t\n").toList) :=
  ⟨(C7_rows_of_padded_fields "fitsort".toList ["NAXIS2".toList, "NAXIS1".toList]
    ("====> file file1.fits (main) <====\n" ++
         "SIMPLE  =                    T / Standard FITS\n" ++
         "BITPIX  =                   16\n" ++
         "NAXIS   =                    2\n" ++
         "NAXIS1  =                  100\n" ++
         "NAXIS2  =                  200\n" ++
         "END\n" ++
         "====> file file2.fits (main) <====\n" ++
         "SIMPLE  =                    T / Standard FITS\n" ++
         "BITPIX  =                   16\n" ++
         "NAXIS   =                    1\n" ++
         "NAXIS1  =                   20\n" ++
         "END\n").toList
    ⟨[⟨"file1.fits".toList, [⟨"200".toList, 1⟩, ⟨"100".toList, 1⟩]⟩,
      ⟨"file2.fits".toList, [⟨[], 0⟩, ⟨"20".toList, 1⟩]⟩], true⟩
    (by decide!) (by decide)).1.trans (by decide!),
   ((C7_rows_of_padded_fields "fitsort".toList ["NAXIS2".toList, "NAXIS1".toList]
    ("====> file file1.fits (main) <====\n" ++
         "SIMPLE  =                    T / Standard FITS\n" ++
         "BITPIX  =                   16\n" ++
         "NAXIS   =                    2\n" ++
         "NAXIS1  =                  100\n" ++
         "NAXIS2  =                  200\n" ++
         "END\n" ++
         "====> file file2.fits (main) <====\n" ++
         "SIMPLE  =                    T / Standard FITS\n" ++
         "BITPIX  =                   16\n" ++
         "NAXIS   =                    1\n" ++
         "NAXIS1  =                   20\n" ++
         "END\n").toList
    ⟨[⟨"file1.fits".toList, [⟨"200".toList, 1⟩, ⟨"100".toList, 1⟩]⟩,
      ⟨"file2.fits".toList, [⟨[], 0⟩, ⟨"20".toList, 1⟩]⟩], true⟩
    (by decide!) (by decide)).2.1 "NAXIS2".toList ["NAXIS1".toList] rfl (by decide)).trans
      (by decide!)⟩

/-- C8 (code evaluated where the claim fails). The claim: every column, the file name
column included, is as wide as the longer of its header and its longest value, and
every field is padded to that width. For one file called `a` and the request `NAXIS1`
the file name column is computed 1 wide, the header field `FILE` takes 4 columns and
the name field 1, so the second column starts at offset 5 in the header line and at
offset 2 in the row. -/
theorem C8_file_name_column_ignores_its_header :
    ((dfits "dfits".toList ["a".toList] exampleFiles []).bind
      (fun t => fitsort "fitsort".toList ["NAXIS1".toList] t.2)) =
      some (0, ("FILE\tNAXIS1\t\n" ++ "a\t20    \t\n").toList) ∧
    max_filnam [⟨"a".toList, [⟨"20".toList, 1⟩]⟩] = 1 ∧
    max_width ["NAXIS1".toList] [⟨"a".toList, [⟨"20".toList, 1⟩]⟩] = [6] ∧
    (printField (max_filnam [⟨"a".toList, [⟨"20".toList, 1⟩]⟩]) "FILE".toList).length = 5 ∧
    (printField (max_filnam [⟨"a".toList, [⟨"20".toList, 1⟩]⟩]) "a".toList).length = 2 := by
  refine ⟨by decide!, by decide, by decide, by decide, by decide⟩

/-- C9 (the claim fails). On an empty input, and on an input of one card line without
any marker, the requests `NAXIS2 NAXIS1` give status -1 but the header line is
printed before the message. -/
theorem C9_header_line_printed_before_the_error :
    fitsort "fitsort".toList ["NAXIS2".toList, "NAXIS1".toList] [] =
      some (-1, ("NAXIS2\tNAXIS1\t\n" ++
        "*** error: no input data corresponding to dfits output\n").toList) ∧
    fitsort "fitsort".toList ["NAXIS2".toList, "NAXIS1".toList]
        "NAXIS1  =                  100\n".toList =
      some (-1, ("NAXIS2\tNAXIS1\t\n" ++
        "*** error: no input data corresponding to dfits output\n").toList) := by
  refine ⟨by decide, by decide!⟩

/-- A field as wide as its text is the text and a tab. -/
theorem printField_own_length (k : List Char) : printField k.length k = k ++ ['\t'] := by
  simp [printField]

/-- The header fields of the requests before any record widened a column. -/
theorem zipWith_printField_lengths (keys : List (List Char)) :
    List.zipWith printField (keys.map List.length) keys = keys.map (fun k => k ++ ['\t']) := by
  induction keys with
  | nil => rfl
  | cons k ks ih =>
    simp only [List.map_cons, List.zipWith_cons_cons, ih, printField_own_length]

/-- Lines that open no record leave the reading loop without any record; the loop
is defined exactly when every line has a keyword. -/
theorem readLines_no_record (keys : List (List Char)) (pn : Bool) (lines : List (List Char))
    (hrec : ∀ l ∈ lines, isfilename l = 0) :
    readLines keys ⟨[], pn⟩ lines =
      if lines.all (fun l => (cardKeyword l).isSome) then some ⟨[], pn⟩ else none := by
  induction lines with
  | nil => rfl
  | cons l ls ih =>
    have h0 : isfilename l = 0 := hrec l (List.mem_cons_self l ls)
    have ih2 := ih (fun x hx => hrec x (List.mem_cons_of_mem l hx))
    rw [readLines]
    cases hk : cardKeyword l with
    | none => simp [h0, isdetectedkeyword, hk]
    | some kw => simp [h0, isdetectedkeyword, hk, ih2]

/-- C9 (amended). For every input whose lines open no record (none starts with the
marker or with the magic number) and every argument list that is not empty: when
every line has a keyword the result is status -1 and no row is printed; with `-d` as
first argument only the message is printed, otherwise the header line comes first
(every request in upper case followed by a tab, no `FILE` field, then a newline).
When a line has no keyword (only blanks before its first equals sign) the keyword
scan leaves its buffer and there is no result. A zero status or a row never
occurs. -/
theorem C9_no_record_status_and_output (pname a1 : List Char) (more : List (List Char))
    (input : List Char)
    (hrec : ∀ l ∈ (inputLines input.length input).map cstr, isfilename l = 0) :
    fitsort pname (a1 :: more) input =
      if ((inputLines input.length input).map cstr).all (fun l => (cardKeyword l).isSome) then
        some (-1,
          (if a1 = "-d".toList then []
           else ((a1 :: more).map (fun k => uppercase k ++ ['\t'])).flatten ++ ['\n']) ++
          noInputText)
      else none := by
  unfold fitsort
  simp only [readLines_no_record _ false _ hrec]
  by_cases hall :
      ((inputLines input.length input).map cstr).all (fun l => (cardKeyword l).isSome) = true
  · simp only [hall, if_true]
    by_cases hd : a1 = "-d".toList
    · simp only [hd, if_true, ne_eq, not_true_eq_false, decide_False, Bool.false_eq_true,
        if_false, List.nil_append]
    · have hz := zipWith_printField_lengths ((a1 :: more).map uppercase)
      simp only [List.map_map, Function.comp_def] at hz
      simp only [hd, if_false, ne_eq, not_false_eq_true, decide_True, if_true, headerLine,
        max_width, List.foldl_nil, List.map_map, Function.comp_def,
        Bool.false_eq_true, List.nil_append, hz]
  · simp only [hall, if_false, Bool.false_eq_true]

/-- Witness of C9 (amended): one card line, requests `naxis2 NAXIS1`. -/
theorem C9_no_record_status_and_output_witness :
    fitsort "fitsort".toList ["naxis2".toList, "NAXIS1".toList]
        "NAXIS1  =                  100\n".toList =
      some (-1, ("NAXIS2\tNAXIS1\t\n" ++
        "*** error: no input data corresponding to dfits output\n").toList) :=
  (C9_no_record_status_and_output "fitsort".toList "naxis2".toList ["NAXIS1".toList]
    "NAXIS1  =                  100\n".toList (by decide!)).trans (by decide!)

/-- A marker line with a third token, read in any state of the loop: a record named
by that token is opened with all flags clear, and the loop resumes after the line
that follows the marker line, whatever that line is. -/
theorem readLines_marker_line (keys : List (List Char)) (st : ReadState)
    (curline name : List Char) (rest : List (List Char))
    (hmark : "====>".toList <+: curline) (hname : getfilename curline = some name) :
    readLines keys st (curline :: rest) =
      readLines keys ⟨st.allrecords ++ [⟨name, clearKeywords keys.length⟩], true⟩
        (rest.drop 1) := by
  have h1 : isfilename curline = 1 := by
    unfold isfilename
    rw [if_pos (List.isPrefixOf_iff_prefix.mpr hmark)]
  rw [readLines]
  simp only [h1, if_true, markerName, hname]
  cases rest with
  | nil => simp [readLines]
  | cons nxt rest2 => simp

/-! ## Reading blocks of 80 bytes -/

/-- With fuel for every byte the blocks read do not depend on the fuel. -/
theorem readBlocks_fuel (fuel : Nat) (s : List Char) (h : s.length ≤ fuel) :
    readBlocks fuel s = readBlocks s.length s := by
  induction fuel using Nat.strong_induction_on generalizing s with
  | _ fuel ih =>
    cases s with
    | nil => cases fuel <;> simp [readBlocks]
    | cons c t =>
      cases fuel with
      | zero => simp at h
      | succ f =>
        have hd : ((c :: t).drop 80).length ≤ t.length := by
          rw [List.length_drop, List.length_cons]
          omega
        have hf : ((c :: t).drop 80).length ≤ f := by
          simp only [List.length_cons] at h
          omega
        rw [List.length_cons, readBlocks, readBlocks]
        simp only [List.cons_ne_nil, if_false, reduceCtorEq]
        rw [ih f (Nat.lt_succ_self f) _ hf]
        by_cases ht : t.length = f
        · rw [ht] at hd ⊢
          rw [ih f (Nat.lt_succ_self f) _ hd]
        · have hlt : t.length < f + 1 := by
            simp only [List.length_cons] at h
            omega
          rw [ih t.length hlt _ hd]

/-- A stream that starts with a card of 80 bytes is read as that card and then the
blocks of the rest. -/
theorem readBlocks_card_append (c s : List Char) (hc : c.length = 80) :
    readBlocks (c ++ s).length (c ++ s) = c :: readBlocks s.length s := by
  have hne : c ++ s ≠ [] := by
    intro h
    have := congrArg List.length h
    simp [hc] at this
  have hlen : (c ++ s).length = (s.length + 79) + 1 := by
    rw [List.length_append, hc]
    omega
  rw [hlen, readBlocks, if_neg hne]
  have ht : (c ++ s).take 80 = c := by
    rw [← hc, List.take_left]
  have hd : (c ++ s).drop 80 = s := by
    rw [← hc, List.drop_left]
  rw [ht, hd, readBlocks_fuel (s.length + 79) s (by omega)]

/-- A stream that starts with cards of 80 bytes is read as those cards and then the
blocks of the rest. -/
theorem readBlocks_cards_append (cards : List (List Char)) (s : List Char)
    (hc : ∀ c ∈ cards, c.length = 80) :
    readBlocks (cards.flatten ++ s).length (cards.flatten ++ s) =
      cards ++ readBlocks s.length s := by
  induction cards with
  | nil => simp
  | cons c cs ih =>
    have h1 : c.length = 80 := hc c (List.mem_cons_self c cs)
    have h2 := ih (fun x hx => hc x (List.mem_cons_of_mem c hx))
    rw [List.flatten_cons, List.append_assoc, readBlocks_card_append c _ h1, h2]
    rfl

/-- The blocks left unread make up the bytes left unread. -/
theorem readBlocks_self_flatten (s : List Char) : (readBlocks s.length s).flatten = s :=
  readBlocks_flatten s.length s (Nat.le_refl _)

/-! ## Printing cards -/

/-- A card that can be printed is printed as its text and a newline. -/
theorem printCard_eq_cardLine (buf : List Char) (h : printCard buf ≠ none) :
    printCard buf = some (cardLine buf) := by
  unfold printCard rstrip cardLine cardText at *
  by_cases h1 : cstr buf = []
  · simp [h1, List.rdropWhile]
  · by_cases h2 : (cstr buf).rdropWhile (fun c => c == ' ') = []
    · simp [h1, h2] at h
    · simp [h1, h2]

/-- A card whose text holds a character other than a blank can be printed. -/
theorem printCard_ne_none_of_nonblank (buf : List Char) (ch : Char) (hm : ch ∈ cstr buf)
    (hb : ch ≠ ' ') : printCard buf ≠ none := by
  unfold printCard rstrip
  have h1 : cstr buf ≠ [] := List.ne_nil_of_mem hm
  have h2 : (cstr buf).rdropWhile (fun c => c == ' ') ≠ [] := by
    intro h
    rw [List.rdropWhile_eq_nil_iff] at h
    have := h ch hm
    simp at this
    exact hb this
  simp [h1, h2]

/-- A card without a NUL byte is its own C string. -/
theorem cstr_eq_self (buf : List Char) (h : nulChar ∉ buf) : cstr buf = buf := by
  unfold cstr
  rw [List.takeWhile_eq_self_iff]
  intro x hx
  have : x ≠ nulChar := fun e => h (e ▸ hx)
  simpa using this

/-! ## The loops of `dump_fits_filter` -/

/-- The lines of a run of cards followed by one more card. -/
theorem cardLines_append_singleton (cards : List (List Char)) (c : List Char) :
    cardLines (cards ++ [c]) = cardLines cards ++ cardLine c := by
  simp [cardLines]

/-- The lines of a card followed by a run of cards. -/
theorem cardLines_cons (c : List Char) (cards : List (List Char)) :
    cardLines (c :: cards) = cardLine c ++ cardLines cards := by
  simp [cardLines]

/-- The main header loop prints every card up to and including the first one that
begins `END` and stops there. -/
theorem mainHeader_through_END (mid : List (List Char)) (e : List Char)
    (rest : List (List Char)) (out : List Char)
    (hmid : ∀ c ∈ mid, c.length = 80 ∧ isEND c = false ∧ printCard c ≠ none)
    (he : e.length = 80) (hend : isEND e = true) (hpe : printCard e ≠ none) :
    mainHeader (mid ++ e :: rest) out = some (true, out ++ cardLines (mid ++ [e]), rest) := by
  induction mid generalizing out with
  | nil =>
    rw [List.nil_append, mainHeader]
    simp [he, printCard_eq_cardLine e hpe, hend, cardLines]
  | cons c cs ih =>
    obtain ⟨h1, h2, h3⟩ := hmid c (List.mem_cons_self c cs)
    rw [List.cons_append, mainHeader]
    simp only [h1, ne_eq, not_true_eq_false, if_false, printCard_eq_cardLine c h3, h2,
      Bool.false_eq_true]
    rw [ih (out ++ cardLine c) (fun x hx => hmid x (List.mem_cons_of_mem c hx))]
    simp [cardLines, List.append_assoc]

/-- The print loop of an extension prints every card up to and including the first
one that begins `END`; then the function returns when this was the requested
extension and searches on otherwise. -/
theorem xtensionLoop_emit (xtnum : Int) (n_xt : Nat) (mid : List (List Char)) (e : List Char)
    (rest : List (List Char)) (out : List Char)
    (hmid : ∀ c ∈ mid, c.length = 80 ∧ isEND c = false ∧ printCard c ≠ none)
    (he : e.length = 80) (hend : isEND e = true) (hpe : printCard e ≠ none) :
    xtensionLoop xtnum true n_xt (mid ++ e :: rest) out =
      if (n_xt : Int) = xtnum then some ⟨0, out ++ cardLines (mid ++ [e]), [], rest⟩
      else xtensionLoop xtnum false n_xt rest (out ++ cardLines (mid ++ [e])) := by
  induction mid generalizing out with
  | nil =>
    rw [List.nil_append, xtensionLoop]
    simp [he, printCard_eq_cardLine e hpe, hend, cardLines]
  | cons c cs ih =>
    obtain ⟨h1, h2, h3⟩ := hmid c (List.mem_cons_self c cs)
    rw [List.cons_append, xtensionLoop]
    simp only [h1, ne_eq, not_true_eq_false, if_false, printCard_eq_cardLine c h3, h2,
      Bool.false_eq_true]
    rw [ih (out ++ cardLine c) (fun x hx => hmid x (List.mem_cons_of_mem c hx))]
    simp [cardLines, List.append_assoc]

/-- The search loop passes over full cards without printing anything as long as the
count of cards beginning `XTENSION` stays below the requested number. -/
theorem xtensionLoop_search (xtnum : Int) (n_xt : Nat) (pre rest : List (List Char))
    (out : List Char) (hpre : ∀ c ∈ pre, c.length = 80)
    (hcount : ((n_xt + (pre.filter isXTENSION).length : Nat) : Int) < xtnum) :
    xtensionLoop xtnum false n_xt (pre ++ rest) out =
      xtensionLoop xtnum false (n_xt + (pre.filter isXTENSION).length) rest out := by
  induction pre generalizing n_xt with
  | nil => simp
  | cons c cs ih =>
    have h1 : c.length = 80 := hpre c (List.mem_cons_self c cs)
    have hcs : ∀ x ∈ cs, x.length = 80 := fun x hx => hpre x (List.mem_cons_of_mem c hx)
    rw [List.cons_append, xtensionLoop]
    by_cases hx : isXTENSION c = true
    · have hf : (List.filter isXTENSION (c :: cs)).length =
          (List.filter isXTENSION cs).length + 1 := by
        simp [List.filter_cons, hx]
      rw [hf] at hcount ⊢
      have hne : ¬ (xtnum = 0 ∨ xtnum = ((n_xt + 1 : Nat) : Int)) := by
        push_cast at hcount ⊢
        omega
      simp only [h1, ne_eq, not_true_eq_false, if_false, hx, if_true, hne]
      rw [ih (n_xt + 1) hcs (by push_cast at hcount ⊢; omega)]
      congr 1
      omega
    · have hf : (List.filter isXTENSION (c :: cs)).length =
          (List.filter isXTENSION cs).length := by
        simp [List.filter_cons, hx]
      rw [hf] at hcount ⊢
      simp only [h1, ne_eq, not_true_eq_false, if_false, hx, Bool.false_eq_true]
      exact ih n_xt hcs hcount

/-- The search loop at a card beginning `XTENSION` that is the requested extension,
or any extension when 0 is requested: the marker and the card are printed and the
print loop starts. -/
theorem xtensionLoop_found (xtnum : Int) (n_xt : Nat) (x : List Char) (rest : List (List Char))
    (out : List Char) (hx : x.length = 80) (hxt : isXTENSION x = true)
    (hreq : xtnum = 0 ∨ xtnum = ((n_xt + 1 : Nat) : Int)) (hp : printCard x ≠ none) :
    xtensionLoop xtnum false n_xt (x :: rest) out =
      xtensionLoop xtnum true (n_xt + 1) rest (out ++ xtensionMarker (n_xt + 1) ++ cardLine x) := by
  rw [xtensionLoop]
  simp only [hx, ne_eq, not_true_eq_false, if_false, hxt, if_true, hreq,
    printCard_eq_cardLine x hp, xtensionMarker, List.append_assoc]

/-- The cards of an extension header: the card beginning `XTENSION`, cards that do
not begin `END`, and a card beginning `END`, all of 80 bytes. -/
theorem isExtensionHeader_cards (ext : List (List Char)) (h : isExtensionHeader ext = true) :
    ∃ x mid e, ext = x :: (mid ++ [e]) ∧ x.length = 80 ∧ isXTENSION x = true ∧
      (∀ c ∈ mid, c.length = 80 ∧ isEND c = false) ∧ e.length = 80 ∧ isEND e = true := by
  cases ext with
  | nil => simp [isExtensionHeader] at h
  | cons x rest =>
    rw [isExtensionHeader] at h
    cases hl : rest.getLast? with
    | none => simp [hl] at h
    | some e =>
      simp only [hl, Bool.and_eq_true, decide_eq_true_eq, List.all_eq_true,
        Bool.not_eq_true'] at h
      obtain ⟨⟨hx, hxt⟩, ⟨he, hend⟩, hmid⟩ := h
      refine ⟨x, rest.dropLast, e, ?_, hx, hxt, hmid, he, hend⟩
      rw [List.dropLast_append_getLast? e (by rw [hl]; rfl)]

/-- With 0 requested, a run of extension headers up to the end of the stream is
printed completely, every header after its marker, and the result is 0. -/
theorem xtensionLoop_all (exts : List (List (List Char))) (n_xt : Nat) (out : List Char)
    (hext : ∀ ext ∈ exts, isExtensionHeader ext = true)
    (hprint : ∀ ext ∈ exts, ∀ c ∈ ext, printCard c ≠ none) :
    xtensionLoop 0 false n_xt exts.flatten out =
      some ⟨0, out ++ xtensionsText (n_xt + 1) exts, [], []⟩ := by
  induction exts generalizing n_xt out with
  | nil => simp [xtensionLoop, xtensionsText]
  | cons ext more ih =>
    obtain ⟨x, mid, e, rfl, hx, hxt, hmid, he, hend⟩ :=
      isExtensionHeader_cards _ (hext _ (List.mem_cons_self ext more))
    have hp := hprint _ (List.mem_cons_self _ more)
    have hpx : printCard x ≠ none := hp x (List.mem_cons_self _ _)
    have hpe : printCard e ≠ none := hp e (by simp)
    have hmid2 : ∀ c ∈ mid, c.length = 80 ∧ isEND c = false ∧ printCard c ≠ none :=
      fun c hc => ⟨(hmid c hc).1, (hmid c hc).2, hp c (by simp [hc])⟩
    have hflat : (((x :: (mid ++ [e])) :: more) : List (List (List Char))).flatten =
        x :: (mid ++ e :: more.flatten) := by
      simp
    rw [hflat, xtensionLoop_found 0 n_xt x _ out hx hxt (Or.inl rfl) hpx,
      xtensionLoop_emit 0 (n_xt + 1) mid e _ _ hmid2 he hend hpe]
    have hne : ¬ (((n_xt + 1 : Nat) : Int) = 0) := by
      push_cast
      omega
    rw [if_neg hne, ih (n_xt + 1) _ (fun y hy => hext y (List.mem_cons_of_mem _ hy))
      (fun y hy => hprint y (List.mem_cons_of_mem _ hy))]
    simp [xtensionsText, cardLines_cons, List.append_assoc]

/-! ## `dump_fits_filter` on streams of cards -/

/-- A first card of 80 bytes with the magic number passes the two tests of lines 159
to 167. -/
theorem dumpBlocks_first_card (first : List Char) (rest : List (List Char)) (xtnum : Int)
    (hfirst : first.length = 80) (hmagic : "SIMPLE  =".toList <+: first) :
    dumpBlocks (first :: rest) xtnum =
      if xtnum < 1 then
        match printCard first with
        | none => none
        | some text =>
          match mainHeader rest text with
          | none => none
          | some (false, out, rest2) => some ⟨1, out, [], rest2⟩
          | some (true, out, rest2) =>
            if xtnum < 0 then some ⟨0, out, [], rest2⟩
            else xtensionLoop xtnum false 0 rest2 out
      else xtensionLoop xtnum false 0 rest [] := by
  have hm : "SIMPLE  =".toList.isPrefixOf first = true := List.isPrefixOf_iff_prefix.mpr hmagic
  rw [dumpBlocks]
  simp only [hfirst, ne_eq, not_true_eq_false, if_false, hm]

/-- The main header of a stream, printed when the requested number is below 1: the
first card and the cards up to the first one that begins `END`. -/
theorem dumpBlocks_main_header (first : List Char) (mid : List (List Char)) (e : List Char)
    (rest : List (List Char)) (xtnum : Int) (hk : xtnum < 1)
    (hfirst : first.length = 80) (hmagic : "SIMPLE  =".toList <+: first)
    (hmid : ∀ c ∈ mid, c.length = 80 ∧ isEND c = false)
    (he : e.length = 80) (hend : isEND e = true)
    (hprint : ∀ c ∈ first :: (mid ++ [e]), printCard c ≠ none) :
    dumpBlocks (first :: (mid ++ e :: rest)) xtnum =
      if xtnum < 0 then some ⟨0, cardLines (first :: (mid ++ [e])), [], rest⟩
      else xtensionLoop xtnum false 0 rest (cardLines (first :: (mid ++ [e]))) := by
  have hpf : printCard first ≠ none := hprint first (List.mem_cons_self _ _)
  have hpe : printCard e ≠ none := hprint e (by simp)
  have hmid2 : ∀ c ∈ mid, c.length = 80 ∧ isEND c = false ∧ printCard c ≠ none :=
    fun c hc => ⟨(hmid c hc).1, (hmid c hc).2, hprint c (by simp [hc])⟩
  rw [dumpBlocks_first_card first _ xtnum hfirst hmagic, if_pos hk,
    printCard_eq_cardLine first hpf]
  simp only [mainHeader_through_END mid e rest (cardLine first) hmid2 he hend hpe,
    cardLines_cons]

/-- A request for extension `n` from 1 on: the cards before the card that opens
extension `n` are passed over, the extension is printed after its marker up to its
first card beginning `END`, and the function returns 0 there, with the blocks after
that card unread. -/
theorem dumpBlocks_single_extension (first : List Char) (pre : List (List Char))
    (x : List Char) (mid : List (List Char)) (e : List Char) (rest : List (List Char))
    (n : Nat) (hfirst : first.length = 80) (hmagic : "SIMPLE  =".toList <+: first)
    (hpre : ∀ c ∈ pre, c.length = 80) (hcount : (pre.filter isXTENSION).length + 1 = n)
    (hx : x.length = 80) (hxt : isXTENSION x = true)
    (hmid : ∀ c ∈ mid, c.length = 80 ∧ isEND c = false)
    (he : e.length = 80) (hend : isEND e = true)
    (hprint : ∀ c ∈ x :: (mid ++ [e]), printCard c ≠ none) :
    dumpBlocks (first :: (pre ++ x :: (mid ++ e :: rest))) (n : Int) =
      some ⟨0, xtensionMarker n ++ cardLines (x :: (mid ++ [e])), [], rest⟩ := by
  have hpx : printCard x ≠ none := hprint x (List.mem_cons_self _ _)
  have hpe : printCard e ≠ none := hprint e (by simp)
  have hmid2 : ∀ c ∈ mid, c.length = 80 ∧ isEND c = false ∧ printCard c ≠ none :=
    fun c hc => ⟨(hmid c hc).1, (hmid c hc).2, hprint c (by simp [hc])⟩
  have hn1 : ¬ ((n : Int) < 1) := by omega
  rw [dumpBlocks_first_card first _ _ hfirst hmagic, if_neg hn1,
    xtensionLoop_search (n : Int) 0 pre _ [] hpre (by omega),
    xtensionLoop_found (n : Int) _ x _ [] hx hxt (Or.inr (by congr 1; omega)) hpx,
    xtensionLoop_emit (n : Int) _ mid e rest _ hmid2 he hend hpe]
  have hidx : 0 + (pre.filter isXTENSION).length + 1 = n := by omega
  rw [hidx, if_pos rfl]
  simp [cardLines_cons, List.append_assoc]

/-- The loops after the first card write nothing to the standard error. -/
theorem xtensionLoop_messages (xtnum : Int) (emitting : Bool) (n_xt : Nat)
    (blocks : List (List Char)) (out : List Char) (r : DumpResult)
    (h : xtensionLoop xtnum emitting n_xt blocks out = some r) : r.messages = [] := by
  induction blocks generalizing emitting n_xt out with
  | nil =>
    cases emitting <;> simp [xtensionLoop] at h <;> rw [← h]
  | cons buf rest ih =>
    cases emitting with
    | false =>
      rw [xtensionLoop] at h
      split_ifs at h with h1 h2 h3
      · simp at h; rw [← h]
      · cases hp : printCard buf with
        | none => simp [hp] at h
        | some text =>
          simp only [hp] at h
          exact ih _ _ _ h
      · exact ih _ _ _ h
      · exact ih _ _ _ h
    | true =>
      rw [xtensionLoop] at h
      by_cases h1 : buf.length ≠ 80
      · rw [if_pos h1] at h
        split_ifs at h
        · simp at h; rw [← h]
        · exact ih _ _ _ h
      · rw [if_neg h1] at h
        cases hp : printCard buf with
        | none => simp [hp] at h
        | some text =>
          simp only [hp] at h
          split_ifs at h
          · simp at h; rw [← h]
          · exact ih _ _ _ h
          · exact ih _ _ _ h

/-! ## Where `dump_fits_filter` has a result -/

/-- The main header loop has a result only if every card up to the first one
beginning `END` can be printed. -/
theorem mainHeader_defined (mid : List (List Char)) (e : List Char)
    (rest : List (List Char)) (out : List Char)
    (hmid : ∀ c ∈ mid, c.length = 80 ∧ isEND c = false) (he : e.length = 80)
    (h : mainHeader (mid ++ e :: rest) out ≠ none) :
    ∀ c ∈ mid ++ [e], printCard c ≠ none := by
  induction mid generalizing out with
  | nil =>
    intro c hc
    rw [List.nil_append, List.mem_singleton] at hc
    subst hc
    intro hp
    apply h
    rw [List.nil_append, mainHeader, if_neg (not_not.mpr he)]
    simp only [hp]
  | cons a cs ih =>
    obtain ⟨h1, h2⟩ := hmid a (List.mem_cons_self a cs)
    have hcs : ∀ c ∈ cs, c.length = 80 ∧ isEND c = false :=
      fun x hx => hmid x (List.mem_cons_of_mem a hx)
    cases hp : printCard a with
    | none =>
      exfalso
      apply h
      rw [List.cons_append, mainHeader, if_neg (not_not.mpr h1)]
      simp only [hp]
    | some text =>
      have hrest : mainHeader (cs ++ e :: rest) (out ++ text) ≠ none := by
        intro hn
        apply h
        rw [List.cons_append, mainHeader, if_neg (not_not.mpr h1)]
        simp only [hp, h2, Bool.false_eq_true, if_false, hn]
      intro c hc
      rcases List.mem_cons.mp hc with rfl | hc
      · rw [hp]
        exact Option.some_ne_none text
      · exact ih (out ++ text) hcs hrest c hc

/-- The print loop of an extension has a result only if every card up to the first
one beginning `END` can be printed. -/
theorem xtensionLoop_emit_defined (xtnum : Int) (n_xt : Nat) (mid : List (List Char))
    (e : List Char) (rest : List (List Char)) (out : List Char)
    (hmid : ∀ c ∈ mid, c.length = 80 ∧ isEND c = false) (he : e.length = 80)
    (h : xtensionLoop xtnum true n_xt (mid ++ e :: rest) out ≠ none) :
    ∀ c ∈ mid ++ [e], printCard c ≠ none := by
  induction mid generalizing out with
  | nil =>
    intro c hc
    rw [List.nil_append, List.mem_singleton] at hc
    subst hc
    intro hp
    apply h
    rw [List.nil_append, xtensionLoop, if_neg (not_not.mpr he)]
    simp only [hp]
  | cons a cs ih =>
    obtain ⟨h1, h2⟩ := hmid a (List.mem_cons_self a cs)
    have hcs : ∀ c ∈ cs, c.length = 80 ∧ isEND c = false :=
      fun x hx => hmid x (List.mem_cons_of_mem a hx)
    cases hp : printCard a with
    | none =>
      exfalso
      apply h
      rw [List.cons_append, xtensionLoop, if_neg (not_not.mpr h1)]
      simp only [hp]
    | some text =>
      have hrest : xtensionLoop xtnum true n_xt (cs ++ e :: rest) (out ++ text) ≠ none := by
        intro hn
        apply h
        rw [List.cons_append, xtensionLoop, if_neg (not_not.mpr h1)]
        simp only [hp, h2, Bool.false_eq_true, if_false, hn]
      intro c hc
      rcases List.mem_cons.mp hc with rfl | hc
      · rw [hp]
        exact Option.some_ne_none text
      · exact ih (out ++ text) hcs hrest c hc

/-- The search loop at a card beginning `XTENSION` that is to be printed has a
result only if that card can be printed and the print loop that follows has one. -/
theorem xtensionLoop_found_defined (xtnum : Int) (n_xt : Nat) (x : List Char)
    (rest : List (List Char)) (out : List Char) (hx : x.length = 80)
    (hxt : isXTENSION x = true) (hreq : xtnum = 0 ∨ xtnum = ((n_xt + 1 : Nat) : Int))
    (h : xtensionLoop xtnum false n_xt (x :: rest) out ≠ none) : printCard x ≠ none := by
  intro hp
  apply h
  rw [xtensionLoop, if_neg (not_not.mpr hx), if_pos hxt, if_pos hreq]
  simp only [hp]

/-- With 0 requested, a run of extension headers has a result only if every card of
it can be printed. -/
theorem xtensionLoop_all_defined (exts : List (List (List Char))) (n_xt : Nat)
    (out : List Char) (hext : ∀ ext ∈ exts, isExtensionHeader ext = true)
    (h : xtensionLoop 0 false n_xt exts.flatten out ≠ none) :
    ∀ ext ∈ exts, ∀ c ∈ ext, printCard c ≠ none := by
  induction exts generalizing n_xt out with
  | nil => simp
  | cons ext more ih =>
    obtain ⟨x, mid, e, rfl, hx, hxt, hmid, he, hend⟩ :=
      isExtensionHeader_cards _ (hext _ (List.mem_cons_self ext more))
    have hmore : ∀ y ∈ more, isExtensionHeader y = true :=
      fun y hy => hext y (List.mem_cons_of_mem _ hy)
    have hflat : (((x :: (mid ++ [e])) :: more) : List (List (List Char))).flatten =
        x :: (mid ++ e :: more.flatten) := by
      simp
    rw [hflat] at h
    have hpx : printCard x ≠ none :=
      xtensionLoop_found_defined 0 n_xt x _ out hx hxt (Or.inl rfl) h
    rw [xtensionLoop_found 0 n_xt x _ out hx hxt (Or.inl rfl) hpx] at h
    have hpm : ∀ c ∈ mid ++ [e], printCard c ≠ none :=
      xtensionLoop_emit_defined 0 (n_xt + 1) mid e _ _ hmid he h
    have hmid2 : ∀ c ∈ mid, c.length = 80 ∧ isEND c = false ∧ printCard c ≠ none :=
      fun c hc => ⟨(hmid c hc).1, (hmid c hc).2, hpm c (by simp [hc])⟩
    have hne : ¬ (((n_xt + 1 : Nat) : Int) = 0) := by
      push_cast
      omega
    rw [xtensionLoop_emit 0 (n_xt + 1) mid e _ _ hmid2 he hend (hpm e (by simp)),
      if_neg hne] at h
    have hrec := ih (n_xt + 1) _ hmore h
    intro y hy c hc
    rcases List.mem_cons.mp hy with rfl | hy
    · rcases List.mem_cons.mp hc with rfl | hc
      · exact hpx
      · exact hpm c hc
    · exact hrec y hy c hc

/-! ## The claims on the card stream -/

/-- C11 (the claim fails). For the requested index -1 the first example file, whose
first card begins with the magic number, is not dumped as nothing: the six cards of
its main header are emitted. -/
theorem C11_negative_request_prints_main_header :
    "SIMPLE  =".toList <+: exampleFile1 ∧
    dump_fits_filter exampleFile1 (-1) =
      some ⟨0,
        ("SIMPLE  =                    T / Standard FITS\n" ++
         "BITPIX  =                   16\n" ++
         "NAXIS   =                    2\n" ++
         "NAXIS1  =                  100\n" ++
         "NAXIS2  =                  200\n" ++
         "END\n").toList, [], []⟩ ∧
    (dump_fits_filter exampleFile1 (-1)).map (fun r => r.out) ≠ some [] := by
  refine ⟨by decide, by decide!, by decide!⟩

/-- C11 (amended). For every requested index below 0 and every stream that starts
with a main header (a first card of 80 bytes beginning with the magic number, then
cards of 80 bytes up to the first one beginning `END`, all of which can be printed),
whatever bytes follow: `dump_fits_filter` emits exactly the cards of the main header,
each as its text and a newline, and nothing else; it returns 0 and leaves the bytes
after the `END` card unread. -/
theorem C11_negative_request_emits_only_main_header (first : List Char)
    (mid : List (List Char)) (e tail : List Char) (xtnum : Int) (hk : xtnum < 0)
    (hfirst : first.length = 80) (hmagic : "SIMPLE  =".toList <+: first)
    (hmid : ∀ c ∈ mid, c.length = 80 ∧ isEND c = false)
    (he : e.length = 80) (hend : isEND e = true)
    (hprint : ∀ c ∈ first :: (mid ++ [e]), printCard c ≠ none) :
    dump_fits_filter ((first :: (mid ++ [e])).flatten ++ tail) xtnum =
      some ⟨0, cardLines (first :: (mid ++ [e])), [], readBlocks tail.length tail⟩ ∧
    (readBlocks tail.length tail).flatten = tail := by
  have hcards : ∀ c ∈ first :: (mid ++ [e]), c.length = 80 := by
    intro c hc
    rcases List.mem_cons.mp hc with rfl | hc
    · exact hfirst
    · rcases List.mem_append.mp hc with hc | hc
      · exact (hmid c hc).1
      · rw [List.mem_singleton.mp hc]; exact he
  refine ⟨?_, readBlocks_self_flatten tail⟩
  unfold dump_fits_filter
  rw [readBlocks_cards_append _ tail hcards]
  have hshape : first :: (mid ++ [e]) ++ readBlocks tail.length tail =
      first :: (mid ++ e :: readBlocks tail.length tail) := by simp
  rw [hshape, dumpBlocks_main_header first mid e _ xtnum (by omega) hfirst hmagic hmid he hend
    hprint, if_pos hk]

/-- Witness of C11 (amended): the first example header followed by an extension
header, requested index -1. -/
theorem C11_negative_request_emits_only_main_header_witness :
    dump_fits_filter ((exampleFirst :: (exampleMid ++ [exampleEnd])).flatten ++
        exampleExtension1) (-1) =
      some ⟨0,
        ("SIMPLE  =                    T / Standard FITS\n" ++
         "BITPIX  =                   16\n" ++
         "NAXIS   =                    2\n" ++
         "NAXIS1  =                  100\n" ++
         "NAXIS2  =                  200\n" ++
         "END\n").toList, [],
        [card "XTENSION= 'IMAGE   '", card "NAXIS   =                    1",
         card "NAXIS1  =                    7", card "END"]⟩ :=
  (C11_negative_request_emits_only_main_header exampleFirst exampleMid exampleEnd
    exampleExtension1 (-1) (by decide) (by decide) (by decide) (by decide) (by decide)
    (by decide) (by decide)).1.trans (by decide!)

/-- C12 (the claim fails). For the requested index 1 the example file with two
extensions is dumped as extension 1 only: no card of the main header is emitted. -/
theorem C12_single_request_omits_main_header :
    dump_fits_filter exampleFile3 1 =
      some ⟨0,
        ("====> xtension 1\n" ++
         "XTENSION= 'IMAGE   '\n" ++
         "NAXIS   =                    1\n" ++
         "NAXIS1  =                    7\n" ++
         "END\n").toList, [],
        [card "XTENSION= 'BINTABLE'", card "NAXIS1  =                    9", card "END"]⟩ := by
  decide!

/-- C12 (amended). For every requested index `n` from 1 on and every stream that
starts with a card of 80 bytes beginning with the magic number, in which the cards
before extension `n` are of 80 bytes and hold `n - 1` cards beginning `XTENSION`, and
extension `n` runs from its card beginning `XTENSION` to its first card beginning
`END` (cards that can be printed): `dump_fits_filter` emits the marker of extension
`n` and then the cards of extension `n`, and nothing else, neither a card of the
main header nor a card of another extension. -/
theorem C12_single_request_emits_only_that_extension (first : List Char)
    (pre : List (List Char)) (x : List Char) (mid : List (List Char)) (e tail : List Char)
    (n : Nat) (hfirst : first.length = 80) (hmagic : "SIMPLE  =".toList <+: first)
    (hpre : ∀ c ∈ pre, c.length = 80) (hcount : (pre.filter isXTENSION).length + 1 = n)
    (hx : x.length = 80) (hxt : isXTENSION x = true)
    (hmid : ∀ c ∈ mid, c.length = 80 ∧ isEND c = false)
    (he : e.length = 80) (hend : isEND e = true)
    (hprint : ∀ c ∈ x :: (mid ++ [e]), printCard c ≠ none) :
    (dump_fits_filter ((first :: (pre ++ x :: (mid ++ [e]))).flatten ++ tail) (n : Int)).map
        (fun r => r.out) =
      some (xtensionMarker n ++ cardLines (x :: (mid ++ [e]))) := by
  have hcards : ∀ c ∈ first :: (pre ++ x :: (mid ++ [e])), c.length = 80 := by
    intro c hc
    simp only [List.mem_cons, List.mem_append, List.mem_singleton, List.not_mem_nil,
      or_false] at hc
    rcases hc with rfl | hc | rfl | hc | rfl
    · exact hfirst
    · exact hpre c hc
    · exact hx
    · exact (hmid c hc).1
    · exact he
  unfold dump_fits_filter
  rw [readBlocks_cards_append _ tail hcards]
  have hshape : first :: (pre ++ x :: (mid ++ [e])) ++ readBlocks tail.length tail =
      first :: (pre ++ x :: (mid ++ e :: readBlocks tail.length tail)) := by simp
  rw [hshape, dumpBlocks_single_extension first pre x mid e _ n hfirst hmagic hpre hcount hx hxt
    hmid he hend hprint]
  rfl

/-- Witness of C12 (amended): extension 2 of the example file; the cards of the main
header and of extension 1 come before it. -/
theorem C12_single_request_emits_only_that_extension_witness :
    (dump_fits_filter ((exampleFirst ::
        ((exampleMid ++ [exampleEnd] ++
            [card "XTENSION= 'IMAGE   '", card "NAXIS   =                    1",
              card "NAXIS1  =                    7", card "END"]) ++
          card "XTENSION= 'BINTABLE'" ::
            ([card "NAXIS1  =                    9"] ++ [exampleEnd]))).flatten ++ [])
        ((2 : Nat) : Int)).map (fun r => r.out) =
      some ("====> xtension 2\n" ++ "XTENSION= 'BINTABLE'\n" ++
        "NAXIS1  =                    9\n" ++ "END\n").toList :=
  (C12_single_request_emits_only_that_extension exampleFirst
    (exampleMid ++ [exampleEnd] ++
      [card "XTENSION= 'IMAGE   '", card "NAXIS   =                    1",
        card "NAXIS1  =                    7", card "END"])
    (card "XTENSION= 'BINTABLE'") [card "NAXIS1  =                    9"] exampleEnd [] 2
    (by decide) (by decide) (by decide) (by decide) (by decide) (by decide) (by decide)
    (by decide) (by decide) (by decide)).trans (by decide)

/-- All extensions: for the requested index 0 and every stream made of a main header (a first
card beginning with the magic number, then cards up to the first one beginning
`END`) followed by extension headers (each from a card beginning `XTENSION` to its
first card beginning `END`), all cards of 80 bytes. When every card can be printed,
`dump_fits_filter` returns 0, reads the whole stream and emits every card in stream
order as its text without trailing blanks and a newline, with the marker line of
extension `i` right before the first card of extension `i`, for `i` from 1 on. It has
a result only then: a card that cannot be printed is one whose text is made of
blanks only, on which `rstrip` leaves its buffer. -/
theorem dump_fits_filter_all_extensions (first : List Char) (mid : List (List Char))
    (e : List Char) (exts : List (List (List Char)))
    (hfirst : first.length = 80) (hmagic : "SIMPLE  =".toList <+: first)
    (hmid : ∀ c ∈ mid, c.length = 80 ∧ isEND c = false)
    (he : e.length = 80) (hend : isEND e = true)
    (hext : ∀ ext ∈ exts, isExtensionHeader ext = true) :
    ((∀ c ∈ first :: (mid ++ [e]) ++ exts.flatten, printCard c ≠ none) →
      dump_fits_filter ((first :: (mid ++ [e]) ++ exts.flatten).flatten) 0 =
        some ⟨0, cardLines (first :: (mid ++ [e])) ++ xtensionsText 1 exts, [], []⟩) ∧
    (dump_fits_filter ((first :: (mid ++ [e]) ++ exts.flatten).flatten) 0 ≠ none →
      ∀ c ∈ first :: (mid ++ [e]) ++ exts.flatten, printCard c ≠ none) := by
  have hcards : ∀ c ∈ first :: (mid ++ [e]) ++ exts.flatten, c.length = 80 := by
    intro c hc
    rcases List.mem_append.mp hc with hc | hc
    · rcases List.mem_cons.mp hc with rfl | hc
      · exact hfirst
      · rcases List.mem_append.mp hc with hc | hc
        · exact (hmid c hc).1
        · rw [List.mem_singleton.mp hc]; exact he
    · obtain ⟨ext, hext1, hc⟩ := List.mem_flatten.mp hc
      obtain ⟨x, m, l, rfl, hx, _, hm, hl, _⟩ := isExtensionHeader_cards ext (hext ext hext1)
      simp only [List.mem_cons, List.mem_append, List.mem_singleton, List.not_mem_nil,
        or_false] at hc
      rcases hc with rfl | hc | rfl
      · exact hx
      · exact (hm c hc).1
      · exact hl
  have hread := readBlocks_cards_append _ [] hcards
  simp only [List.append_nil, List.length_nil, readBlocks] at hread
  have hshape : first :: (mid ++ [e]) ++ exts.flatten = first :: (mid ++ e :: exts.flatten) := by
    simp
  unfold dump_fits_filter
  rw [hread, hshape]
  constructor
  · intro hall
    rw [← hshape] at hall
    have hprint : ∀ c ∈ first :: (mid ++ [e]), printCard c ≠ none :=
      fun c hc => hall c (List.mem_append_left _ hc)
    have hprintx : ∀ ext ∈ exts, ∀ c ∈ ext, printCard c ≠ none :=
      fun ext hx c hc => hall c (List.mem_append_right _ (List.mem_flatten.mpr ⟨ext, hx, hc⟩))
    rw [dumpBlocks_main_header first mid e _ 0 (by omega) hfirst hmagic hmid he hend hprint,
      if_neg (by omega), xtensionLoop_all exts 0 _ hext hprintx]
  · intro hdef
    rw [dumpBlocks_first_card first _ 0 hfirst hmagic, if_pos (by omega)] at hdef
    cases hpf : printCard first with
    | none => simp only [hpf, ne_eq, not_true_eq_false] at hdef
    | some text =>
      simp only [hpf] at hdef
      have hmh : mainHeader (mid ++ e :: exts.flatten) text ≠ none := by
        intro hn
        simp only [hn, ne_eq, not_true_eq_false] at hdef
      have hpm := mainHeader_defined mid e _ text hmid he hmh
      have hmid2 : ∀ c ∈ mid, c.length = 80 ∧ isEND c = false ∧ printCard c ≠ none :=
        fun c hc => ⟨(hmid c hc).1, (hmid c hc).2, hpm c (by simp [hc])⟩
      rw [mainHeader_through_END mid e _ text hmid2 he hend (hpm e (by simp))] at hdef
      simp only [] at hdef
      rw [if_neg (by omega)] at hdef
      have hpx := xtensionLoop_all_defined exts 0 _ hext hdef
      intro c hc
      rcases List.mem_cons.mp hc with rfl | hc
      · rw [hpf]
        exact Option.some_ne_none text
      · rcases List.mem_append.mp hc with hc | hc
        · exact hpm c (by simp [hc])
        · rcases List.mem_cons.mp hc with rfl | hc
          · exact hpm c (by simp)
          · obtain ⟨ext, hx, hc⟩ := List.mem_flatten.mp hc
            exact hpx ext hx c hc

/-- The example header followed by the two example extension headers; the markers
1 and 2 come in that order. -/
theorem dump_fits_filter_all_extensions_example :
    dump_fits_filter ((exampleFirst :: (exampleMid ++ [exampleEnd]) ++
        exampleExtensions.flatten).flatten) 0 =
      some ⟨0,
        ("SIMPLE  =                    T / Standard FITS\n" ++
         "BITPIX  =                   16\n" ++
         "NAXIS   =                    2\n" ++
         "NAXIS1  =                  100\n" ++
         "NAXIS2  =                  200\n" ++
         "END\n" ++
         "====> xtension 1\n" ++
         "XTENSION= 'IMAGE   '\n" ++
         "NAXIS   =                    1\n" ++
         "NAXIS1  =                    7\n" ++
         "END\n" ++
         "====> xtension 2\n" ++
         "XTENSION= 'BINTABLE'\n" ++
         "NAXIS1  =                    9\n" ++
         "END\n").toList, [], []⟩ :=
  ((dump_fits_filter_all_extensions exampleFirst exampleMid exampleEnd exampleExtensions
    (by decide) (by decide) (by decide) (by decide) (by decide) (by decide)).1
    (by decide)).trans (by decide!)

/-- C13 (code evaluated where the claim fails). The stream is made of a main header
(first card beginning with the magic number, a card of 80 blanks, the `END` card)
followed by the two example extension headers, all cards of 80 bytes, and the
requested index is 0. The blank card cannot be printed: `rstrip` walks below the
start of its text (the all-blank case has no lower bound), so `dump_fits_filter`
has no result: neither the return value 0 nor the cards in order. The same stream
without the blank card is dumped as claimed. -/
theorem C13_blank_card_in_main_header_has_no_result :
    exampleFirst.length = 80 ∧ "SIMPLE  =".toList <+: exampleFirst ∧
    (∀ c ∈ [card ""], c.length = 80 ∧ isEND c = false) ∧
    exampleEnd.length = 80 ∧ isEND exampleEnd = true ∧
    (∀ ext ∈ exampleExtensions, isExtensionHeader ext = true) ∧
    card "" = List.replicate 80 ' ' ∧
    printCard (card "") = none ∧
    dump_fits_filter ((exampleFirst :: ([card ""] ++ [exampleEnd]) ++
        exampleExtensions.flatten).flatten) 0 = none ∧
    dump_fits_filter ((exampleFirst :: ([] ++ [exampleEnd]) ++
        exampleExtensions.flatten).flatten) 0 =
      some ⟨0,
        ("SIMPLE  =                    T / Standard FITS\n" ++
         "END\n" ++
         "====> xtension 1\n" ++
         "XTENSION= 'IMAGE   '\n" ++
         "NAXIS   =                    1\n" ++
         "NAXIS1  =                    7\n" ++
         "END\n" ++
         "====> xtension 2\n" ++
         "XTENSION= 'BINTABLE'\n" ++
         "NAXIS1  =                    9\n" ++
         "END\n").toList, [], []⟩ := by
  refine ⟨by decide, by decide, by decide, by decide, by decide, by decide, by decide,
    by decide!, by decide!, by decide!⟩

/-- C14 (the claim fails). For the requested index 2 the example header followed by
one extension header gives status 0 and no extension output, but the main header is
not emitted either: nothing is written at all. -/
theorem C14_absent_extension_prints_nothing :
    dump_fits_filter (exampleFile1 ++ exampleExtension1) 2 = some ⟨0, [], [], []⟩ ∧
    (dump_fits_filter (exampleFile1 ++ exampleExtension1) 2).map (fun r => r.out) ≠
      some (cardLines (exampleFirst :: (exampleMid ++ [exampleEnd]))) := by
  refine ⟨by decide!, by decide!⟩

/-- C14 (amended). For the requested index 2 and every stream of cards of 80 bytes
whose first card begins with the magic number and in which exactly one card begins
`XTENSION` (a main header and exactly one extension): `dump_fits_filter` reads the
whole stream, emits nothing at all (no card of the main header, no marker, no card
of the extension), writes no message and returns 0. -/
theorem C14_absent_extension_no_output_no_error (first : List Char)
    (cards : List (List Char)) (hfirst : first.length = 80)
    (hmagic : "SIMPLE  =".toList <+: first) (hcards : ∀ c ∈ cards, c.length = 80)
    (hone : (cards.filter isXTENSION).length = 1) :
    dump_fits_filter (first :: cards).flatten 2 = some ⟨0, [], [], []⟩ := by
  have hall : ∀ c ∈ first :: cards, c.length = 80 := by
    intro c hc
    rcases List.mem_cons.mp hc with rfl | hc
    · exact hfirst
    · exact hcards c hc
  have hread := readBlocks_cards_append _ [] hall
  simp only [List.append_nil, List.length_nil, readBlocks] at hread
  unfold dump_fits_filter
  rw [hread, dumpBlocks_first_card first _ 2 hfirst hmagic, if_neg (by omega)]
  have hs := xtensionLoop_search 2 0 cards [] [] hcards (by rw [hone]; decide)
  rw [List.append_nil] at hs
  rw [hs, xtensionLoop]

/-- Witness of C14 (amended): the example header followed by the first example
extension header. -/
theorem C14_absent_extension_no_output_no_error_witness :
    dump_fits_filter (exampleFirst :: (exampleMid ++ [exampleEnd] ++
        [card "XTENSION= 'IMAGE   '", card "NAXIS   =                    1",
          card "NAXIS1  =                    7", card "END"])).flatten 2 =
      some ⟨0, [], [], []⟩ :=
  C14_absent_extension_no_output_no_error exampleFirst
    (exampleMid ++ [exampleEnd] ++
      [card "XTENSION= 'IMAGE   '", card "NAXIS   =                    1",
        card "NAXIS1  =                    7", card "END"])
    (by decide) (by decide) (by decide) (by decide)

/-- C15 (code evaluated where the claim fails). The claim: a read of 1 to 79 bytes
gives a result other than 0 in every state. While an extension is being emitted it
does not: a stream that ends 12 bytes after the card opening extension 1 gives the
result 0 for the requested indices 1 and 0. In the other three states (first card,
main header, search for an extension) the result is 1. -/
theorem C15_partial_block_inside_emitted_extension_returns_0 :
    ("NAXIS   = 0 ".toList).length = 12 ∧
    (dump_fits_filter (exampleFile1 ++ card "XTENSION= 'IMAGE   '" ++
        "NAXIS   = 0 ".toList) 1).map (fun r => r.status) = some 0 ∧
    (dump_fits_filter (exampleFile1 ++ card "XTENSION= 'IMAGE   '" ++
        "NAXIS   = 0 ".toList) 0).map (fun r => r.status) = some 0 ∧
    (dump_fits_filter (exampleFile1 ++ card "XTENSION= 'IMAGE   '" ++
        "NAXIS   = 0 ".toList) 1).map (fun r => r.out) =
      some ("====> xtension 1\n" ++ "XTENSION= 'IMAGE   '\n").toList ∧
    (dump_fits_filter "SIMPLE  = T ".toList 0).map (fun r => r.status) = some 1 ∧
    (dump_fits_filter (exampleFirst ++ "NAXIS   = 0 ".toList) 0).map (fun r => r.status) =
      some 1 ∧
    (dump_fits_filter (exampleFile1 ++ "NAXIS   = 0 ".toList) 0).map (fun r => r.status) =
      some 1 ∧
    (dump_fits_filter (exampleFile1 ++ "NAXIS   = 0 ".toList) 1).map (fun r => r.status) =
      some 1 := by
  refine ⟨by decide, by decide!, by decide!, by decide!, by decide!, by decide!, by decide!,
    by decide!⟩

/-- C16. For every requested index: a stream of at least 80 bytes that does not
begin with the nine characters of the magic number gives the result 1 with the
message `not a FITS file`, and nothing is emitted, no card and no marker; and a
stream that begins with the magic number never gives that message, whatever its
result. -/
theorem C16_not_fits_format (inp : List Char) (xtnum : Int) :
    (80 ≤ inp.length → ¬ "SIMPLE  =".toList <+: inp →
      dump_fits_filter inp xtnum =
        some ⟨1, [], "not a FITS file\n".toList,
          readBlocks (inp.drop 80).length (inp.drop 80)⟩) ∧
    ("SIMPLE  =".toList <+: inp →
      ∀ r, dump_fits_filter inp xtnum = some r → r.messages ≠ "not a FITS file\n".toList) := by
  have hsplit : ∀ s : List Char, 80 ≤ s.length →
      readBlocks s.length s = s.take 80 :: readBlocks (s.drop 80).length (s.drop 80) := by
    intro s hs
    have h80 : (s.take 80).length = 80 := by
      rw [List.length_take]
      omega
    have := readBlocks_card_append (s.take 80) (s.drop 80) h80
    rwa [List.take_append_drop] at this
  constructor
  · intro hlen hnot
    have h80 : (inp.take 80).length = 80 := by
      rw [List.length_take]
      omega
    have hp : ¬ "SIMPLE  =".toList.isPrefixOf (inp.take 80) = true := by
      rw [List.isPrefixOf_iff_prefix, List.prefix_take_iff]
      exact fun h => hnot h.1
    unfold dump_fits_filter
    rw [hsplit inp hlen, dumpBlocks, if_neg (not_not.mpr h80), if_pos hp]
  · intro hmagic r hr
    unfold dump_fits_filter at hr
    by_cases hlen : 80 ≤ inp.length
    · have h80 : (inp.take 80).length = 80 := by
        rw [List.length_take]
        omega
      have hp : "SIMPLE  =".toList <+: inp.take 80 := by
        rw [List.prefix_take_iff]
        exact ⟨hmagic, by decide⟩
      rw [hsplit inp hlen, dumpBlocks_first_card _ _ xtnum h80 hp] at hr
      generalize readBlocks (inp.drop 80).length (inp.drop 80) = blocks at hr
      have hnil : r.messages = [] := by
        by_cases h1 : xtnum < 1
        · rw [if_pos h1] at hr
          cases hpc : printCard (inp.take 80) with
          | none => simp only [hpc, reduceCtorEq] at hr
          | some text =>
            simp only [hpc] at hr
            cases hmh : mainHeader blocks text with
            | none => simp only [hmh, reduceCtorEq] at hr
            | some res =>
              obtain ⟨ok, out, rest2⟩ := res
              cases ok with
              | false =>
                simp only [hmh, Option.some.injEq] at hr
                rw [← hr]
              | true =>
                simp only [hmh] at hr
                by_cases h2 : xtnum < 0
                · rw [if_pos h2, Option.some.injEq] at hr
                  rw [← hr]
                · rw [if_neg h2] at hr
                  exact xtensionLoop_messages _ _ _ _ _ r hr
        · rw [if_neg h1] at hr
          exact xtensionLoop_messages _ _ _ _ _ r hr
      rw [hnil]
      decide
    · have hne : inp ≠ [] := by
        intro h
        rw [h] at hmagic
        exact absurd hmagic (by decide)
      have hpos : 0 < inp.length := List.length_pos.mpr hne
      have hlt : inp.length < 80 := by omega
      have hfuel : inp.length = (inp.length - 1) + 1 := by omega
      have htake : inp.take 80 = inp := List.take_of_length_le (by omega)
      have hl : inp.length ≠ 80 := by omega
      rw [hfuel, readBlocks, if_neg hne, htake, dumpBlocks, if_pos hl,
        Option.some.injEq] at hr
      rw [← hr]
      show "error reading input\n".toList ≠ "not a FITS file\n".toList
      decide

/-- Witness of C16: a stream of two cards whose first card has one blank only
before the equals sign, and the first example file. -/
theorem C16_not_fits_format_witness :
    dump_fits_filter (card "SIMPLE = T" ++ card "END") 0 =
      some ⟨1, [], "not a FITS file\n".toList, [card "END"]⟩ ∧
    (∀ r, dump_fits_filter exampleFile1 0 = some r →
      r.messages ≠ "not a FITS file\n".toList) :=
  ⟨((C16_not_fits_format (card "SIMPLE = T" ++ card "END") 0).1 (by decide!)
      (by decide!)).trans (by decide!),
    (C16_not_fits_format exampleFile1 0).2 (by decide!)⟩

/-- Early exit: for every requested index `n` from 1 on and every stream that starts with a
card of 80 bytes beginning with the magic number, in which the cards before
extension `n` are of 80 bytes and hold `n - 1` cards beginning `XTENSION`, and
extension `n` runs from its card beginning `XTENSION` to its first card beginning
`END`, whatever bytes follow that card. When the cards of extension `n` can be
printed, `dump_fits_filter` returns 0 without a message, and the blocks it leaves
unread are the blocks of the bytes that follow the `END` card, all of them. It has a
result only then: a card that cannot be printed is one whose text is made of blanks
only, on which `rstrip` leaves its buffer. -/
theorem dump_fits_filter_early_exit (first : List Char)
    (pre : List (List Char)) (x : List Char) (mid : List (List Char)) (e tail : List Char)
    (n : Nat) (hfirst : first.length = 80) (hmagic : "SIMPLE  =".toList <+: first)
    (hpre : ∀ c ∈ pre, c.length = 80) (hcount : (pre.filter isXTENSION).length + 1 = n)
    (hx : x.length = 80) (hxt : isXTENSION x = true)
    (hmid : ∀ c ∈ mid, c.length = 80 ∧ isEND c = false)
    (he : e.length = 80) (hend : isEND e = true) :
    ((∀ c ∈ x :: (mid ++ [e]), printCard c ≠ none) →
      ∃ r, dump_fits_filter ((first :: (pre ++ x :: (mid ++ [e]))).flatten ++ tail) (n : Int) =
          some r ∧
        r.status = 0 ∧ r.messages = [] ∧ r.unread = readBlocks tail.length tail ∧
        r.unread.flatten = tail) ∧
    (dump_fits_filter ((first :: (pre ++ x :: (mid ++ [e]))).flatten ++ tail) (n : Int) ≠ none →
      ∀ c ∈ x :: (mid ++ [e]), printCard c ≠ none) := by
  have hcards : ∀ c ∈ first :: (pre ++ x :: (mid ++ [e])), c.length = 80 := by
    intro c hc
    simp only [List.mem_cons, List.mem_append, List.mem_singleton, List.not_mem_nil,
      or_false] at hc
    rcases hc with rfl | hc | rfl | hc | rfl
    · exact hfirst
    · exact hpre c hc
    · exact hx
    · exact (hmid c hc).1
    · exact he
  have hshape : first :: (pre ++ x :: (mid ++ [e])) ++ readBlocks tail.length tail =
      first :: (pre ++ x :: (mid ++ e :: readBlocks tail.length tail)) := by simp
  unfold dump_fits_filter
  rw [readBlocks_cards_append _ tail hcards, hshape]
  constructor
  · intro hprint
    refine ⟨⟨0, xtensionMarker n ++ cardLines (x :: (mid ++ [e])), [],
      readBlocks tail.length tail⟩, ?_, rfl, rfl, rfl, readBlocks_self_flatten tail⟩
    rw [dumpBlocks_single_extension first pre x mid e _ n hfirst hmagic hpre hcount hx hxt
      hmid he hend hprint]
  · intro hdef
    have hn1 : ¬ ((n : Int) < 1) := by omega
    have hreq : (n : Int) = 0 ∨ (n : Int) = ((0 + (pre.filter isXTENSION).length + 1 : Nat) : Int) :=
      Or.inr (by congr 1; omega)
    rw [dumpBlocks_first_card first _ _ hfirst hmagic, if_neg hn1,
      xtensionLoop_search (n : Int) 0 pre _ [] hpre (by omega)] at hdef
    have hpx : printCard x ≠ none :=
      xtensionLoop_found_defined (n : Int) _ x _ [] hx hxt hreq hdef
    rw [xtensionLoop_found (n : Int) _ x _ [] hx hxt hreq hpx] at hdef
    have hpm := xtensionLoop_emit_defined (n : Int) _ mid e _ _ hmid he hdef
    intro c hc
    rcases List.mem_cons.mp hc with rfl | hc
    · exact hpx
    · exact hpm c hc

/-- Extension 1 of the example file is requested; after its `END`
card come a card that is not a header card and 5 more bytes, and they stay unread. -/
theorem dump_fits_filter_early_exit_example :
    ∃ r, dump_fits_filter ((exampleFirst :: ((exampleMid ++ [exampleEnd]) ++
          card "XTENSION= 'IMAGE   '" ::
            ([card "NAXIS   =                    1", card "NAXIS1  =                    7"] ++
              [exampleEnd]))).flatten ++ (card "@@@@" ++ "#####".toList))
        ((1 : Nat) : Int) = some r ∧
      r.status = 0 ∧ r.messages = [] ∧
      r.unread = readBlocks (card "@@@@" ++ "#####".toList).length
        (card "@@@@" ++ "#####".toList) ∧
      r.unread.flatten = card "@@@@" ++ "#####".toList :=
  (dump_fits_filter_early_exit exampleFirst (exampleMid ++ [exampleEnd])
    (card "XTENSION= 'IMAGE   '")
    [card "NAXIS   =                    1", card "NAXIS1  =                    7"] exampleEnd
    (card "@@@@" ++ "#####".toList) 1
    (by decide) (by decide) (by decide) (by decide) (by decide) (by decide) (by decide)
    (by decide) (by decide)).1 (by decide)

/-- C18 (code evaluated where the claim fails). The stream holds the example main
header and one extension header made of its `XTENSION` card, a card of 80 blanks and
the `END` card; the requested index is 1, so extension 1 exists and holds a card
beginning `END`. The blank card cannot be printed: `rstrip` walks below the start of
its text, and `dump_fits_filter` has no result: it does not return 0 after the `END`
card. With a card that can be printed in place of the blank one the function stops
after the `END` card with the result 0 and leaves what follows unread. -/
theorem C18_blank_card_in_requested_extension_has_no_result :
    isXTENSION (card "XTENSION= 'IMAGE   '") = true ∧
    isEND exampleEnd = true ∧
    card "" = List.replicate 80 ' ' ∧
    printCard (card "") = none ∧
    dump_fits_filter (exampleFile1 ++ card "XTENSION= 'IMAGE   '" ++ card "" ++ exampleEnd ++
        card "@@@@") 1 = none ∧
    dump_fits_filter (exampleFile1 ++ card "XTENSION= 'IMAGE   '" ++ card "NAXIS   = 0" ++
        exampleEnd ++ card "@@@@") 1 =
      some ⟨0, ("====> xtension 1\n" ++ "XTENSION= 'IMAGE   '\n" ++ "NAXIS   = 0\n" ++
        "END\n").toList, [], [card "@@@@"]⟩ := by
  refine ⟨by decide, by decide, by decide, by decide!, by decide!, by decide!⟩

/-! ## The claims on stripping and on the copy length -/

/-- A string with a character other than a blank is stripped to its longest prefix
that does not end in a blank. -/
theorem rstrip_of_nonblank (s : List Char) (ch : Char) (hm : ch ∈ s) (hb : ch ≠ ' ') :
    rstrip s = some (s.rdropWhile (fun c => c == ' ')) ∧
    s.rdropWhile (fun c => c == ' ') ≠ [] ∧
    s.rdropWhile (fun c => c == ' ') <+: s := by
  have h1 : s ≠ [] := List.ne_nil_of_mem hm
  have h2 : s.rdropWhile (fun c => c == ' ') ≠ [] := by
    intro h
    rw [List.rdropWhile_eq_nil_iff] at h
    have := h ch hm
    simp at this
    exact hb this
  refine ⟨?_, h2, List.rdropWhile_prefix _ _⟩
  unfold rstrip
  rw [if_neg h1, if_neg h2]

/-- A string of blanks only that is not empty makes `rstrip` read below its start. -/
theorem rstrip_of_blank (s : List Char) (hs : s ≠ []) (hb : ∀ c ∈ s, c = ' ') :
    rstrip s = none := by
  have h2 : s.rdropWhile (fun c => c == ' ') = [] := by
    rw [List.rdropWhile_eq_nil_iff]
    intro c hc
    simp [hb c hc]
  unfold rstrip
  rw [if_neg hs, if_pos h2]

/-- Stripping a second time changes nothing, wherever the first stripping is defined. -/
theorem rstrip_idempotent (s : List Char) : (rstrip s).bind rstrip = rstrip s := by
  unfold rstrip
  by_cases h1 : s = []
  · simp [h1]
  · by_cases h2 : s.rdropWhile (fun c => c == ' ') = []
    · simp [h1, h2]
    · simp only [h1, h2, if_false, Option.some_bind, List.rdropWhile_idempotent]

/-- The text collected from column `c` on ends before column 80. -/
theorem collectValue_length (s : List Char) (c : Nat) (quote : Bool) :
    (collectValue s c quote).length ≤ 80 - c := by
  induction s generalizing c quote with
  | nil => simp [collectValue]
  | cons ch rest ih =>
    rw [collectValue]
    by_cases h1 : 80 ≤ c
    · simp [h1]
    · by_cases h2 : ch = '/' ∧ quote = false
      · rw [if_neg h1, if_pos h2]
        simp
      · rw [if_neg h1, if_neg h2, List.length_cons]
        have := ih (c + 1) (if ch = quoteChar then !quote else quote)
        omega

/-- The copy length is below the length of the collected text. -/
theorem copyLength_le (tmp : List Char) : copyLength tmp ≤ (tmp.length : Int) := by
  unfold copyLength afterFirstQuote
  have h : ((tmp.dropWhile (fun c => c != quoteChar)).drop 1).length ≤ tmp.length := by
    rw [List.length_drop]
    have := (List.dropWhile_sublist (fun c => c != quoteChar) (l := tmp)).length_le
    omega
  omega

/-- C17 (code evaluated where the claim fails). The claim: `rstrip` of a text of
blanks only is the empty text. On three blanks, and on a card of 80 blanks, the loop
`while (s[len]==' ')` walks down to `len = -1` and reads `s[-1]`: there is no result,
and a header that holds a blank card cannot be dumped. On texts with another
character `rstrip` removes the trailing blanks, and stripping again changes nothing. -/
theorem C17_rstrip_reads_below_a_blank_text :
    rstrip "   ".toList = none ∧
    rstrip (cstr (card "")) = none ∧
    printCard (card "") = none ∧
    dump_fits_filter (exampleFirst ++ card "" ++ exampleEnd) (-1) = none ∧
    rstrip [] = some [] ∧
    rstrip "END   ".toList = some "END".toList ∧
    (rstrip "END   ".toList).bind rstrip = some "END".toList ∧
    rstrip " a b  ".toList = some " a b".toList := by
  refine ⟨by decide, by decide!, by decide!, by decide!, by decide, by decide, by decide,
    by decide⟩

/-- C20 (code evaluated where the claim fails). The claim: the copy length of the
string branch is never negative, also with exactly one quote. On the line
`KEY     = 'abc ` the collected text holds one quote, `begin` is the text after it
(5 characters with the newline) and `end` the text from it on (6 characters): the
copy length is -1 and `getkeywordvalue` has no result. -/
theorem C20_copy_length_is_negative_with_one_quote :
    '=' ∈ "KEY     = 'abc \n".toList ∧
    collectedText "KEY     = 'abc \n".toList =
      some " 'abc \n".toList ∧
    afterFirstQuote " 'abc \n".toList = "abc \n".toList ∧
    fromLastQuote " 'abc \n".toList =
      "'abc \n".toList ∧
    copyLength " 'abc \n".toList = -1 ∧
    copyLength " 'abc \n".toList < 0 ∧
    getkeywordvalue "KEY     = 'abc \n".toList = none := by
  decide

/-! ## Sections of a transcript -/

/-- The last record of a list that is not empty is the one `updateLast` changes. -/
theorem updateLast_append (f : record → record) (recs : List record) (r : record) :
    updateLast f (recs ++ [r]) = recs ++ [f r] := by
  induction recs with
  | nil => rfl
  | cons a t ih =>
    cases t with
    | nil => rfl
    | cons b u =>
      rw [List.cons_append, List.cons_append, updateLast, ← List.cons_append, ih]
      rfl

/-- One line that opens no record, read while a record is open: its effect is that
of `storeLine` on the last record. -/
theorem readLines_plain_line (keys : List (List Char)) (recs : List record) (r : record)
    (pn : Bool) (line : List Char) (rest : List (List Char)) (h0 : isfilename line = 0) :
    readLines keys ⟨recs ++ [r], pn⟩ (line :: rest) =
      match storeLine keys r line with
      | none => none
      | some r2 => readLines keys ⟨recs ++ [r2], pn⟩ rest := by
  rw [readLines]
  have hne : recs ++ [r] ≠ [] := by simp
  simp only [h0, OfNat.zero_ne_ofNat, if_false, zero_ne_one, storeLine]
  cases hk : isdetectedkeyword line keys with
  | none => rfl
  | some kwnum =>
    by_cases hm : kwnum ≠ -1
    · simp only [hm, hne, ne_eq, not_false_eq_true, and_self, if_true]
      cases hv : getkeywordvalue line with
      | none => rfl
      | some word => simp only [updateLast_append]
    · simp only [hm, false_and, if_false]

/-- A run of lines that open no record, read while a record is open: its effect is
that of `storeLines` on the last record. -/
theorem readLines_plain_lines (keys : List (List Char)) (recs : List record) (r : record)
    (pn : Bool) (lines rest : List (List Char)) (h0 : ∀ l ∈ lines, isfilename l = 0) :
    readLines keys ⟨recs ++ [r], pn⟩ (lines ++ rest) =
      match storeLines keys r lines with
      | none => none
      | some r2 => readLines keys ⟨recs ++ [r2], pn⟩ rest := by
  induction lines generalizing r with
  | nil => rfl
  | cons l ls ih =>
    rw [List.cons_append, readLines_plain_line keys recs r pn l _ (h0 l (List.mem_cons_self l ls)),
      storeLines]
    cases hs : storeLine keys r l with
    | none => rfl
    | some r2 => exact ih r2 (fun x hx => h0 x (List.mem_cons_of_mem l hx))

/-- The records of sections are as many as the sections. -/
theorem sectionRecords_length (keys : List (List Char))
    (sections : List (List Char × List Char × List (List Char))) (recs : List record)
    (h : sectionRecords keys sections = some recs) : recs.length = sections.length := by
  induction sections generalizing recs with
  | nil =>
    simp only [sectionRecords, Option.some.injEq] at h
    rw [← h]
    rfl
  | cons s more ih =>
    obtain ⟨marker, next, lines⟩ := s
    rw [sectionRecords] at h
    cases hn : getfilename marker with
    | none => simp only [hn, reduceCtorEq] at h
    | some name =>
      simp only [hn] at h
      cases hr : sectionRecord keys name lines with
      | none => simp only [hr, reduceCtorEq] at h
      | some r =>
        simp only [hr] at h
        cases hm : sectionRecords keys more with
        | none => simp only [hm, reduceCtorEq] at h
        | some rs =>
          simp only [hm, Option.some.injEq] at h
          rw [← h, List.length_cons, List.length_cons, ih rs hm]

/-- A transcript made of sections, read from any state: every section adds exactly
one record, built from the lines of that section only. -/
theorem readLines_sections (keys : List (List Char))
    (sections : List (List Char × List Char × List (List Char))) (st : ReadState)
    (hmark : ∀ s ∈ sections, "====>".toList <+: s.1)
    (hname : ∀ s ∈ sections, getfilename s.1 ≠ none)
    (hplain : ∀ s ∈ sections, ∀ l ∈ s.2.2, isfilename l = 0) :
    readLines keys st (sectionLines sections) =
      (sectionRecords keys sections).map (fun recs =>
        ⟨st.allrecords ++ recs, st.printnames || !sections.isEmpty⟩) := by
  induction sections generalizing st with
  | nil =>
    obtain ⟨recs, pn⟩ := st
    simp [sectionLines, sectionRecords, readLines]
  | cons s more ih =>
    obtain ⟨marker, next, lines⟩ := s
    have hm : "====>".toList <+: marker := hmark _ (List.mem_cons_self _ _)
    have h1 : isfilename marker = 1 := by
      unfold isfilename
      rw [if_pos (List.isPrefixOf_iff_prefix.mpr hm)]
    obtain ⟨name, hn⟩ := Option.ne_none_iff_exists'.mp (hname _ (List.mem_cons_self _ _))
    have hpl : ∀ l ∈ lines, isfilename l = 0 := hplain _ (List.mem_cons_self _ _)
    have ih2 := fun st2 => ih st2 (fun x hx => hmark x (List.mem_cons_of_mem _ hx))
      (fun x hx => hname x (List.mem_cons_of_mem _ hx))
      (fun x hx => hplain x (List.mem_cons_of_mem _ hx))
    rw [sectionLines, readLines]
    simp only [h1, if_true, markerName, hn]
    rw [readLines_plain_lines keys st.allrecords _ true lines _ hpl, sectionRecords]
    simp only [hn, sectionRecord]
    cases hs : storeLines keys ⟨name, clearKeywords keys.length⟩ lines with
    | none => rfl
    | some r =>
      simp only []
      rw [ih2]
      cases hr : sectionRecords keys more with
      | none => rfl
      | some rs => simp

/-! ## Text lines are read whole -/

/-- A text line is a body of at most 126 characters without newline and NUL,
followed by a newline. -/
theorem textLine_body (l : List Char) (h : textLine l = true) :
    ∃ b, l = b ++ ['\n'] ∧ b.length ≤ 126 ∧ ∀ c ∈ b, c ≠ '\n' ∧ c ≠ nulChar := by
  unfold textLine at h
  cases hl : l.getLast? with
  | none => simp [hl] at h
  | some c =>
    simp only [hl, Bool.and_eq_true, beq_iff_eq, decide_eq_true_eq, List.all_eq_true,
      bne_iff_ne, ne_eq] at h
    obtain ⟨⟨hc, hlen⟩, hall⟩ := h
    have hdec : l.dropLast ++ [c] = l := List.dropLast_append_getLast? c (by rw [hl]; rfl)
    refine ⟨l.dropLast, ?_, ?_, hall⟩
    · rw [← hc, hdec]
    · have := congrArg List.length hdec
      simp only [List.length_append, List.length_singleton] at this
      omega

/-- A text line is its own C string. -/
theorem cstr_textLine (l : List Char) (h : textLine l = true) : cstr l = l := by
  obtain ⟨b, rfl, _, hb⟩ := textLine_body l h
  apply cstr_eq_self
  intro hm
  rcases List.mem_append.mp hm with hm | hm
  · exact (hb _ hm).2 rfl
  · rw [List.mem_singleton] at hm
    exact absurd hm (by decide)

/-- With room for it, `fgets` stores a body without newline and the newline after
it, and leaves what follows. -/
theorem fgetsChars_line (n : Nat) (b rest : List Char) (hn : b.length < n)
    (hb : ∀ c ∈ b, c ≠ '\n') :
    fgetsChars n (b ++ '\n' :: rest) = (b ++ ['\n'], rest) := by
  induction b generalizing n with
  | nil =>
    cases n with
    | zero => simp at hn
    | succ m => simp [fgetsChars]
  | cons c t ih =>
    cases n with
    | zero => simp at hn
    | succ m =>
      have hc : c ≠ '\n' := hb c (List.mem_cons_self c t)
      have ht := ih m (by simpa using hn) (fun x hx => hb x (List.mem_cons_of_mem c hx))
      rw [List.cons_append, fgetsChars, if_neg hc, ht]
      rfl

/-- With fuel for every character the lines read do not depend on the fuel. -/
theorem inputLines_fuel (fuel : Nat) (s : List Char) (h : s.length ≤ fuel) :
    inputLines fuel s = inputLines s.length s := by
  induction fuel using Nat.strong_induction_on generalizing s with
  | _ fuel ih =>
    by_cases hs : s = []
    · subst hs
      cases fuel <;> simp [inputLines, fgets]
    · have hpos : 0 < s.length := List.length_pos.mpr hs
      have hl : 0 < ((fgetsChars 127 s).1).length ∧ ((fgetsChars 127 s).1).length ≤ 127 :=
        fgetsChars_length 126 s hs
      have ha := fgetsChars_append 127 s
      have hlen : ((fgetsChars 127 s).1).length + ((fgetsChars 127 s).2).length = s.length := by
        rw [← List.length_append, ha]
      obtain ⟨f, rfl⟩ : ∃ f, fuel = f + 1 := ⟨fuel - 1, by omega⟩
      obtain ⟨m, hm⟩ : ∃ m, s.length = m + 1 := ⟨s.length - 1, by omega⟩
      rw [hm, inputLines, inputLines]
      simp only [fgets, hs, if_false]
      rw [ih f (Nat.lt_succ_self f) _ (by omega)]
      have hm2 : ((fgetsChars 127 s).2).length ≤ m := by omega
      rw [ih m (by omega) _ hm2]

/-- An input that starts with a text line is read as that line and then the lines
of the rest. -/
theorem inputLines_textLine_append (l s : List Char) (h : textLine l = true) :
    inputLines (l ++ s).length (l ++ s) = l :: inputLines s.length s := by
  obtain ⟨b, rfl, hlen, hb⟩ := textLine_body l h
  have hne : b ++ ['\n'] ++ s ≠ [] := by simp
  obtain ⟨m, hm⟩ : ∃ m, (b ++ ['\n'] ++ s).length = m + 1 :=
    ⟨(b ++ ['\n'] ++ s).length - 1, by
      simp only [List.length_append, List.length_singleton]; omega⟩
  have hshape : b ++ ['\n'] ++ s = b ++ '\n' :: s := by simp
  rw [hm, inputLines]
  simp only [fgets, hne, if_false]
  rw [hshape, fgetsChars_line 127 b s (by omega) (fun c hc => (hb c hc).1)]
  simp only []
  rw [inputLines_fuel m s (by
    rw [hshape] at hm
    simp only [List.length_append, List.length_cons] at hm
    omega)]

/-- An input that starts with text lines is read as those lines and then the lines
of the rest. -/
theorem inputLines_textLines_append (lines : List (List Char)) (s : List Char)
    (h : ∀ l ∈ lines, textLine l = true) :
    inputLines (lines.flatten ++ s).length (lines.flatten ++ s) =
      lines ++ inputLines s.length s := by
  induction lines with
  | nil => simp
  | cons l ls ih =>
    rw [List.flatten_cons, List.append_assoc,
      inputLines_textLine_append l _ (h l (List.mem_cons_self l ls)),
      ih (fun x hx => h x (List.mem_cons_of_mem l hx))]
    rfl

/-- The C strings of text lines are the lines. -/
theorem map_cstr_textLines (lines : List (List Char)) (h : ∀ l ∈ lines, textLine l = true) :
    lines.map cstr = lines := by
  induction lines with
  | nil => rfl
  | cons l ls ih =>
    rw [List.map_cons, cstr_textLine l (h l (List.mem_cons_self l ls)),
      ih (fun x hx => h x (List.mem_cons_of_mem l hx))]

/-! ## The tokens of a marker line -/

/-- A token has a first character that is not white space, and no white space. -/
theorem isToken_cases (t : List Char) (h : isToken t = true) :
    (∃ a u, t = a :: u ∧ isspace a = false) ∧ ∀ c ∈ t, isspace c = false := by
  unfold isToken at h
  simp only [Bool.and_eq_true, Bool.not_eq_true', List.all_eq_true] at h
  obtain ⟨h1, h2⟩ := h
  refine ⟨?_, h2⟩
  cases t with
  | nil => simp at h1
  | cons a u => exact ⟨a, u, rfl, h2 a (List.mem_cons_self a u)⟩

/-- A run of white space has a first character that is white space, and white
space only. -/
theorem isBlankRun_cases (w : List Char) (h : isBlankRun w = true) :
    (∃ a u, w = a :: u ∧ isspace a = true) ∧ ∀ c ∈ w, isspace c = true := by
  unfold isBlankRun at h
  simp only [Bool.and_eq_true, Bool.not_eq_true', List.all_eq_true] at h
  obtain ⟨h1, h2⟩ := h
  refine ⟨?_, h2⟩
  cases w with
  | nil => simp at h1
  | cons a u => exact ⟨a, u, rfl, h2 a (List.mem_cons_self a u)⟩

/-- Skipping white space skips a whole run of it before a token. -/
theorem dropWhile_isspace_run (w t : List Char) (hw : ∀ c ∈ w, isspace c = true) :
    (w ++ t).dropWhile isspace = t.dropWhile isspace := by
  induction w with
  | nil => rfl
  | cons a u ih =>
    rw [List.cons_append, List.dropWhile_cons, hw a (List.mem_cons_self a u)]
    exact ih (fun c hc => hw c (List.mem_cons_of_mem a hc))

/-- A token followed by white space is taken whole, and the white space is left. -/
theorem span_token (t w rest : List Char) (ht : ∀ c ∈ t, isspace c = false)
    (hw : isBlankRun w = true) :
    (t ++ (w ++ rest)).takeWhile (fun c => !isspace c) = t ∧
    (t ++ (w ++ rest)).dropWhile (fun c => !isspace c) = w ++ rest := by
  obtain ⟨⟨a, u, rfl, ha⟩, _⟩ := isBlankRun_cases w hw
  induction t with
  | nil => simp [List.takeWhile_cons, List.dropWhile_cons, ha]
  | cons b v ih =>
    have hb : isspace b = false := ht b (List.mem_cons_self b v)
    have ih2 := ih (fun c hc => ht c (List.mem_cons_of_mem b hc))
    rw [List.cons_append, List.takeWhile_cons, List.dropWhile_cons]
    simp only [hb, Bool.not_false, if_true]
    exact ⟨by rw [ih2.1], ih2.2⟩

/-- One `%s` directive on white space, a token and white space: the token is read
and the input left starts at the white space after it. -/
theorem scanToken_token (w0 t w rest : List Char) (h0 : ∀ c ∈ w0, isspace c = true)
    (ht : isToken t = true) (hw : isBlankRun w = true) :
    scanToken (w0 ++ (t ++ (w ++ rest))) = some (t, w ++ rest) := by
  obtain ⟨⟨a, u, hau, ha⟩, hall⟩ := isToken_cases t ht
  have hd : (w0 ++ (t ++ (w ++ rest))).dropWhile isspace = t ++ (w ++ rest) := by
    rw [dropWhile_isspace_run w0 _ h0, hau, List.cons_append, List.dropWhile_cons, ha]
    rfl
  have hne : t ++ (w ++ rest) ≠ [] := by
    rw [hau]
    exact List.cons_ne_nil _ _
  unfold scanToken
  simp only [hd, hne, if_false]
  rw [(span_token t w rest hall hw).1, (span_token t w rest hall hw).2]

/-- The name `getfilename` reads from a line made of a token, white space, a second
token, white space, a third token and white space, whatever follows: the third
token. -/
theorem getfilename_third_token (t1 w1 t2 w2 name w3 tail : List Char)
    (h1 : isToken t1 = true) (hw1 : isBlankRun w1 = true) (h2 : isToken t2 = true)
    (hw2 : isBlankRun w2 = true) (h3 : isToken name = true) (hw3 : isBlankRun w3 = true) :
    getfilename (t1 ++ w1 ++ t2 ++ w2 ++ name ++ w3 ++ tail) = some name := by
  have e1 := scanToken_token [] t1 w1 (t2 ++ (w2 ++ (name ++ (w3 ++ tail))))
    (fun c hc => absurd hc (List.not_mem_nil c)) h1 hw1
  have e2 := scanToken_token w1 t2 w2 (name ++ (w3 ++ tail))
    (isBlankRun_cases w1 hw1).2 h2 hw2
  have e3 := scanToken_token w2 name w3 tail (isBlankRun_cases w2 hw2).2 h3 hw3
  simp only [List.nil_append] at e1
  simp only [List.append_assoc]
  unfold getfilename
  simp only [e1, e2, e3]

/-! ## The claim on the marker line -/

/-- C10 (the claim fails). The marker line names a file of 120 characters, so it is
145 characters long and its third token is that name. The buffer `curline` holds 127
characters: the first `fgets` stores the line up to the 116th character of the name,
the record is named by these 116 characters, and the `fgets` of line 173 absorbs the
end of the marker line itself. The line that follows the marker line is not
discarded: it begins with the magic number and opens a second record, in which the
value of `NAXIS1` is stored. -/
theorem C10_long_marker_line_is_read_in_pieces :
    longMarkerTranscript =
      ("====> file ".toList ++ List.replicate 120 'a' ++ " (main) <====\n".toList) ++
        ("SIMPLE  =                    T\n".toList ++
          "NAXIS1  =                  100\n".toList) ∧
    getfilename ("====> file ".toList ++ List.replicate 120 'a' ++
      " (main) <====\n".toList) = some (List.replicate 120 'a') ∧
    ("====> file ".toList ++ List.replicate 120 'a' ++ " (main) <====\n".toList).length = 145 ∧
    inputLines longMarkerTranscript.length longMarkerTranscript =
      ["====> file ".toList ++ List.replicate 116 'a',
       List.replicate 4 'a' ++ " (main) <====\n".toList,
       "SIMPLE  =                    T\n".toList, "NAXIS1  =                  100\n".toList] ∧
    readLines ["NAXIS1".toList] ⟨[], false⟩
        ((inputLines longMarkerTranscript.length longMarkerTranscript).map cstr) =
      some ⟨[⟨List.replicate 116 'a', [⟨[], 0⟩]⟩, ⟨[], [⟨"100".toList, 1⟩]⟩], true⟩ ∧
    readLines ["NAXIS1".toList] ⟨[], false⟩
        ((inputLines longMarkerTranscript.length longMarkerTranscript).map cstr) ≠
      some ⟨[⟨List.replicate 120 'a', [⟨"100".toList, 1⟩]⟩], true⟩ := by
  refine ⟨by decide!, by decide!, by decide!, by decide!, by decide!, by decide!⟩

/-- C10 (amended). In every state of the reading loop, for every input left that
begins with a marker line and the line after it, both text lines that `fgets` reads
whole (at most 127 characters with the newline, no NUL), the marker line being made
of a first token that begins with the five characters of the marker, a second token
and a third token, with white space between them and after the third: the loop
opens a record whose name is the third token and whose presence flags are all 0,
raises `printnames`, and resumes on the input after the line that follows the marker
line. That line is dropped whatever it holds: it opens no record and stores no
value. When the marker line is the last line of the input the record is opened all
the same. -/
theorem C10_marker_line_opens_record_next_line_dropped (keys : List (List Char))
    (st : ReadState) (marker t1 w1 t2 w2 name w3 tail next rest : List Char)
    (hshape : marker = t1 ++ w1 ++ t2 ++ w2 ++ name ++ w3 ++ tail)
    (hmark : "====>".toList <+: t1)
    (h1 : isToken t1 = true) (hw1 : isBlankRun w1 = true) (h2 : isToken t2 = true)
    (hw2 : isBlankRun w2 = true) (h3 : isToken name = true) (hw3 : isBlankRun w3 = true)
    (hm : textLine marker = true) (hn : textLine next = true) :
    readLines keys st
        ((inputLines (marker ++ next ++ rest).length (marker ++ next ++ rest)).map cstr) =
      readLines keys ⟨st.allrecords ++ [⟨name, clearKeywords keys.length⟩], true⟩
        ((inputLines rest.length rest).map cstr) ∧
    readLines keys st ((inputLines marker.length marker).map cstr) =
      some ⟨st.allrecords ++ [⟨name, clearKeywords keys.length⟩], true⟩ ∧
    (clearKeywords keys.length).length = keys.length ∧
    (∀ k ∈ clearKeywords keys.length, k.present = 0) := by
  have hname : getfilename marker = some name := by
    rw [hshape]
    exact getfilename_third_token t1 w1 t2 w2 name w3 tail h1 hw1 h2 hw2 h3 hw3
  have hpre : "====>".toList <+: marker := by
    rw [hshape]
    simp only [List.append_assoc]
    exact hmark.trans (List.prefix_append _ _)
  refine ⟨?_, ?_, ?_, ?_⟩
  · rw [List.append_assoc, inputLines_textLine_append marker _ hm,
      inputLines_textLine_append next _ hn, List.map_cons, List.map_cons,
      cstr_textLine marker hm, cstr_textLine next hn,
      readLines_marker_line keys st marker name _ hpre hname]
    rfl
  · have h0 := inputLines_textLine_append marker [] hm
    rw [List.append_nil] at h0
    rw [h0, List.map_cons, cstr_textLine marker hm,
      readLines_marker_line keys st marker name _ hpre hname]
    rfl
  · simp [clearKeywords]
  · intro k hk
    rw [(List.mem_replicate.mp hk).2]

/-- Witness of C10 (amended): the marker line of `a.fits` is followed by a second
marker line and a card line of the requested keyword; only the record of `a.fits`
exists afterwards, and the card line after the dropped line is stored in it. -/
theorem C10_marker_line_opens_record_next_line_dropped_witness :
    readLines ["NAXIS1".toList] ⟨[], false⟩
        ((inputLines
          ("====> file a.fits (main) <====\n".toList ++
            "====> file b.fits (main) <====\n".toList ++
            "NAXIS1  =                  100\n".toList).length
          ("====> file a.fits (main) <====\n".toList ++
            "====> file b.fits (main) <====\n".toList ++
            "NAXIS1  =                  100\n".toList)).map cstr) =
      some ⟨[⟨"a.fits".toList, [⟨"100".toList, 1⟩]⟩], true⟩ :=
  (C10_marker_line_opens_record_next_line_dropped ["NAXIS1".toList] ⟨[], false⟩
    "====> file a.fits (main) <====\n".toList "====>".toList " ".toList "file".toList
    " ".toList "a.fits".toList " ".toList "(main) <====\n".toList
    "====> file b.fits (main) <====\n".toList "NAXIS1  =                  100\n".toList
    (by decide) (by decide) (by decide) (by decide) (by decide) (by decide) (by decide)
    (by decide) (by decide) (by decide)).1.trans (by decide!)

/-! ## Marker lines -/

/-- A body of at most 126 characters without newline and NUL, followed by a newline,
is a text line. -/
theorem textLine_of_body (b : List Char) (hlen : b.length ≤ 126)
    (hb : ∀ c ∈ b, c ≠ '\n' ∧ c ≠ nulChar) : textLine (b ++ ['\n']) = true := by
  unfold textLine
  rw [List.getLast?_concat]
  simp only [List.dropLast_concat, List.length_append, List.length_singleton,
    Bool.and_eq_true, beq_self_eq_true, decide_eq_true_eq, List.all_eq_true, bne_iff_ne,
    ne_eq, true_and]
  exact ⟨by omega, hb⟩

/-- White space is neither of the characters of a token. -/
theorem not_isspace_ne_newline (c : Char) (h : isspace c = false) : c ≠ '\n' := by
  intro hc
  rw [hc] at h
  exact absurd h (by decide)

/-- A decimal digit is not white space and not NUL. -/
theorem digitChar_token (d : Nat) (h : d < 10) :
    isspace (Nat.digitChar d) = false ∧ Nat.digitChar d ≠ nulChar := by
  interval_cases d <;> exact ⟨by decide, by decide⟩

/-- The digits written by `%d` hold no white space and no NUL. -/
theorem toDigitsCore_chars (fuel n : Nat) (acc : List Char)
    (hacc : ∀ c ∈ acc, isspace c = false ∧ c ≠ nulChar) :
    ∀ c ∈ Nat.toDigitsCore 10 fuel n acc, isspace c = false ∧ c ≠ nulChar := by
  induction fuel generalizing n acc with
  | zero => simpa [Nat.toDigitsCore] using hacc
  | succ f ih =>
    have hd := digitChar_token (n % 10) (Nat.mod_lt n (by decide))
    have hacc2 : ∀ c ∈ Nat.digitChar (n % 10) :: acc, isspace c = false ∧ c ≠ nulChar := by
      intro c hc
      rcases List.mem_cons.mp hc with rfl | hc
      · exact hd
      · exact hacc c hc
    rw [Nat.toDigitsCore]
    by_cases h0 : n / 10 = 0
    · simp only [h0, if_true]
      exact hacc2
    · simp only [h0, if_false]
      exact ih (n / 10) _ hacc2

/-- The digits written are at least those written so far. -/
theorem toDigitsCore_length_ge (fuel n : Nat) (acc : List Char) :
    acc.length ≤ (Nat.toDigitsCore 10 fuel n acc).length := by
  induction fuel generalizing n acc with
  | zero => simp [Nat.toDigitsCore]
  | succ f ih =>
    rw [Nat.toDigitsCore]
    by_cases h0 : n / 10 = 0
    · simp only [h0, if_true, List.length_cons]
      omega
    · simp only [h0, if_false]
      have := ih (n / 10) (Nat.digitChar (n % 10) :: acc)
      simp only [List.length_cons] at this
      omega

/-- The number of an extension is written as a token without NUL, of at most 10
characters when it fits an `int`. -/
theorem repr_token (n : Nat) :
    isToken (Nat.repr n).toList = true ∧
    (∀ c ∈ (Nat.repr n).toList, isspace c = false ∧ c ≠ nulChar) ∧
    (n < 2 ^ 31 → (Nat.repr n).toList.length ≤ 10) := by
  have hlist : (Nat.repr n).toList = Nat.toDigitsCore 10 (n + 1) n [] := rfl
  have hall : ∀ c ∈ (Nat.repr n).toList, isspace c = false ∧ c ≠ nulChar := by
    rw [hlist]
    exact toDigitsCore_chars (n + 1) n [] (fun c hc => absurd hc (List.not_mem_nil c))
  have hne : (Nat.repr n).toList ≠ [] := by
    rw [hlist, Nat.toDigitsCore]
    by_cases h0 : n / 10 = 0
    · simp [h0]
    · simp only [h0, if_false]
      intro hnil
      have := toDigitsCore_length_ge n (n / 10) [Nat.digitChar (n % 10)]
      rw [hnil] at this
      simp at this
  refine ⟨?_, hall, ?_⟩
  · unfold isToken
    simp only [Bool.and_eq_true, Bool.not_eq_true', List.all_eq_true, List.isEmpty_eq_false]
    exact ⟨hne, fun c hc => (hall c hc).1⟩
  · intro hn
    have h10 : n < 10 ^ 10 := Nat.lt_trans hn (by norm_num)
    exact Nat.repr_length n 10 (by decide) h10

/-- The marker line of an extension is a text line that begins with the marker, and
the name read from it is the number of the extension. -/
theorem xtensionMarker_line (n : Nat) (hn : n < 2 ^ 31) :
    textLine (xtensionMarker n) = true ∧ "====>".toList <+: xtensionMarker n ∧
    getfilename (xtensionMarker n) = some (Nat.repr n).toList := by
  obtain ⟨htok, hall, hlen⟩ := repr_token n
  have hshape : xtensionMarker n = "====>".toList ++ " ".toList ++ "xtension".toList ++
      " ".toList ++ (Nat.repr n).toList ++ "\n".toList ++ [] := by
    unfold xtensionMarker
    simp
  refine ⟨?_, ?_, ?_⟩
  · unfold xtensionMarker
    apply textLine_of_body
    · have := hlen hn
      rw [List.length_append]
      have h15 : "====> xtension ".toList.length = 15 := by decide
      omega
    · intro c hc
      rcases List.mem_append.mp hc with hc | hc
      · have hlit : ∀ x ∈ "====> xtension ".toList, x ≠ '\n' ∧ x ≠ nulChar := by decide
        exact hlit c hc
      · exact ⟨not_isspace_ne_newline c (hall c hc).1, (hall c hc).2⟩
  · unfold xtensionMarker
    exact ⟨" xtension ".toList ++ (Nat.repr n).toList ++ ['\n'], by simp⟩
  · rw [hshape]
    exact getfilename_third_token _ _ _ _ _ _ _ (by decide) (by decide) (by decide)
      (by decide) htok (by decide)

/-- A short name is a token without newline and NUL. -/
theorem isShortName_cases (name : List Char) (h : isShortName name = true) :
    isToken name = true ∧ name.length ≤ 102 ∧ ∀ c ∈ name, c ≠ '\n' ∧ c ≠ nulChar := by
  unfold isShortName at h
  simp only [Bool.and_eq_true, decide_eq_true_eq, List.all_eq_true, bne_iff_ne, ne_eq] at h
  obtain ⟨⟨h1, h2⟩, h3⟩ := h
  refine ⟨h1, h2, fun c hc => ⟨?_, h3 c hc⟩⟩
  exact not_isspace_ne_newline c ((isToken_cases name h1).2 c hc)

/-- The marker line of a file with a short name is a text line that begins with the
marker, and the name read from it is the name of the file. -/
theorem fileMarker_line (name : List Char) (h : isShortName name = true) :
    textLine (fileMarker name) = true ∧ "====>".toList <+: fileMarker name ∧
    getfilename (fileMarker name) = some name := by
  obtain ⟨htok, hlen, hall⟩ := isShortName_cases name h
  have hshape : fileMarker name = "====>".toList ++ " ".toList ++ "file".toList ++
      " ".toList ++ name ++ " ".toList ++ "(main) <====\n".toList := by
    unfold fileMarker
    simp
  have hbody : fileMarker name =
      ("====> file ".toList ++ name ++ " (main) <====".toList) ++ ['\n'] := by
    unfold fileMarker
    simp
  refine ⟨?_, ?_, ?_⟩
  · rw [hbody]
    apply textLine_of_body
    · rw [List.length_append, List.length_append]
      have h11 : "====> file ".toList.length = 11 := by decide
      have h13 : " (main) <====".toList.length = 13 := by decide
      omega
    · intro c hc
      rcases List.mem_append.mp hc with hc | hc
      · rcases List.mem_append.mp hc with hc | hc
        · have hlit : ∀ x ∈ "====> file ".toList, x ≠ '\n' ∧ x ≠ nulChar := by decide
          exact hlit c hc
        · exact hall c hc
      · have hlit : ∀ x ∈ " (main) <====".toList, x ≠ '\n' ∧ x ≠ nulChar := by decide
        exact hlit c hc
  · unfold fileMarker
    exact ⟨" file ".toList ++ name ++ " (main) <====\n".toList, by simp⟩
  · rw [hshape]
    exact getfilename_third_token _ _ _ _ _ _ _ (by decide) (by decide) (by decide)
      (by decide) htok (by decide)

/-! ## Card lines -/

/-- A card of text can be printed and holds no newline. -/
theorem isTextCard_cases (c : List Char) (h : isTextCard c = true) :
    printCard c ≠ none ∧ '\n' ∉ c := by
  unfold isTextCard at h
  simp only [Bool.and_eq_true, Bool.not_eq_true', List.contains_eq_any_beq,
    List.any_eq_false, beq_iff_eq] at h
  refine ⟨?_, ?_⟩
  · intro hn
    rw [hn] at h
    exact absurd h.1 (by simp)
  · intro hm
    exact h.2 '\n' hm rfl

/-- The text of a card is a prefix of the card. -/
theorem cardText_prefix_of_card (c : List Char) : cardText c <+: c :=
  (List.rdropWhile_prefix _ _).trans (List.takeWhile_prefix _)

/-- The text of a card holds no NUL. -/
theorem nul_not_mem_cardText (c : List Char) : nulChar ∉ cardText c := by
  intro hm
  have h1 : nulChar ∈ cstr c := (List.rdropWhile_prefix _ _).subset hm
  have h2 := List.mem_takeWhile_imp h1
  simp at h2

/-- The line of a card of at most 126 bytes without newline is a text line. -/
theorem cardLine_textLine (c : List Char) (hlen : c.length ≤ 126) (hnl : '\n' ∉ c) :
    textLine (cardLine c) = true := by
  unfold cardLine
  apply textLine_of_body
  · exact Nat.le_trans (cardText_prefix_of_card c).length_le hlen
  · intro x hx
    refine ⟨?_, ?_⟩
    · intro hxn
      rw [hxn] at hx
      exact hnl ((cardText_prefix_of_card c).subset hx)
    · intro hxn
      rw [hxn] at hx
      exact nul_not_mem_cardText c hx

/-- A text without newline that begins the line of a card begins the card. -/
theorem isPrefixOf_cardLine (p c : List Char) (hp : p.getLast? ≠ some '\n')
    (h : p.isPrefixOf (cardLine c) = true) : p.isPrefixOf c = true := by
  rw [List.isPrefixOf_iff_prefix] at h ⊢
  unfold cardLine at h
  rcases List.prefix_concat_iff.mp h with h | h
  · rw [h, List.getLast?_concat] at hp
    exact absurd rfl hp
  · exact h.trans (cardText_prefix_of_card c)

/-- The line of a card that begins neither with the marker nor with the magic number
opens no record. -/
theorem isfilename_cardLine (c : List Char) (h : isfilename c = 0) :
    isfilename (cardLine c) = 0 := by
  unfold isfilename at h ⊢
  by_cases h1 : "====>".toList.isPrefixOf c = true
  · rw [if_pos h1] at h
    exact absurd h (by decide)
  · by_cases h2 : "SIMPLE  =".toList.isPrefixOf c = true
    · rw [if_neg h1, if_pos h2] at h
      exact absurd h (by decide)
    · have g1 : ¬ "====>".toList.isPrefixOf (cardLine c) = true :=
        fun hc => h1 (isPrefixOf_cardLine _ c (by decide) hc)
      have g2 : ¬ "SIMPLE  =".toList.isPrefixOf (cardLine c) = true :=
        fun hc => h2 (isPrefixOf_cardLine _ c (by decide) hc)
      rw [if_neg g1, if_neg g2]

/-- A card that begins `END` begins neither with the marker nor with the magic
number. -/
theorem isfilename_of_isEND (c : List Char) (h : isEND c = true) : isfilename c = 0 := by
  unfold isEND at h
  obtain ⟨t, rfl⟩ := List.isPrefixOf_iff_prefix.mp h
  show isfilename ('E' :: 'N' :: 'D' :: t) = 0
  simp [isfilename, List.isPrefixOf]

/-- A card that begins `XTENSION` begins neither with the marker nor with the magic
number. -/
theorem isfilename_of_isXTENSION (c : List Char) (h : isXTENSION c = true) :
    isfilename c = 0 := by
  unfold isXTENSION at h
  obtain ⟨t, rfl⟩ := List.isPrefixOf_iff_prefix.mp h
  show isfilename ('X' :: 'T' :: 'E' :: 'N' :: 'S' :: 'I' :: 'O' :: 'N' :: t) = 0
  simp [isfilename, List.isPrefixOf]

/-- The cards of a main header. -/
theorem isMainHeader_cards (main : List (List Char)) (h : isMainHeader main = true) :
    ∃ first mid e, main = first :: (mid ++ [e]) ∧ first.length = 80 ∧
      "SIMPLE  =".toList <+: first ∧
      (∀ c ∈ mid, c.length = 80 ∧ isEND c = false) ∧ e.length = 80 ∧ isEND e = true := by
  cases main with
  | nil => simp [isMainHeader] at h
  | cons x rest =>
    rw [isMainHeader] at h
    cases hl : rest.getLast? with
    | none => simp [hl] at h
    | some e =>
      simp only [hl, Bool.and_eq_true, decide_eq_true_eq, List.all_eq_true,
        Bool.not_eq_true'] at h
      obtain ⟨⟨hx, hxt⟩, ⟨he, hend⟩, hmid⟩ := h
      refine ⟨x, rest.dropLast, e, ?_, hx, List.isPrefixOf_iff_prefix.mp hxt, hmid, he, hend⟩
      rw [List.dropLast_append_getLast? e (by rw [hl]; rfl)]

/-! ## The transcript of a file is made of sections -/

/-- The cards of an extension header are of 80 bytes, and there is a first one. -/
theorem isExtensionHeader_lengths (ext : List (List Char))
    (h : isExtensionHeader ext = true) : ext ≠ [] ∧ ∀ c ∈ ext, c.length = 80 := by
  obtain ⟨x, mid, e, rfl, hx, _, hmid, he, _⟩ := isExtensionHeader_cards ext h
  refine ⟨List.cons_ne_nil _ _, ?_⟩
  intro c hc
  simp only [List.mem_cons, List.mem_append, List.mem_singleton, List.not_mem_nil,
    or_false] at hc
  rcases hc with rfl | hc | rfl
  · exact hx
  · exact (hmid c hc).1
  · exact he

/-- The cards of a main header are of 80 bytes, and there is a first one. -/
theorem isMainHeader_lengths (main : List (List Char)) (h : isMainHeader main = true) :
    main ≠ [] ∧ ∀ c ∈ main, c.length = 80 := by
  obtain ⟨x, mid, e, rfl, hx, _, hmid, he, _⟩ := isMainHeader_cards main h
  refine ⟨List.cons_ne_nil _ _, ?_⟩
  intro c hc
  simp only [List.mem_cons, List.mem_append, List.mem_singleton, List.not_mem_nil,
    or_false] at hc
  rcases hc with rfl | hc | rfl
  · exact hx
  · exact (hmid c hc).1
  · exact he

/-- The section of a header of text cards after a marker line of text: its lines are
text lines, the lines after the first card open no record when the cards after the
first begin neither with the marker nor with the magic number, and the section is
the marker line followed by the lines of the cards. -/
theorem headerSection_lines (marker : List Char) (cards : List (List Char))
    (more : List (List Char × List Char × List (List Char)))
    (hm : textLine marker = true) (hne : cards ≠ [])
    (h80 : ∀ c ∈ cards, c.length = 80) (htext : ∀ c ∈ cards, isTextCard c = true)
    (hplain : ∀ c ∈ cards.tail, isfilename c = 0) :
    (∀ l ∈ sectionLines [headerSection marker cards], textLine l = true) ∧
    (∀ l ∈ (headerSection marker cards).2.2, isfilename l = 0) ∧
    (sectionLines (headerSection marker cards :: more)).flatten =
      marker ++ cardLines cards ++ (sectionLines more).flatten := by
  cases cards with
  | nil => exact absurd rfl hne
  | cons x rest =>
    have hline : ∀ c ∈ x :: rest, textLine (cardLine c) = true := fun c hc =>
      cardLine_textLine c (by rw [h80 c hc]; decide) (isTextCard_cases c (htext c hc)).2
    refine ⟨?_, ?_, ?_⟩
    · intro l hl
      simp only [headerSection, sectionLines, List.headD_cons, List.tail_cons,
        List.append_nil, List.mem_cons, List.mem_map] at hl
      rcases hl with rfl | rfl | ⟨c, hc, rfl⟩
      · exact hm
      · exact hline x (List.mem_cons_self x rest)
      · exact hline c (List.mem_cons_of_mem x hc)
    · intro l hl
      simp only [headerSection, List.tail_cons, List.mem_map] at hl
      obtain ⟨c, hc, rfl⟩ := hl
      exact isfilename_cardLine c (hplain c hc)
    · simp only [headerSection, sectionLines, List.headD_cons, List.tail_cons,
        List.flatten_cons, List.flatten_append, cardLines, List.map_cons, List.append_assoc]

/-- The sections of extension headers of text cards: their lines are text lines,
their marker lines begin with the marker and name the extension by its number, the
lines after the first card of each open no record, their records are those of
`xtensionRecords`, and put together they are what is emitted for the extensions. -/
theorem xtensionSections_lines (keys : List (List Char)) (exts : List (List (List Char)))
    (n : Nat) (hn : n + exts.length ≤ 2 ^ 31)
    (hext : ∀ x ∈ exts, isExtensionHeader x = true)
    (htext : ∀ x ∈ exts, ∀ c ∈ x, isTextCard c = true)
    (hplain : ∀ x ∈ exts, ∀ c ∈ x.tail, isfilename c = 0) :
    (∀ l ∈ sectionLines (xtensionSections n exts), textLine l = true) ∧
    (∀ s ∈ xtensionSections n exts, "====>".toList <+: s.1) ∧
    (∀ s ∈ xtensionSections n exts, getfilename s.1 ≠ none) ∧
    (∀ s ∈ xtensionSections n exts, ∀ l ∈ s.2.2, isfilename l = 0) ∧
    sectionRecords keys (xtensionSections n exts) = xtensionRecords keys n exts ∧
    (sectionLines (xtensionSections n exts)).flatten = xtensionsText n exts := by
  induction exts generalizing n with
  | nil =>
    simp [xtensionSections, sectionLines, sectionRecords, xtensionRecords, xtensionsText]
  | cons ext more ih =>
    have hlen : n + (more.length + 1) ≤ 2 ^ 31 := by simpa using hn
    have hn1 : n < 2 ^ 31 := by omega
    obtain ⟨hmt, hmp, hmn⟩ := xtensionMarker_line n hn1
    obtain ⟨hne, h80⟩ := isExtensionHeader_lengths ext (hext ext (List.mem_cons_self _ _))
    obtain ⟨i1, i2, i3, i4, i5, i6⟩ := ih (n + 1) (by omega)
      (fun x hx => hext x (List.mem_cons_of_mem _ hx))
      (fun x hx => htext x (List.mem_cons_of_mem _ hx))
      (fun x hx => hplain x (List.mem_cons_of_mem _ hx))
    obtain ⟨s1, s2, s3⟩ := headerSection_lines (xtensionMarker n) ext
      (xtensionSections (n + 1) more) hmt hne h80 (htext ext (List.mem_cons_self _ _))
      (hplain ext (List.mem_cons_self _ _))
    have hsplit : sectionLines (xtensionSections n (ext :: more)) =
        sectionLines [headerSection (xtensionMarker n) ext] ++
          sectionLines (xtensionSections (n + 1) more) := by
      simp [xtensionSections, headerSection, sectionLines]
    refine ⟨?_, ?_, ?_, ?_, ?_, ?_⟩
    · intro l hl
      rw [hsplit] at hl
      rcases List.mem_append.mp hl with hl | hl
      · exact s1 l hl
      · exact i1 l hl
    · intro s hs
      rw [xtensionSections] at hs
      rcases List.mem_cons.mp hs with rfl | hs
      · exact hmp
      · exact i2 s hs
    · intro s hs
      rw [xtensionSections] at hs
      rcases List.mem_cons.mp hs with rfl | hs
      · show getfilename (xtensionMarker n) ≠ none
        rw [hmn]
        exact Option.some_ne_none _
      · exact i3 s hs
    · intro s hs
      rw [xtensionSections] at hs
      rcases List.mem_cons.mp hs with rfl | hs
      · exact s2
      · exact i4 s hs
    · rw [xtensionSections, xtensionRecords]
      simp only [headerSection, sectionRecords, hmn, i5]
    · rw [xtensionSections, s3, i6, xtensionsText]

/-- A transcript made of sections of text lines, read from its characters: every
section adds exactly one record, built from the lines of that section only. -/
theorem readLines_transcript_sections (keys : List (List Char))
    (sections : List (List Char × List Char × List (List Char))) (st : ReadState)
    (htext : ∀ l ∈ sectionLines sections, textLine l = true)
    (hmark : ∀ s ∈ sections, "====>".toList <+: s.1)
    (hname : ∀ s ∈ sections, getfilename s.1 ≠ none)
    (hplain : ∀ s ∈ sections, ∀ l ∈ s.2.2, isfilename l = 0) :
    readLines keys st
        ((inputLines (sectionLines sections).flatten.length
          (sectionLines sections).flatten).map cstr) =
      (sectionRecords keys sections).map (fun recs =>
        ⟨st.allrecords ++ recs, st.printnames || !sections.isEmpty⟩) := by
  have h := inputLines_textLines_append (sectionLines sections) [] htext
  simp only [List.append_nil, List.length_nil, inputLines] at h
  rw [h, map_cstr_textLines _ htext]
  exact readLines_sections keys sections st hmark hname hplain

/-- Storing the value of a line leaves the name of the record. -/
theorem storeLine_filename (keys : List (List Char)) (r r2 : record) (line : List Char)
    (h : storeLine keys r line = some r2) : r2.filename = r.filename := by
  unfold storeLine at h
  cases hk : isdetectedkeyword line keys with
  | none => simp only [hk, reduceCtorEq] at h
  | some kwnum =>
    simp only [hk] at h
    by_cases hm : kwnum ≠ -1
    · rw [if_pos hm] at h
      cases hv : getkeywordvalue line with
      | none => simp only [hv, reduceCtorEq] at h
      | some word =>
        simp only [hv, Option.some.injEq] at h
        rw [← h]
    · rw [if_neg hm, Option.some.injEq] at h
      rw [h]

/-- Storing the values of lines leaves the name of the record. -/
theorem storeLines_filename (keys : List (List Char)) (r r2 : record)
    (lines : List (List Char)) (h : storeLines keys r lines = some r2) :
    r2.filename = r.filename := by
  induction lines generalizing r with
  | nil =>
    simp only [storeLines, Option.some.injEq] at h
    rw [h]
  | cons l ls ih =>
    rw [storeLines] at h
    cases hs : storeLine keys r l with
    | none => simp only [hs, reduceCtorEq] at h
    | some r3 =>
      simp only [hs] at h
      rw [ih r3 h, storeLine_filename keys r r3 l hs]

/-- The records of extension headers are as many as the headers, and they are named
by the numbers of the extensions. -/
theorem xtensionRecords_names (keys : List (List Char)) (exts : List (List (List Char)))
    (n : Nat) (rs : List record) (h : xtensionRecords keys n exts = some rs) :
    rs.length = exts.length ∧
    rs.map (fun r => r.filename) =
      (List.range exts.length).map (fun i => (Nat.repr (i + n)).toList) := by
  induction exts generalizing n rs with
  | nil =>
    simp only [xtensionRecords, Option.some.injEq] at h
    rw [← h]
    exact ⟨rfl, rfl⟩
  | cons ext more ih =>
    rw [xtensionRecords] at h
    cases hr : sectionRecord keys (Nat.repr n).toList (ext.tail.map cardLine) with
    | none => simp only [hr, reduceCtorEq] at h
    | some r =>
      simp only [hr] at h
      cases hm : xtensionRecords keys (n + 1) more with
      | none => simp only [hm, reduceCtorEq] at h
      | some rs2 =>
        simp only [hm, Option.some.injEq] at h
        obtain ⟨i1, i2⟩ := ih (n + 1) rs2 hm
        have hf : r.filename = (Nat.repr n).toList := storeLines_filename keys _ r _ hr
        rw [← h]
        refine ⟨by rw [List.length_cons, List.length_cons, i1], ?_⟩
        rw [List.map_cons, i2, hf, List.length_cons, List.range_succ_eq_map, List.map_cons,
          List.map_map]
        congr 1
        · rw [Nat.zero_add]
        · apply List.map_congr_left
          intro i _
          show (Nat.repr (i + (n + 1))).toList = (Nat.repr (i + 1 + n)).toList
          rw [Nat.add_comm n 1, Nat.add_assoc]

/-! ## The claim on the marker lines of extensions -/

/-- C19 (the claim fails). The file with two extensions dumped with the requested
index 1 gives a transcript with one emitted extension, whose marker line comes right
after the marker line of the file. That marker line is the line dropped after a
marker: it opens no record. The transcript yields one record, not two, and the value
`7` of the keyword `NAXIS1` of the extension is stored in the record of the file. -/
theorem C19_marker_after_file_marker_opens_no_record :
    dfits "dfits".toList ["-x".toList, "1".toList, "x.fits".toList] exampleFiles [] =
      some (0,
        ("====> file x.fits (main) <====\n" ++
         "====> xtension 1\n" ++
         "XTENSION= 'IMAGE   '\n" ++
         "NAXIS   =                    1\n" ++
         "NAXIS1  =                    7\n" ++
         "END\n").toList) ∧
    readLines ["NAXIS1".toList] ⟨[], false⟩
        ["====> file x.fits (main) <====\n".toList, "====> xtension 1\n".toList,
         "XTENSION= 'IMAGE   '\n".toList, "NAXIS   =                    1\n".toList,
         "NAXIS1  =                    7\n".toList, "END\n".toList] =
      some ⟨[⟨"x.fits".toList, [⟨"7".toList, 1⟩]⟩], true⟩ ∧
    ((dfits "dfits".toList ["-x".toList, "1".toList, "x.fits".toList] exampleFiles []).bind
      (fun t => fitsort "fitsort".toList ["NAXIS1".toList] t.2)) =
      some (0, ("FILE  \tNAXIS1\t\n" ++ "x.fits\t7     \t\n").toList) := by
  refine ⟨by decide!, by decide!, by decide!⟩

/-- C19 (amended). Every line beginning with the five characters of the marker that
the loop reads as its current line is a boundary, the marker line of an extension
included; the line right after a boundary line is dropped, also when it is itself a
marker line. For a file whose name is one token of at most 102 characters, so that
its marker line is read whole, and whose cards can be printed, hold no newline and,
the first card of each header apart, begin neither with the marker nor with the
magic number:

* dumped with the requested index 0 (main header and `m` extension headers, fewer
  than 2^31), the transcript read from its characters yields the records of
  `fileRecords`, whenever the values of its lines can be stored: one record named by
  the file and holding the values of the main header, then for each extension one
  record named by its number and holding the values of that extension only, the
  line of its `XTENSION` card being dropped; they are `m + 1`;
* dumped with a requested index `n` from 1 on, the transcript begins with the marker
  line of the file followed at once by the marker line of extension `n`, which is the
  line dropped: the transcript yields one record, named by the file, holding the
  values of the cards of extension `n`. -/
theorem C19_records_of_a_dumped_file (keys : List (List Char)) (name : List Char)
    (main : List (List Char)) (exts : List (List (List Char)))
    (first : List Char) (pre ext : List (List Char)) (tail : List Char) (n : Nat)
    (hname : isShortName name = true)
    (hmain : isMainHeader main = true)
    (hext : ∀ x ∈ exts, isExtensionHeader x = true)
    (hcards : ∀ c ∈ main ++ exts.flatten, isTextCard c = true)
    (hplain : ∀ h ∈ main :: exts, ∀ c ∈ h.tail, isfilename c = 0)
    (hm : exts.length < 2 ^ 31)
    (hfirst : first.length = 80) (hmagic : "SIMPLE  =".toList <+: first)
    (hpre : ∀ c ∈ pre, c.length = 80) (hcount : (pre.filter isXTENSION).length + 1 = n)
    (hn : n < 2 ^ 31)
    (hext2 : isExtensionHeader ext = true) (hcards2 : ∀ c ∈ ext, isTextCard c = true)
    (hplain2 : ∀ c ∈ ext.tail, isfilename c = 0) :
    ((dump_fits name (some (main ++ exts.flatten).flatten) 0).bind (fun t =>
        readLines keys ⟨[], false⟩ ((inputLines t.2.length t.2).map cstr)) =
      (fileRecords keys name main exts).map (fun recs => ⟨recs, true⟩)) ∧
    (∀ recs, fileRecords keys name main exts = some recs →
      recs.length = exts.length + 1 ∧
      recs.map (fun r => r.filename) =
        name :: (List.range exts.length).map (fun i => (Nat.repr (i + 1)).toList)) ∧
    ((dump_fits name (some ((first :: (pre ++ ext)).flatten ++ tail)) (n : Int)).bind (fun t =>
        readLines keys ⟨[], false⟩ ((inputLines t.2.length t.2).map cstr)) =
      (sectionRecord keys name (ext.map cardLine)).map (fun r => ⟨[r], true⟩)) := by
  obtain ⟨hfm, hfp, hfn⟩ := fileMarker_line name hname
  refine ⟨?_, ?_, ?_⟩
  · obtain ⟨hne, h80⟩ := isMainHeader_lengths main hmain
    obtain ⟨f, mid, e, rfl, hf, hmg, hmid, he, hend⟩ := isMainHeader_cards main hmain
    have hall : ∀ c ∈ f :: (mid ++ [e]) ++ exts.flatten, printCard c ≠ none :=
      fun c hc => (isTextCard_cases c (hcards c hc)).1
    have hd := (dump_fits_filter_all_extensions f mid e exts hf hmg hmid he hend hext).1 hall
    obtain ⟨x1, x2, x3, x4, x5, x6⟩ := xtensionSections_lines keys exts 1 (by omega) hext
      (fun x hx c hc => hcards c (List.mem_append_right _ (List.mem_flatten.mpr ⟨x, hx, hc⟩)))
      (fun x hx => hplain x (List.mem_cons_of_mem _ hx))
    obtain ⟨s1, s2, s3⟩ := headerSection_lines (fileMarker name) (f :: (mid ++ [e]))
      (xtensionSections 1 exts) hfm hne h80
      (fun c hc => hcards c (List.mem_append_left _ hc)) (hplain _ (List.mem_cons_self _ _))
    have hsplit : sectionLines (headerSection (fileMarker name) (f :: (mid ++ [e])) ::
          xtensionSections 1 exts) =
        sectionLines [headerSection (fileMarker name) (f :: (mid ++ [e]))] ++
          sectionLines (xtensionSections 1 exts) := by
      simp [headerSection, sectionLines]
    have htext : ∀ l ∈ sectionLines (headerSection (fileMarker name) (f :: (mid ++ [e])) ::
        xtensionSections 1 exts), textLine l = true := by
      intro l hl
      rw [hsplit] at hl
      rcases List.mem_append.mp hl with hl | hl
      · exact s1 l hl
      · exact x1 l hl
    have hread := readLines_transcript_sections keys
      (headerSection (fileMarker name) (f :: (mid ++ [e])) :: xtensionSections 1 exts)
      ⟨[], false⟩ htext
      (fun s hs => by
        rcases List.mem_cons.mp hs with rfl | hs
        · exact hfp
        · exact x2 s hs)
      (fun s hs => by
        rcases List.mem_cons.mp hs with rfl | hs
        · show getfilename (fileMarker name) ≠ none
          rw [hfn]
          exact Option.some_ne_none _
        · exact x3 s hs)
      (fun s hs => by
        rcases List.mem_cons.mp hs with rfl | hs
        · exact s2
        · exact x4 s hs)
    rw [s3, x6] at hread
    have hrec : sectionRecords keys (headerSection (fileMarker name) (f :: (mid ++ [e])) ::
        xtensionSections 1 exts) = fileRecords keys name (f :: (mid ++ [e])) exts := by
      simp only [headerSection, sectionRecords, hfn, x5, fileRecords]
    have htr : "====> file ".toList ++ name ++ " (main) <====\n".toList ++
        (cardLines (f :: (mid ++ [e])) ++ xtensionsText 1 exts) =
        fileMarker name ++ cardLines (f :: (mid ++ [e])) ++ xtensionsText 1 exts := by
      unfold fileMarker
      simp only [List.append_assoc]
    unfold dump_fits
    simp only [hd, Option.map_some', Option.some_bind, htr]
    rw [hread, hrec]
    simp
  · intro recs hrecs
    unfold fileRecords at hrecs
    cases hr : sectionRecord keys name (main.tail.map cardLine) with
    | none => simp only [hr, reduceCtorEq] at hrecs
    | some r =>
      simp only [hr] at hrecs
      cases hx : xtensionRecords keys 1 exts with
      | none => simp only [hx, reduceCtorEq] at hrecs
      | some rs =>
        simp only [hx, Option.some.injEq] at hrecs
        obtain ⟨i1, i2⟩ := xtensionRecords_names keys exts 1 rs hx
        have hf : r.filename = name := storeLines_filename keys _ r _ hr
        rw [← hrecs]
        exact ⟨by rw [List.length_cons, i1], by rw [List.map_cons, hf, i2]⟩
  · obtain ⟨hne, h80⟩ := isExtensionHeader_lengths ext hext2
    obtain ⟨x, mid, e, rfl, hx, hxt, hmid, he, hend⟩ := isExtensionHeader_cards ext hext2
    obtain ⟨hxm, _, _⟩ := xtensionMarker_line n hn
    have hcards80 : ∀ c ∈ first :: (pre ++ x :: (mid ++ [e])), c.length = 80 := by
      intro c hc
      rcases List.mem_cons.mp hc with rfl | hc
      · exact hfirst
      · rcases List.mem_append.mp hc with hc | hc
        · exact hpre c hc
        · exact h80 c hc
    have hshape : first :: (pre ++ x :: (mid ++ [e])) ++ readBlocks tail.length tail =
        first :: (pre ++ x :: (mid ++ e :: readBlocks tail.length tail)) := by simp
    have hprint : ∀ c ∈ x :: (mid ++ [e]), printCard c ≠ none :=
      fun c hc => (isTextCard_cases c (hcards2 c hc)).1
    have hd : dump_fits_filter ((first :: (pre ++ x :: (mid ++ [e]))).flatten ++ tail) (n : Int) =
        some ⟨0, xtensionMarker n ++ cardLines (x :: (mid ++ [e])), [],
          readBlocks tail.length tail⟩ := by
      unfold dump_fits_filter
      rw [readBlocks_cards_append _ tail hcards80, hshape,
        dumpBlocks_single_extension first pre x mid e _ n hfirst hmagic hpre hcount hx hxt
          hmid he hend hprint]
    have hline : ∀ c ∈ x :: (mid ++ [e]), textLine (cardLine c) = true := fun c hc =>
      cardLine_textLine c (by rw [h80 c hc]; decide) (isTextCard_cases c (hcards2 c hc)).2
    have htext : ∀ l ∈ sectionLines
        [(fileMarker name, xtensionMarker n, (x :: (mid ++ [e])).map cardLine)],
        textLine l = true := by
      intro l hl
      simp only [sectionLines, List.append_nil, List.mem_cons, List.mem_map] at hl
      rcases hl with rfl | rfl | ⟨c, hc, rfl⟩
      · exact hfm
      · exact hxm
      · exact hline c (List.mem_cons.mpr hc)
    have hread := readLines_transcript_sections keys
      [(fileMarker name, xtensionMarker n, (x :: (mid ++ [e])).map cardLine)]
      ⟨[], false⟩ htext
      (fun s hs => by
        rw [List.mem_singleton] at hs
        rw [hs]
        exact hfp)
      (fun s hs => by
        rw [List.mem_singleton] at hs
        rw [hs]
        show getfilename (fileMarker name) ≠ none
        rw [hfn]
        exact Option.some_ne_none _)
      (fun s hs l hl => by
        rw [List.mem_singleton] at hs
        rw [hs] at hl
        obtain ⟨c, hc, rfl⟩ := List.mem_map.mp hl
        apply isfilename_cardLine
        rcases List.mem_cons.mp hc with rfl | hc
        · exact isfilename_of_isXTENSION c hxt
        · exact hplain2 c hc)
    have hflat : (sectionLines
        [(fileMarker name, xtensionMarker n, (x :: (mid ++ [e])).map cardLine)]).flatten =
        "====> file ".toList ++ name ++ " (main) <====\n".toList ++
          (xtensionMarker n ++ cardLines (x :: (mid ++ [e]))) := by
      simp only [sectionLines, List.append_nil, List.flatten_cons, cardLines, fileMarker,
        List.append_assoc]
    rw [hflat] at hread
    unfold dump_fits
    simp only [hd, Option.map_some', Option.some_bind]
    rw [hread]
    simp only [sectionRecords, hfn]
    cases hr : sectionRecord keys name ((x :: (mid ++ [e])).map cardLine) with
    | none => rfl
    | some r => simp

/-- Witness of C19 (amended): the file `x.fits` with two extensions. Dumped with the
requested index 0 its transcript yields three records: the file with `NAXIS1` 100,
the extension `1` with 7 and the extension `2` with 9. Dumped with the requested
index 1 its transcript yields one record, the file with 7. -/
theorem C19_records_of_a_dumped_file_witness :
    ((dump_fits "x.fits".toList
        (some ((exampleFirst :: (exampleMid ++ [exampleEnd])) ++
          exampleExtensions.flatten).flatten) 0).bind (fun t =>
        readLines ["NAXIS1".toList] ⟨[], false⟩ ((inputLines t.2.length t.2).map cstr)) =
      some ⟨[⟨"x.fits".toList, [⟨"100".toList, 1⟩]⟩, ⟨"1".toList, [⟨"7".toList, 1⟩]⟩,
        ⟨"2".toList, [⟨"9".toList, 1⟩]⟩], true⟩) ∧
    ((dump_fits "x.fits".toList
        (some ((exampleFirst :: ((exampleMid ++ [exampleEnd]) ++
          [card "XTENSION= 'IMAGE   '", card "NAXIS   =                    1",
           card "NAXIS1  =                    7", card "END"])).flatten ++
          exampleExtension2)) ((1 : Nat) : Int)).bind (fun t =>
        readLines ["NAXIS1".toList] ⟨[], false⟩ ((inputLines t.2.length t.2).map cstr)) =
      some ⟨[⟨"x.fits".toList, [⟨"7".toList, 1⟩]⟩], true⟩) :=
  ⟨(C19_records_of_a_dumped_file ["NAXIS1".toList] "x.fits".toList
      (exampleFirst :: (exampleMid ++ [exampleEnd])) exampleExtensions
      exampleFirst (exampleMid ++ [exampleEnd])
      [card "XTENSION= 'IMAGE   '", card "NAXIS   =                    1",
       card "NAXIS1  =                    7", card "END"] exampleExtension2 1
      (by decide) (by decide) (by decide) (by decide!) (by decide!) (by decide)
      (by decide) (by decide) (by decide) (by decide) (by decide)
      (by decide) (by decide!) (by decide!)).1.trans (by decide!),
    (C19_records_of_a_dumped_file ["NAXIS1".toList] "x.fits".toList
      (exampleFirst :: (exampleMid ++ [exampleEnd])) exampleExtensions
      exampleFirst (exampleMid ++ [exampleEnd])
      [card "XTENSION= 'IMAGE   '", card "NAXIS   =                    1",
       card "NAXIS1  =                    7", card "END"] exampleExtension2 1
      (by decide) (by decide) (by decide) (by decide!) (by decide!) (by decide)
      (by decide) (by decide) (by decide) (by decide) (by decide)
      (by decide) (by decide!) (by decide!)).2.2.trans (by decide!)⟩

end Fits
